import Mathlib

/-!
# signalplus: a shallow embedding of the double-ratchet core

The definitions below follow `signalplus.go` and `signalcrypto.go` function by
function.  Conventions of the embedding:

* a Go `*[KeySize]byte` is a `KeyPtr`: `none` is the nil pointer, `some p` carries
  the address of the array and its 32 bytes.  The arrays are written once, before
  their address is published, so address and contents travel together.  Go's
  `p == q` on pointers is `ptrEq` (addresses), `*p == *q` compares `Ptr.val`;
* a Go `[]byte` result that the caller tests against `nil` is a `Slice`
  (`none` is the nil slice); `[]byte` arguments are plain `Bytes`;
* `uint64` counters are `Nat` with an explicit `% 2 ^ 64`, `int` is `Int`;
* a Go `(T, error)` result is a pair whose second component is `Option Err`;
* a Go run-time panic is `Except.error` of a `Panic`;
* the external libraries (scrypt, curve25519, secretbox, the random reader) are the
  fields of `Prims`; the process-wide effects (heap allocation, reads of the random
  reader) are threaded through a `World`; `time.Now()` is an explicit argument.
-/

namespace Signalplus

/-! ## Basic types -/

abbrev Bytes := List Nat

/-- Go byte slice as seen by a `!= nil` test: `none` is the nil slice. -/
abbrev Slice := Option Bytes

def KeySize : Nat := 32
def NonceSize : Nat := 24
/-- The constant `secretbox.Overhead`. -/
def Overhead : Nat := 16
def MaxSkip : Nat := 100
def maxkey : Nat := 16

def VLowSec : Int := 0
def LowSec : Int := 1
def MedSec : Int := 2
def HighSec : Int := 3
def VHighSec : Int := 4

/-- The error values the package returns. -/
inductive Err where
  | rngFailure
  | kdfFailure
  | encryptedSizeWrong
  | openSecretbox
  | invalidRatchetLevel
  | invalidLevelName
  | noKeyInRing
deriving DecidableEq, Repr

/-- Run-time panics: the explicit one of `SkipMessageKeys` and the ones the Go
runtime raises. -/
inductive Panic where
  | tooManySkipped
  | nilDeref
  | indexOutOfRange
  | loopBound
deriving DecidableEq, Repr

/-- A non-nil `*[KeySize]byte`: the address of the array and its contents. -/
structure Ptr where
  addr : Nat
  val : Bytes
deriving DecidableEq, Repr

/-- A `*[KeySize]byte`; `none` is nil. -/
abbrev KeyPtr := Option Ptr

/-- Go `p == q` on two pointers: same address (nil equals nil only). -/
def ptrEq (p q : KeyPtr) : Bool :=
  match p, q with
  | none, none => true
  | some a, some b => a.addr == b.addr
  | _, _ => false

/-- The heap allocation counter and the number of reads of `rand.Reader` so far. -/
structure World where
  heap : Nat
  draws : Nat
deriving DecidableEq, Repr

/-- The external primitives.
* `scrypt pw salt N` is `scrypt.Key(pw, salt, N, 8, 1, 2 * KeySize)`, `none` when it
  returns an error (on success it returns `2 * KeySize` bytes);
* `scalarMult priv pub` is what `curve25519.ScalarMult` writes to its destination;
* `boxSeal m nonce key` is `secretbox.Seal(nil, m, nonce, key)`;
* `boxOpen box nonce key` is the message `secretbox.Open` recovers, `none` when it
  reports failure;
* `readNonce i` is the result of the `i`-th read of the random reader when it fills a
  nonce, `generateKey i` the `(public, private)` pair `box.GenerateKey` makes of it;
  `none` is a failed read. -/
structure Prims where
  scrypt : Bytes → Bytes → Int → Option Bytes
  scalarMult : Bytes → Bytes → Bytes
  boxSeal : Bytes → Bytes → Bytes → Bytes
  boxOpen : Bytes → Bytes → Bytes → Option Bytes
  readNonce : Nat → Option Bytes
  generateKey : Nat → Option (Bytes × Bytes)

structure Keypair where
  Prikey : KeyPtr
  Pubkey : KeyPtr
deriving DecidableEq, Repr

structure Mesghead where
  Pubkey : KeyPtr
  Nummesg : Nat
  Sendnum : Nat
deriving DecidableEq, Repr

structure skipkey where
  key : KeyPtr
  num : Nat
deriving DecidableEq, Repr

/-- Go `==` on two `skipkey` values, as the map uses it: the pointers are compared
by address, the numbers by value. -/
def skipkey.same (a b : skipkey) : Bool :=
  ptrEq a.key b.key && a.num == b.num

structure Ratchetparam where
  ScryptN : Int
  Count : Int
  Period : Int
  Last : Int
  Ltime : Int
deriving DecidableEq, Repr

/-- The `map[skipkey]*[KeySize]byte`, as an association list without duplicate
keys (up to `skipkey.same`). -/
abbrev SkipMap := List (skipkey × KeyPtr)

/-- Go `v, ok := m[k]`. -/
def SkipMap.get (m : SkipMap) (k : skipkey) : Option KeyPtr :=
  (m.find? (fun e => e.1.same k)).map (fun e => e.2)

/-- Go `delete(m, k)`. -/
def SkipMap.delete (m : SkipMap) (k : skipkey) : SkipMap :=
  m.filter (fun e => !(e.1.same k))

/-- Go `m[k] = v`. -/
def SkipMap.set (m : SkipMap) (k : skipkey) (v : KeyPtr) : SkipMap :=
  (k, v) :: SkipMap.delete m k

/-- The session state.  The `skipped` map is the one `RatchetInitSender` or
`RatchetInitReceiver` made (a nil map is not represented). -/
structure Signalstate where
  rpubkey : KeyPtr
  rootkey : KeyPtr
  nummesg : Nat
  sendnum : Nat
  recvnum : Nat
  sendpair : Keypair
  recvchain : KeyPtr
  sendchain : KeyPtr
  skipped : SkipMap
  rparam : Ratchetparam
  Mesgkey : KeyPtr
  ringkey : Fin 16 → KeyPtr
  ringnum : Fin 16 → Nat
  ringstart : Int
  ringend : Int
deriving DecidableEq

deriving instance DecidableEq for Except

instance : DecidableEq (Signalstate × Mesghead × Slice × Option Err) := inferInstance

instance : DecidableEq (Signalstate × Slice × Option Err) := inferInstance

/-- The package-level `constant`, the salt of the chain step. -/
def constant : Bytes :=
  [0x01, 0x45, 0x94, 0x74, 0x04, 0x99, 0x29, 0x43,
   0x81, 0x24, 0x00, 0x11, 0x69, 0x37, 0x53, 0x87,
   0x92, 0x89, 0x20, 0x34, 0x12, 0x14, 0x88, 0x82,
   0x28, 0x38, 0x47, 0x71, 0x70, 0x23, 0x22, 0x55]

/-- Wrap-around of a Go `int` (64 bits, two's complement). -/
def wrapInt (x : Int) : Int := (x + 2 ^ 63) % 2 ^ 64 - 2 ^ 63

/-- Wrap-around of a `uint64`. -/
def wrapU64 (x : Nat) : Nat := x % 2 ^ 64

/-- The slice `secretbox.Open(nil, ...)` returns for a recovered message: appending
zero bytes to a nil slice leaves it nil. -/
def toSlice (m : Bytes) : Slice := if m = [] then none else some m

/-! ## signalcrypto.go -/

/-- `Nonce`: a fresh array filled from the random reader. -/
def Nonce (P : Prims) (w : World) : (KeyPtr × Option Err) × World :=
  let w1 : World := { heap := w.heap + 1, draws := w.draws + 1 }
  match P.readNonce w.draws with
  | none => ((none, some Err.rngFailure), w1)
  | some b => ((some ⟨w.heap, b⟩, none), w1)

/-- `Encrypt`: the nonce followed by the sealed box.  `secretbox.Seal` reads the key
through its pointer. -/
def Encrypt (P : Prims) (message : Bytes) (key : KeyPtr) (w : World) :
    Except Panic ((Slice × Option Err) × World) :=
  match Nonce P w with
  | ((_, some e), w1) => .ok ((none, some e), w1)
  | ((none, none), _) => .error Panic.nilDeref
  | ((some nonce, none), w1) =>
    match key with
    | none => .error Panic.nilDeref
    | some k => .ok ((some (nonce.val ++ P.boxSeal message nonce.val k.val), none), w1)

/-- `Decrypt`: split off the nonce and open the box.  `secretbox.Open` reads the key
through its pointer. -/
def Decrypt (P : Prims) (encrypted : Bytes) (key : KeyPtr) :
    Except Panic (Slice × Option Err) :=
  if encrypted.length < NonceSize + Overhead then
    .ok (none, some Err.encryptedSizeWrong)
  else
    match key with
    | none => .error Panic.nilDeref
    | some k =>
      match P.boxOpen (encrypted.drop NonceSize) (encrypted.take NonceSize) k.val with
      | none => .ok (none, some Err.openSecretbox)
      | some m => .ok (toSlice m, none)

/-- `KeyPair`: `box.GenerateKey(rand.Reader)`, returned as (public, private, err). -/
def KeyPair (P : Prims) (w : World) : (KeyPtr × KeyPtr × Option Err) × World :=
  let w1 : World := { heap := w.heap + 2, draws := w.draws + 1 }
  match P.generateKey w.draws with
  | none => ((none, none, some Err.rngFailure), w1)
  | some (pub, pri) => ((some ⟨w.heap, pub⟩, some ⟨w.heap + 1, pri⟩, none), w1)

/-! ## signalplus.go -/

def Header (pair : Keypair) (nummesg sendnum : Nat) : Mesghead :=
  { Pubkey := pair.Pubkey, Nummesg := nummesg, Sendnum := sendnum }

def GetHeader (state : Signalstate) : Mesghead :=
  Header state.sendpair state.nummesg state.sendnum

/-- `GenerateDh`: the zero `Keypair` when `KeyPair` fails. -/
def GenerateDh (P : Prims) (w : World) : (Keypair × Option Err) × World :=
  match KeyPair P w with
  | ((pub, pri, none), w1) => (({ Prikey := pri, Pubkey := pub }, none), w1)
  | ((_, _, some e), w1) => (({ Prikey := none, Pubkey := none }, some e), w1)

/-- `NewDh`: `curve25519.ScalarMult` into a fresh array; both inputs are read through
their pointers. -/
def NewDh (P : Prims) (pair : Keypair) (pubkey : KeyPtr) (w : World) :
    Except Panic (KeyPtr × World) :=
  match pair.Prikey, pubkey with
  | some sk, some pk =>
    .ok (some ⟨w.heap, P.scalarMult sk.val pk.val⟩, { w with heap := w.heap + 1 })
  | _, _ => .error Panic.nilDeref

/-- `KdfRk`: new root key and new chain key, the two halves of the scrypt output. -/
def KdfRk (P : Prims) (rootkey dhout : KeyPtr) (rparam : Ratchetparam) (w : World) :
    Except Panic ((KeyPtr × KeyPtr × Option Err) × World) :=
  match rootkey, dhout with
  | some rk, some dh =>
    match P.scrypt rk.val dh.val rparam.ScryptN with
    | none => .ok ((none, none, some Err.kdfFailure), w)
    | some key =>
      .ok ((some ⟨w.heap, key.take KeySize⟩,
            some ⟨w.heap + 1, (key.drop KeySize).take KeySize⟩, none),
           { w with heap := w.heap + 2 })
  | _, _ => .error Panic.nilDeref

/-- `KdfCk`: new chain key and new message key, the two halves of the scrypt output. -/
def KdfCk (P : Prims) (chainkey : KeyPtr) (rparam : Ratchetparam) (w : World) :
    Except Panic ((KeyPtr × KeyPtr × Option Err) × World) :=
  match chainkey with
  | some ck =>
    match P.scrypt ck.val constant rparam.ScryptN with
    | none => .ok ((none, none, some Err.kdfFailure), w)
    | some key =>
      .ok ((some ⟨w.heap, key.take KeySize⟩,
            some ⟨w.heap + 1, (key.drop KeySize).take KeySize⟩, none),
           { w with heap := w.heap + 2 })
  | none => .error Panic.nilDeref

def RatchetInitSender (P : Prims) (state : Signalstate) (symkey rpubkey : KeyPtr)
    (w : World) : Except Panic ((Signalstate × Option Err) × World) :=
  match GenerateDh P w with
  | ((pair, some e), w1) => .ok (({ state with sendpair := pair }, some e), w1)
  | ((pair, none), w1) =>
    let s1 : Signalstate := { state with sendpair := pair, rpubkey := rpubkey }
    match NewDh P s1.sendpair s1.rpubkey w1 with
    | .error p => .error p
    | .ok (dh, w2) =>
      match KdfRk P symkey dh s1.rparam w2 with
      | .error p => .error p
      | .ok ((rk, ck, some e), w3) =>
        .ok (({ s1 with rootkey := rk, sendchain := ck }, some e), w3)
      | .ok ((rk, ck, none), w3) =>
        .ok (({ s1 with
                  rootkey := rk, sendchain := ck, recvchain := none,
                  sendnum := 0, recvnum := 0, nummesg := 0,
                  skipped := [], Mesgkey := symkey,
                  ringstart := -1, ringend := -1 }, none), w3)

def RatchetInitReceiver (state : Signalstate) (symkey : KeyPtr) (recvkp : Keypair) :
    Signalstate :=
  { state with
      sendpair := recvkp, rpubkey := none, rootkey := symkey,
      sendchain := none, recvchain := none,
      sendnum := 0, recvnum := 0, nummesg := 0,
      skipped := [], Mesgkey := symkey,
      ringstart := -1, ringend := -1 }

/-- `RatchetEncrypt`.  The error of `KdfCk` is assigned to `err` and then
overwritten by the one of `Encrypt`. -/
def RatchetEncrypt (P : Prims) (state : Signalstate) (plaintext : Bytes) (w : World) :
    Except Panic ((Signalstate × Mesghead × Slice × Option Err) × World) :=
  match KdfCk P state.sendchain state.rparam w with
  | .error p => .error p
  | .ok ((ck, key, _), w1) =>
    let s1 : Signalstate := { state with sendchain := ck }
    let head := Header s1.sendpair s1.nummesg s1.sendnum
    let s2 : Signalstate := { s1 with sendnum := wrapU64 (s1.sendnum + 1) }
    match Encrypt P plaintext key w1 with
    | .error p => .error p
    | .ok ((ciphertext, err), w2) =>
      .ok (({ s2 with Mesgkey := key }, head, ciphertext, err), w2)

/-- `AddKeyRing`.  Go's `%` truncates towards zero, so a negative `ringend + 1`
gives a negative index. -/
def AddKeyRing (state : Signalstate) (key : KeyPtr) (ratchetnum : Nat) :
    Except Panic Signalstate :=
  let i : Int := Int.tmod (wrapInt (state.ringend + 1)) 16
  if h : 0 ≤ i ∧ i < 16 then
    let idx : Fin 16 := ⟨i.toNat, by omega⟩
    let s1 : Signalstate :=
      { state with
          ringnum := Function.update state.ringnum idx ratchetnum,
          ringkey := Function.update state.ringkey idx key,
          ringend := i }
    if s1.ringstart = s1.ringend then
      .ok { s1 with ringstart := Int.tmod (wrapInt (s1.ringstart + 1)) 16 }
    else if s1.ringstart = -1 then
      .ok { s1 with ringstart := 0 }
    else
      .ok s1
  else
    .error Panic.indexOutOfRange

/-- `TrySkippedMessageKeys`: look the key up under (header public key pointer,
message number), remove it and decrypt with it. -/
def TrySkippedMessageKeys (P : Prims) (state : Signalstate) (head : Mesghead)
    (ciphertext : Bytes) : Except Panic (Signalstate × Slice × Option Err) :=
  let skip : skipkey := { key := head.Pubkey, num := head.Sendnum }
  match state.skipped.get skip with
  | some key =>
    let s1 : Signalstate :=
      { state with skipped := state.skipped.delete skip, Mesgkey := key }
    match Decrypt P ciphertext key with
    | .error p => .error p
    | .ok (plaintext, err) => .ok (s1, plaintext, err)
  | none => .ok (state, none, none)

/-- The `for state.recvnum < until` loop of `SkipMessageKeys`; `fuel` bounds the
number of iterations. -/
def skipLoop (P : Prims) (untilNum : Nat) :
    Nat → Signalstate → World → Except Panic ((Signalstate × Option Err) × World)
  | fuel, state, w =>
    if state.recvnum < untilNum then
      match fuel with
      | 0 => .error Panic.loopBound
      | fuel + 1 =>
        match KdfCk P state.recvchain state.rparam w with
        | .error p => .error p
        | .ok ((ck, _, some e), w1) =>
          .ok (({ state with recvchain := ck }, some e), w1)
        | .ok ((ck, key, none), w1) =>
          let skip : skipkey := { key := state.rpubkey, num := state.recvnum }
          skipLoop P untilNum fuel
            { state with
                recvchain := ck,
                skipped := state.skipped.set skip key,
                recvnum := wrapU64 (state.recvnum + 1) } w1
    else
      .ok ((state, none), w)

/-- `SkipMessageKeys`.  Each iteration of the loop raises `recvnum` by one, so
`untilNum - recvnum` iterations are enough. -/
def SkipMessageKeys (P : Prims) (state : Signalstate) (untilNum : Nat) (w : World) :
    Except Panic ((Signalstate × Option Err) × World) :=
  if wrapU64 (state.recvnum + MaxSkip) < untilNum then
    .error Panic.tooManySkipped
  else if state.recvchain.isSome then
    skipLoop P untilNum (untilNum - state.recvnum) state w
  else
    .ok ((state, none), w)

def DHRatchet (P : Prims) (state : Signalstate) (head : Mesghead) (w : World) :
    Except Panic ((Signalstate × Option Err) × World) :=
  let s1 : Signalstate :=
    { state with
        nummesg := state.sendnum, sendnum := 0, recvnum := 0, rpubkey := head.Pubkey }
  match NewDh P s1.sendpair s1.rpubkey w with
  | .error p => .error p
  | .ok (dh1, w1) =>
    match KdfRk P s1.rootkey dh1 s1.rparam w1 with
    | .error p => .error p
    | .ok ((rk1, rc, some e), w2) =>
      .ok (({ s1 with rootkey := rk1, recvchain := rc }, some e), w2)
    | .ok ((rk1, rc, none), w2) =>
      let s2 : Signalstate := { s1 with rootkey := rk1, recvchain := rc }
      match GenerateDh P w2 with
      | ((pair, some e), w3) => .ok (({ s2 with sendpair := pair }, some e), w3)
      | ((pair, none), w3) =>
        let s3 : Signalstate := { s2 with sendpair := pair }
        match NewDh P s3.sendpair s3.rpubkey w3 with
        | .error p => .error p
        | .ok (dh2, w4) =>
          match KdfRk P s3.rootkey dh2 s3.rparam w4 with
          | .error p => .error p
          | .ok ((rk2, sc, err), w5) =>
            .ok (({ s3 with rootkey := rk2, sendchain := sc }, err), w5)

/-- The `if head.Pubkey != state.rpubkey` block of `RatchetDecrypt`; the errors
`SkipMessageKeys` and `DHRatchet` return are dropped there. -/
def ratchetStep (P : Prims) (state : Signalstate) (head : Mesghead) (w : World) :
    Except Panic (Signalstate × World) :=
  match SkipMessageKeys P state head.Nummesg w with
  | .error p => .error p
  | .ok ((s1, _), w1) =>
    match DHRatchet P s1 head w1 with
    | .error p => .error p
    | .ok ((s2, _), w2) => .ok (s2, w2)

/-- The `if head.Pubkey != state.rpubkey` statement of `RatchetDecrypt`: the pointers
are compared first; with a nil `rpubkey`, or with key bytes that differ, the old chain
is skipped to `head.Nummesg` and the DH ratchet runs. -/
def newChain (P : Prims) (state : Signalstate) (head : Mesghead) (w : World) :
    Except Panic (Signalstate × World) :=
  if !(ptrEq head.Pubkey state.rpubkey) then
    match state.rpubkey with
    | none => ratchetStep P state head w
    | some r =>
      match head.Pubkey with
      | none => .error Panic.nilDeref
      | some h =>
        if h.val ≠ r.val then ratchetStep P state head w else .ok (state, w)
  else
    .ok (state, w)

/-- `RatchetDecrypt`.  The plaintext of `TrySkippedMessageKeys` is returned when it is
not nil; its error is dropped. -/
def RatchetDecrypt (P : Prims) (state : Signalstate) (head : Mesghead)
    (ciphertext : Bytes) (w : World) :
    Except Panic ((Signalstate × Slice × Option Err) × World) :=
  match TrySkippedMessageKeys P state head ciphertext with
  | .error p => .error p
  | .ok (s0, some plaintext, _) => .ok ((s0, some plaintext, none), w)
  | .ok (s0, none, _) =>
    match newChain P s0 head w with
    | .error p => .error p
    | .ok (s1, w1) =>
      match SkipMessageKeys P s1 head.Sendnum w1 with
      | .error p => .error p
      | .ok ((s2, _), w2) =>
        match KdfCk P s2.recvchain s2.rparam w2 with
        | .error p => .error p
        | .ok ((ck, _, some e), w3) =>
          .ok (({ s2 with recvchain := ck }, none, some e), w3)
        | .ok ((ck, key, none), w3) =>
          let s3 : Signalstate :=
            { s2 with recvchain := ck, recvnum := wrapU64 (s2.recvnum + 1), Mesgkey := key }
          match AddKeyRing s3 key head.Sendnum with
          | .error p => .error p
          | .ok s4 =>
            match Decrypt P ciphertext key with
            | .error p => .error p
            | .ok (plaintext, err) => .ok ((s4, plaintext, err), w3)

/-- `SetRatchet`; `now` is the value of `time.Now()`. -/
def SetRatchet (state : Signalstate) (count period level : Int) (now : Int) :
    Signalstate × Option Err :=
  let install (n : Int) : Signalstate × Option Err :=
    ({ state with
        rparam := { ScryptN := n, Count := count, Period := period, Last := 0, Ltime := now } },
     none)
  if level = VLowSec then install 8192
  else if level = LowSec then install 16384
  else if level = MedSec then install 32768
  else if level = HighSec then install 65536
  else if level = VHighSec then install 104857
  else (state, some Err.invalidRatchetLevel)

/-- `ScryptN`. -/
def ScryptN (state : Signalstate) : Int := state.rparam.ScryptN

/-- `SetScryptN`. -/
def SetScryptN (state : Signalstate) (scryptn : Int) : Signalstate :=
  { state with rparam := { state.rparam with ScryptN := scryptn } }

/-- `Level`: the level for a level name; the zero level and an error for any other
string. -/
def Level (level : String) : Int × Option Err :=
  if level = "verylow" then (VLowSec, none)
  else if level = "low" then (LowSec, none)
  else if level = "medium" then (MedSec, none)
  else if level = "high" then (HighSec, none)
  else if level = "veryhigh" then (VHighSec, none)
  else (0, some Err.invalidLevelName)

/-- `Ratchet`.  `now` is the value of `time.Now()` (at most one call of it is made on
any path) and `hours now ltime` stands for `int(now.Sub(ltime).Hours())`, the whole
hours between the two instants. -/
def Ratchet (hours : Int → Int → Int) (state : Signalstate) (now : Int) :
    Signalstate × Bool :=
  let timed (s : Signalstate) : Signalstate × Bool :=
    if 0 < s.rparam.Period then
      if s.rparam.Period ≤ hours now s.rparam.Ltime then
        ({ s with rparam := { s.rparam with Last := 0, Ltime := now } }, true)
      else (s, false)
    else (s, false)
  if 0 < state.rparam.Count then
    if state.rparam.Count ≤ state.rparam.Last then
      let s1 : Signalstate := { state with rparam := { state.rparam with Last := 0 } }
      if 0 < s1.rparam.Period then
        ({ s1 with rparam := { s1.rparam with Ltime := now } }, true)
      else (s1, true)
    else
      timed { state with rparam := { state.rparam with Last := wrapInt (state.rparam.Last + 1) } }
  else
    timed state

/-- The loop of `TryKeyRing`, from index `i` on: an entry whose number is `ratchetnum`
is tried with `Decrypt` and the plaintext returned when there is no error; the loop
ends after the index `ringend`.  The indices run through the 16 slots in a cycle, so
a loop that has not ended after 16 iterations never ends: `fuel` is 16. -/
def tryLoop (P : Prims) (ciphertext : Bytes) (state : Signalstate) (ratchetnum : Nat) :
    Nat → Int → Except Panic (Slice × Option Err)
  | 0, _ => .error Panic.loopBound
  | fuel + 1, i =>
    if h : 0 ≤ i ∧ i < 16 then
      let idx : Fin 16 := ⟨i.toNat, by omega⟩
      let next : Except Panic (Slice × Option Err) :=
        if i = state.ringend then .ok (none, some Err.noKeyInRing)
        else tryLoop P ciphertext state ratchetnum fuel (Int.tmod (wrapInt (i + 1)) 16)
      if ratchetnum = state.ringnum idx then
        match Decrypt P ciphertext (state.ringkey idx) with
        | .error p => .error p
        | .ok (plaintext, none) => .ok (plaintext, none)
        | .ok (_, some _) => next
      else next
    else .error Panic.indexOutOfRange

/-- `TryKeyRing`.  The function assigns to no field of the state; the state it leaves
is returned with the result. -/
def TryKeyRing (P : Prims) (ciphertext : Bytes) (state : Signalstate) (ratchetnum : Nat) :
    Except Panic (Signalstate × Slice × Option Err) :=
  if 0 ≤ state.ringstart then
    match tryLoop P ciphertext state ratchetnum 16 state.ringstart with
    | .error p => .error p
    | .ok r => .ok (state, r)
  else
    .ok (state, none, some Err.noKeyInRing)

/-! ## Callers and observers -/

/-- A sender passing plaintexts to `RatchetEncrypt` one after the other; the list
holds, for every call, the state it left and what it returned. -/
def encryptAll (P : Prims) :
    Signalstate → World → List Bytes →
      Except Panic (List (Signalstate × Mesghead × Slice × Option Err) × World)
  | _, w, [] => .ok ([], w)
  | state, w, m :: ms =>
    match RatchetEncrypt P state m w with
    | .error p => .error p
    | .ok ((s1, head, c, err), w1) =>
      match encryptAll P s1 w1 ms with
      | .error p => .error p
      | .ok (rest, w2) => .ok ((s1, head, c, err) :: rest, w2)

/-- A receiver passing (header, ciphertext) pairs to `RatchetDecrypt` one after the
other; the list holds, for every call, the state it left and what it returned. -/
def decryptAll (P : Prims) :
    Signalstate → World → List (Mesghead × Bytes) →
      Except Panic (List (Signalstate × Slice × Option Err) × World)
  | _, w, [] => .ok ([], w)
  | state, w, (head, c) :: ms =>
    match RatchetDecrypt P state head c w with
    | .error p => .error p
    | .ok ((s1, plaintext, err), w1) =>
      match decryptAll P s1 w1 ms with
      | .error p => .error p
      | .ok (rest, w2) => .ok ((s1, plaintext, err) :: rest, w2)

/-- Alice and Bob in one process, as in `TestSignal`: every plaintext is encrypted by
Alice and the header and ciphertext she gets are passed to Bob's `RatchetDecrypt` right
away (the test drops the error of `RatchetEncrypt`).  The list holds what every
`RatchetDecrypt` returned. -/
def exchangeAll (P : Prims) :
    Signalstate → Signalstate → World → List Bytes →
      Except Panic (List (Slice × Option Err) × Signalstate × Signalstate × World)
  | a, b, w, [] => .ok ([], a, b, w)
  | a, b, w, m :: ms =>
    match RatchetEncrypt P a m w with
    | .error p => .error p
    | .ok ((a1, head, c, _), w1) =>
      match RatchetDecrypt P b head (c.getD []) w1 with
      | .error p => .error p
      | .ok ((b1, r), w2) =>
        match exchangeAll P a1 b1 w2 ms with
        | .error p => .error p
        | .ok (rest, x) => .ok (r :: rest, x)

/-- What a sender's call put on the wire: the header and the ciphertext bytes. -/
def wire (r : Signalstate × Mesghead × Slice × Option Err) : Mesghead × Bytes :=
  (r.2.1, r.2.2.1.getD [])

/-- The walk of `TryKeyRing` over the ring: from index `i` on, advancing modulo
`maxkey`, up to and including `ringend`. -/
def ringWalk (state : Signalstate) : Nat → Int → List (Nat × KeyPtr)
  | 0, _ => []
  | fuel + 1, i =>
    if h : 0 ≤ i ∧ i < 16 then
      let idx : Fin 16 := ⟨i.toNat, by omega⟩
      (state.ringnum idx, state.ringkey idx) ::
        (if i = state.ringend then [] else ringWalk state fuel (Int.tmod (i + 1) 16))
    else []

/-- The entries of the ring from `ringstart` through `ringend` inclusive; none when
`ringstart` is negative (the empty ring). -/
def ringEntries (state : Signalstate) : List (Nat × KeyPtr) :=
  if 0 ≤ state.ringstart then ringWalk state 16 state.ringstart else []

/-- `AddKeyRing` called with the given (key, number) pairs one after the other. -/
def addAll : Signalstate → List (KeyPtr × Nat) → Except Panic Signalstate
  | state, [] => .ok state
  | state, (key, num) :: rest =>
    match AddKeyRing state key num with
    | .error p => .error p
    | .ok s1 => addAll s1 rest

/-! ## A concrete instance of the primitives

Small stand-ins for the libraries, used to run the definitions on concrete inputs:
a Diffie-Hellman group modulo 251, a tag-then-message box, and a key derivation that
keeps the parameter check of `scrypt.Key` (`N` must be greater than one and a power
of two). -/

def toyScrypt (pw salt : Bytes) (N : Int) : Option Bytes :=
  if N ≤ 1 ∨ Nat.land N.toNat (N.toNat - 1) ≠ 0 then none
  else
    let s := 5 * pw.sum + 3 * salt.sum + 1
    some (List.replicate 32 ((2 * s) % 251) ++ List.replicate 32 ((2 * s + 1) % 251))

def toyScalarMult (pri pub : Bytes) : Bytes :=
  List.replicate 32 ((pub.headD 0) ^ (pri.headD 0) % 251)

def toyTag (nonce key : Bytes) : Bytes :=
  List.replicate 16 ((key.sum + nonce.sum) % 256)

def toySeal (m nonce key : Bytes) : Bytes := toyTag nonce key ++ m

def toyOpen (box nonce key : Bytes) : Option Bytes :=
  if box.take 16 = toyTag nonce key then some (box.drop 16) else none

def toyNonce (i : Nat) : Option Bytes := some (List.replicate 24 (i % 256))

def toyGenerateKey (i : Nat) : Option (Bytes × Bytes) :=
  some (List.replicate 32 (6 ^ (i + 2) % 251), List.replicate 32 (i + 2))

def toy : Prims :=
  { scrypt := toyScrypt, scalarMult := toyScalarMult, boxSeal := toySeal,
    boxOpen := toyOpen, readNonce := toyNonce, generateKey := toyGenerateKey }

/-- The zero value of `Signalstate` (with an empty `skipped` map). -/
def zeroState : Signalstate :=
  { rpubkey := none, rootkey := none, nummesg := 0, sendnum := 0, recvnum := 0,
    sendpair := { Prikey := none, Pubkey := none },
    recvchain := none, sendchain := none, skipped := [],
    rparam := { ScryptN := 0, Count := 0, Period := 0, Last := 0, Ltime := 0 },
    Mesgkey := none, ringkey := fun _ => none, ringnum := fun _ => 0,
    ringstart := 0, ringend := 0 }

/-! ## The session of `TestSignal` on the concrete primitives -/

def testSymkey : KeyPtr := some ⟨0, List.replicate 32 7⟩

def testBobPair : Keypair :=
  { Pubkey := some ⟨1, List.replicate 32 (6 ^ 9 % 251)⟩,
    Prikey := some ⟨2, List.replicate 32 9⟩ }

def testWorld : World := { heap := 3, draws := 0 }

/-- `SetRatchet(&state, 1, 0, 2)` on the zero state. -/
def testConfigured : Signalstate := (SetRatchet zeroState 1 0 MedSec 0).1

/-- Bob after `RatchetInitReceiver`. -/
def testBob : Signalstate := RatchetInitReceiver testConfigured testSymkey testBobPair

/-- The value of a run that does not stop in a run-time failure. -/
def okOr {α : Type} (dflt : α) : Except Panic α → α
  | .ok a => a
  | .error _ => dflt

/-- Alice after `RatchetInitSender`, and the world she leaves. -/
def testAlice : Signalstate × World :=
  okOr (zeroState, testWorld)
    ((RatchetInitSender toy testConfigured testSymkey testBobPair.Pubkey testWorld).map
      (fun r => (r.1.1, r.2)))


/-- The elements of a list at the given positions, in the order of the positions. -/
def pick {α : Type} (l : List α) (idxs : List Nat) : List α :=
  idxs.filterMap (fun i => l[i]?)

/-- Alice passing the plaintexts to `RatchetEncrypt`, from her initial state. -/
def testSend (msgs : List Bytes) :
    List (Signalstate × Mesghead × Slice × Option Err) × World :=
  okOr ([], testAlice.2) (encryptAll toy testAlice.1 testAlice.2 msgs)

/-- The (header, ciphertext) pairs of `testSend msgs`, taken in the given order. -/
def testPackets (msgs : List Bytes) (order : List Nat) : List (Mesghead × Bytes) :=
  pick ((testSend msgs).1.map wire) order

/-- Bob passing the packets of `testSend msgs` to `RatchetDecrypt` in the given
order, from his initial state. -/
def testReceive (msgs : List Bytes) (order : List Nat) :
    Except Panic (List (Signalstate × Slice × Option Err) × World) :=
  decryptAll toy testBob (testSend msgs).2 (testPackets msgs order)

/-- Bob's state after `testReceive msgs order`. -/
def testBobAfter (msgs : List Bytes) (order : List Nat) : Signalstate :=
  okOr testBob ((testReceive msgs order).map (fun r => (r.1.getLast?.map (fun x => x.1)).getD testBob))

/-- The header as a receiver rebuilds it from the wire: the same 32 bytes of public
key in an array of its own. -/
def rebuilt (head : Mesghead) (addr : Nat) : Mesghead :=
  { head with Pubkey := head.Pubkey.map (fun p => { p with addr := addr }) }

/-- The header of Alice's first message in the test session. -/
def testHead0 : Mesghead :=
  { Pubkey := some ⟨3, List.replicate 32 36⟩, Nummesg := 0, Sendnum := 0 }

/-- A receiver initialised without a call of `SetRatchet`: `ScryptN` is 0. -/
def unconfiguredBob : Signalstate := RatchetInitReceiver zeroState testSymkey testBobPair

/-- Two plaintexts; the second is delivered first, so that the key of the first is
stored as skipped. -/
def skipMsgs : List Bytes := [[1, 2, 3], [4, 5]]

/-- A message of the previous chain that arrives late.  Alice encrypts the 104
messages `[0]`, ..., `[103]`; Bob receives number 100 and then number 103 (no call
skips more than 100 numbers); Bob answers and Alice receives the answer, which is her
DH ratchet; Alice sends one message on her new chain and Bob receives it, which is his
DH ratchet and leaves `recvnum = 1`.  The result is Bob's state then, the packet of
message number 102 of the old chain, and the world. -/
def lateOldMessage : Except Panic (Signalstate × (Mesghead × Bytes) × World) := do
  let (sent, w1) ← encryptAll toy testAlice.1 testAlice.2 ((List.range 104).map (fun i => [i]))
  let alice1 := (sent.getLast?.map (fun x => x.1)).getD testAlice.1
  let (got, w2) ← decryptAll toy testBob w1 (pick (sent.map wire) [100, 103])
  let bob1 := (got.getLast?.map (fun x => x.1)).getD testBob
  let ((bob2, hb, cb, _), w3) ← RatchetEncrypt toy bob1 [200] w2
  let ((alice2, _, _), w4) ← RatchetDecrypt toy alice1 hb (cb.getD []) w3
  let ((_, ha, ca, _), w5) ← RatchetEncrypt toy alice2 [201] w4
  let ((bob3, _, _), w6) ← RatchetDecrypt toy bob2 ha (ca.getD []) w5
  pure (bob3, ((pick (sent.map wire) [102]).headD (testHead0, [])), w6)

/-- The header of the 102nd message of Alice's first chain. -/
def testHead101 : Mesghead := { testHead0 with Sendnum := 101 }

/-- Eighteen insertions, numbered 100 to 117. -/
def ringAdds : List (KeyPtr × Nat) :=
  (List.range 18).map (fun i => (some ⟨i, [i]⟩, i + 100))

/-- Bob after he received the second message of `skipMsgs` and then the first one, the
latter from its skipped key. -/
def replayState : Signalstate := testBobAfter skipMsgs [1, 0]

/-- The packet of the first message of `skipMsgs`. -/
def replayPacket : Mesghead × Bytes := (testPackets skipMsgs [0]).headD (testHead0, [])

/-- Four plaintexts, the first of them empty. -/
def emptyFirstMsgs : List Bytes := [[], [120], [121], [122]]

/-! ## Predicates of the proofs -/

/-- The fields the loop of `SkipMessageKeys` leaves alone: `s1` is `s` but for
`recvchain`, `recvnum` and `skipped`. -/
def skipFrame (s s1 : Signalstate) : Prop :=
  s1 = { s with recvchain := s1.recvchain, recvnum := s1.recvnum, skipped := s1.skipped }

/-- The fields `AddKeyRing` leaves alone: `s1` is `s` but for the four ring fields. -/
def ringFrame (s s1 : Signalstate) : Prop :=
  s1 = { s with ringkey := s1.ringkey, ringnum := s1.ringnum,
                ringstart := s1.ringstart, ringend := s1.ringend }

/-- The ring of `s` after the (number, key) pairs of `L` were added, in this order, to
an empty ring: pair `j` sits in slot `j % 16`, `ringend` is the slot of the last pair
and `ringstart` the slot of the oldest of the last 16. -/
def RingHolds (s : Signalstate) (L : List (Nat × KeyPtr)) : Prop :=
  (L = [] → s.ringstart = -1 ∧ s.ringend = -1) ∧
  (L ≠ [] →
    s.ringend = (((L.length - 1) % 16 : Nat) : Int) ∧
    s.ringstart = (((L.length - min L.length 16) % 16 : Nat) : Int)) ∧
  ∀ (j : Nat) (hj : j < L.length), L.length ≤ j + 16 →
    (s.ringnum ⟨j % 16, Nat.mod_lt _ (by decide)⟩,
     s.ringkey ⟨j % 16, Nat.mod_lt _ (by decide)⟩) = L[j]

/-- The assumptions on the primitives under the work parameter `N`: the key
derivation succeeds, opening a sealed box under the same nonce and key gives the
message back, a sealed box carries at least the overhead, and the random reader fills
a nonce of `NonceSize` bytes. -/
def Behaves (P : Prims) (N : Int) : Prop :=
  (∀ pw salt, ∃ out, P.scrypt pw salt N = some out) ∧
  (∀ m nonce key, P.boxOpen (P.boxSeal m nonce key) nonce key = some m) ∧
  (∀ m nonce key, Overhead ≤ (P.boxSeal m nonce key).length) ∧
  (∀ i, ∃ n, P.readNonce i = some n ∧ n.length = NonceSize)

/-- The chain key of a chain step: the first half of the scrypt output. -/
def chainKeyOf (out : Bytes) : Bytes := out.take KeySize

/-- The message key of a chain step: the second half of the scrypt output. -/
def mesgKeyOf (out : Bytes) : Bytes := (out.drop KeySize).take KeySize

/-- Alice's sending chain and Bob's receiving chain agree: the chain keys hold the same
bytes, Bob's `rpubkey` is the pointer of Alice's public key, Bob has received as many
messages as Alice has sent, and nothing is stored as skipped. -/
def InSync (a b : Signalstate) : Prop :=
  ∃ sc rc pk, a.sendchain = some sc ∧ b.recvchain = some rc ∧ rc.val = sc.val ∧
    a.sendpair.Pubkey = some pk ∧ b.rpubkey = some pk ∧
    b.recvnum = a.sendnum ∧ b.skipped = [] ∧ b.rparam.ScryptN = a.rparam.ScryptN

/-- Alice after `RatchetInitSender` and Bob after `RatchetInitReceiver`, before the
first message: Bob has no remote key and no receive chain, and the root step on his
root key with his share of the Diffie-Hellman secret gives Alice's first chain key. -/
def FreshSync (P : Prims) (a b : Signalstate) : Prop :=
  ∃ sc pk sk rk out, a.sendchain = some sc ∧ a.sendpair.Pubkey = some pk ∧
    a.sendnum = 0 ∧ a.nummesg = 0 ∧
    b.rpubkey = none ∧ b.recvchain = none ∧ b.recvnum = 0 ∧ b.skipped = [] ∧
    b.sendpair.Prikey = some sk ∧ b.rootkey = some rk ∧
    P.scrypt rk.val (P.scalarMult sk.val pk.val) b.rparam.ScryptN = some out ∧
    mesgKeyOf out = sc.val ∧ b.rparam.ScryptN = a.rparam.ScryptN

/-- The state the last call of a run left; the starting state when no call was made. -/
def finalState {β : Type} (s : Signalstate) (l : List (Signalstate × β)) : Signalstate :=
  (l.getLast?.map (fun x => x.1)).getD s

/-! ## Further observers and concrete data -/

/-- The key stored as skipped for the first message of `skipMsgs` once Bob has received
the second one. -/
def skippedKey0 : KeyPtr :=
  ((testBobAfter skipMsgs [1]).skipped.get
    ⟨replayPacket.1.Pubkey, replayPacket.1.Sendnum⟩).getD none

/-- Successive calls of `Ratchet`, one for every instant of `nows`; the state after
the last call and what the calls returned. -/
def ratchetCalls (hours : Int → Int → Int) : Signalstate → List Int → Signalstate × List Bool
  | state, [] => (state, [])
  | state, now :: rest =>
    let r := Ratchet hours state now
    let t := ratchetCalls hours r.1 rest
    (t.1, r.2 :: t.2)

/-- The whole hours between two instants given in hours. -/
def hoursBetween (now ltime : Int) : Int := now - ltime

/-- A state configured with `SetRatchet(&state, 3, 0, MedSec)`: a DH ratchet every
three messages, no period. -/
def countThree : Signalstate := (SetRatchet zeroState 3 0 MedSec 0).1

/-- The lookup the specification describes for the ring: of the entries in ring order,
the first whose stored number equals `num` and whose key opens the ciphertext gives the
plaintext; when there is none the result is the not-found error. -/
def firstOpening (P : Prims) (ciphertext : Bytes) (num : Nat) :
    List (Nat × KeyPtr) → Slice × Option Err
  | [] => (none, some Err.noKeyInRing)
  | (n, key) :: rest =>
    if num = n then
      match Decrypt P ciphertext key with
      | .ok (plaintext, none) => (plaintext, none)
      | _ => firstOpening P ciphertext num rest
    else firstOpening P ciphertext num rest

/-- A ciphertext sealed under the key `[5]`, which `ringAdds` stores under 105. -/
def ringCipher : Bytes :=
  List.replicate 24 0 ++ toy.boxSeal [9, 9] (List.replicate 24 0) [5]

/-- `KdfCk` applied `n` times in a row, each time to the chain key the step before
returned: the last chain key and the message keys of the steps, in order (up to the
first step that returns an error). -/
def kdfCkTimes (P : Prims) (rparam : Ratchetparam) :
    Nat → KeyPtr → World → Except Panic ((KeyPtr × List KeyPtr × Option Err) × World)
  | 0, ck, w => .ok ((ck, [], none), w)
  | n + 1, ck, w =>
    match KdfCk P ck rparam w with
    | .error p => .error p
    | .ok ((ck1, _, some e), w1) => .ok ((ck1, [], some e), w1)
    | .ok ((ck1, mk, none), w1) =>
      match kdfCkTimes P rparam n ck1 w1 with
      | .error p => .error p
      | .ok ((ck2, mks, e), w2) => .ok ((ck2, mk :: mks, e), w2)

/-- Bob after he received the first message of `skipMsgs`: `recvnum = 1`. -/
def bobAfterFirst : Signalstate := testBobAfter skipMsgs [0]

/-- The sender `a` has just made a DH ratchet and sent nothing on its new chain; the
receiver `b` still holds the sender's previous public key, in another array and with
other bytes, and its root step with the new public key gives the sender's chain key. -/
def ReplySync (P : Prims) (a b : Signalstate) : Prop :=
  ∃ sc pk sk rk r out, a.sendchain = some sc ∧ a.sendpair.Pubkey = some pk ∧
    a.sendnum = 0 ∧ a.nummesg = 0 ∧ b.rpubkey = some r ∧ r.addr ≠ pk.addr ∧
    r.val ≠ pk.val ∧ b.recvnum = 0 ∧ b.skipped = [] ∧ b.sendpair.Prikey = some sk ∧
    b.rootkey = some rk ∧
    P.scrypt rk.val (P.scalarMult sk.val pk.val) b.rparam.ScryptN = some out ∧
    mesgKeyOf out = sc.val ∧ b.rparam.ScryptN = a.rparam.ScryptN

/-- The plaintexts Bob sends back, and the world in which he decrypts Alice's first
message: the one Alice leaves after `RatchetInitSender` and one `RatchetEncrypt`. -/
def replyMsgs : List Bytes := [[2], [3]]

def replyWorld : World := { heap := 11, draws := 2 }

/-- The header key is the remote key of the state: the test
`head.Pubkey != state.rpubkey` of `RatchetDecrypt` finds the same pointer, or the test
`*head.Pubkey != *state.rpubkey` finds the same bytes.  `RatchetDecrypt` makes its DH
ratchet exactly when this is false. -/
def onCurrentChain (state : Signalstate) (head : Mesghead) : Bool :=
  ptrEq head.Pubkey state.rpubkey ||
    match head.Pubkey, state.rpubkey with
    | some h, some r => decide (h.val = r.val)
    | _, _ => false

/-- A consumed message of the previous chain.  Alice encrypts the two messages of
`skipMsgs`; Bob receives the second and then the first, the first from its skipped key
(`replayState`); Bob answers and Alice receives the answer, which is her DH ratchet;
Alice sends one message on her new chain and Bob receives it, which is his DH ratchet.
The result is Bob's state then and the world. -/
def afterNextChain : Except Panic (Signalstate × World) := do
  let (sent, w1) ← encryptAll toy testAlice.1 testAlice.2 skipMsgs
  let alice1 := (sent.getLast?.map (fun x => x.1)).getD testAlice.1
  let (got, w2) ← decryptAll toy testBob w1 (pick (sent.map wire) [1, 0])
  let bob1 := (got.getLast?.map (fun x => x.1)).getD testBob
  let ((bob2, hb, cb, _), w3) ← RatchetEncrypt toy bob1 [200] w2
  let ((alice2, _, _), w4) ← RatchetDecrypt toy alice1 hb (cb.getD []) w3
  let ((_, ha, ca, _), w5) ← RatchetEncrypt toy alice2 [201] w4
  let ((bob3, _, _), w6) ← RatchetDecrypt toy bob2 ha (ca.getD []) w5
  pure (bob3, w6)

/-- Bob's state in `afterNextChain`, and the world. -/
def nextChainState : Signalstate := (okOr (testBob, testWorld) afterNextChain).1

def nextChainWorld : World := (okOr (testBob, testWorld) afterNextChain).2

/-! ## Theorems -/

/-! ### SetRatchet -/

/-- C10: for the levels 0..4 `SetRatchet` returns no error and installs `ScryptN`
8192, 16384, 32768, 65536, 104857 with the given `Count` and `Period` and `Last = 0`
(nothing but `rparam` changes); for every other level it returns an error and
leaves the whole state unchanged. -/
theorem SetRatchet_level_mapping (state : Signalstate) (count period now : Int) :
    SetRatchet state count period VLowSec now =
      ({ state with rparam :=
          { ScryptN := 8192, Count := count, Period := period, Last := 0, Ltime := now } },
       none) ∧
    SetRatchet state count period LowSec now =
      ({ state with rparam :=
          { ScryptN := 16384, Count := count, Period := period, Last := 0, Ltime := now } },
       none) ∧
    SetRatchet state count period MedSec now =
      ({ state with rparam :=
          { ScryptN := 32768, Count := count, Period := period, Last := 0, Ltime := now } },
       none) ∧
    SetRatchet state count period HighSec now =
      ({ state with rparam :=
          { ScryptN := 65536, Count := count, Period := period, Last := 0, Ltime := now } },
       none) ∧
    SetRatchet state count period VHighSec now =
      ({ state with rparam :=
          { ScryptN := 104857, Count := count, Period := period, Last := 0, Ltime := now } },
       none) ∧
    VLowSec = 0 ∧ LowSec = 1 ∧ MedSec = 2 ∧ HighSec = 3 ∧ VHighSec = 4 ∧
    ∀ level : Int, (level < 0 ∨ 4 < level) →
      SetRatchet state count period level now = (state, some Err.invalidRatchetLevel) := by
  refine ⟨rfl, rfl, rfl, rfl, rfl, rfl, rfl, rfl, rfl, rfl, ?_⟩
  intro level hlevel
  have h0 : level ≠ 0 := by omega
  have h1 : level ≠ 1 := by omega
  have h2 : level ≠ 2 := by omega
  have h3 : level ≠ 3 := by omega
  have h4 : level ≠ 4 := by omega
  simp [SetRatchet, VLowSec, LowSec, MedSec, HighSec, VHighSec, h0, h1, h2, h3, h4]

/-- C10 at a concrete input: level 5 on the configured test state is refused and the
state stays as it was. -/
theorem SetRatchet_level_mapping_witness :
    ((5 : Int) < 0 ∨ (4 : Int) < 5) ∧
    SetRatchet testConfigured 3 2 5 77 = (testConfigured, some Err.invalidRatchetLevel) :=
  ⟨by decide, (SetRatchet_level_mapping testConfigured 3 2 77).2.2.2.2.2.2.2.2.2.2 5 (by decide)⟩

/-! ### RatchetEncrypt and the error of KdfCk -/

/-- Whenever `KdfCk` returns an error, `RatchetEncrypt` either stops in a nil
dereference or returns the error of the random reader: the error of `KdfCk` is never
its result. -/
theorem RatchetEncrypt_of_KdfCk_error (P : Prims) (state : Signalstate) (plaintext : Bytes)
    (w w1 : World) (ck key : KeyPtr) (e : Err)
    (hk : KdfCk P state.sendchain state.rparam w = .ok ((ck, key, some e), w1)) :
    RatchetEncrypt P state plaintext w = .error Panic.nilDeref ∨
    ∃ s h w2, RatchetEncrypt P state plaintext w = .ok ((s, h, none, some Err.rngFailure), w2) := by
  have hkey : key = none := by
    unfold KdfCk at hk
    split at hk
    · split at hk
      · simp at hk; exact hk.1.2.1.symm
      · simp at hk
    · simp at hk
  subst hkey
  unfold RatchetEncrypt
  rw [hk]
  simp only [Encrypt, Nonce]
  cases hn : P.readNonce w1.draws with
  | none => right; simp
  | some b => left; simp

/-- C7 (the code at the failing input): Alice is initialised at `MedSec`, the level is
then raised to `VHighSec` (`ScryptN = 104857`, which scrypt refuses), and
`RatchetEncrypt` is called.  `KdfCk` returns its error, and `RatchetEncrypt` does not
report it: it stops in a nil dereference. -/
theorem RatchetEncrypt_kdf_error_lost :
    RatchetInitSender toy testConfigured testSymkey testBobPair.Pubkey testWorld =
      .ok ((testAlice.1, none), testAlice.2) ∧
    KdfCk toy (SetRatchet testAlice.1 1 0 VHighSec 0).1.sendchain
        (SetRatchet testAlice.1 1 0 VHighSec 0).1.rparam testAlice.2 =
      .ok ((none, none, some Err.kdfFailure), testAlice.2) ∧
    RatchetEncrypt toy (SetRatchet testAlice.1 1 0 VHighSec 0).1 [104, 105] testAlice.2 =
      .error Panic.nilDeref := by
  decide!

/-! ### DHRatchet when a step fails -/

/-- C8, as the code behaves: when a step of `DHRatchet` fails the error is returned
and the assignments made before it stay.  With non-nil private key, header key and
root key: if the first `KdfRk` fails, the counters and `rpubkey` are already updated
and `rootkey`, `recvchain` are nil; if the key generation fails, the first `KdfRk` has
also replaced `rootkey` and `recvchain`, and `sendpair` is the zero pair; if the second
`KdfRk` fails, `sendpair` is the new pair and `rootkey`, `sendchain` are nil. -/
theorem DHRatchet_failure_state (P : Prims) (state : Signalstate) (head : Mesghead)
    (w : World) (sk pk rk : Ptr)
    (hsk : state.sendpair.Prikey = some sk) (hpk : head.Pubkey = some pk)
    (hrk : state.rootkey = some rk) :
    (P.scrypt rk.val (P.scalarMult sk.val pk.val) state.rparam.ScryptN = none →
      DHRatchet P state head w =
        .ok (({ state with
                  nummesg := state.sendnum, sendnum := 0, recvnum := 0,
                  rpubkey := head.Pubkey, rootkey := none, recvchain := none },
              some Err.kdfFailure), { w with heap := w.heap + 1 })) ∧
    (∀ out, P.scrypt rk.val (P.scalarMult sk.val pk.val) state.rparam.ScryptN = some out →
      P.generateKey w.draws = none →
      DHRatchet P state head w =
        .ok (({ state with
                  nummesg := state.sendnum, sendnum := 0, recvnum := 0,
                  rpubkey := head.Pubkey,
                  rootkey := some ⟨w.heap + 1, out.take KeySize⟩,
                  recvchain := some ⟨w.heap + 2, (out.drop KeySize).take KeySize⟩,
                  sendpair := { Prikey := none, Pubkey := none } },
              some Err.rngFailure), { heap := w.heap + 5, draws := w.draws + 1 })) ∧
    (∀ out pub pri,
      P.scrypt rk.val (P.scalarMult sk.val pk.val) state.rparam.ScryptN = some out →
      P.generateKey w.draws = some (pub, pri) →
      P.scrypt (out.take KeySize) (P.scalarMult pri pk.val) state.rparam.ScryptN = none →
      DHRatchet P state head w =
        .ok (({ state with
                  nummesg := state.sendnum, sendnum := 0, recvnum := 0,
                  rpubkey := head.Pubkey,
                  rootkey := none,
                  recvchain := some ⟨w.heap + 2, (out.drop KeySize).take KeySize⟩,
                  sendpair := { Prikey := some ⟨w.heap + 4, pri⟩,
                                Pubkey := some ⟨w.heap + 3, pub⟩ },
                  sendchain := none },
              some Err.kdfFailure), { heap := w.heap + 6, draws := w.draws + 1 })) := by
  refine ⟨?_, ?_, ?_⟩
  · intro h1
    simp [DHRatchet, NewDh, KdfRk, hsk, hpk, hrk, h1]
  · intro out h1 h2
    simp [DHRatchet, NewDh, KdfRk, GenerateDh, KeyPair, hsk, hpk, hrk, h1, h2]
  · intro out pub pri h1 h2 h3
    simp [DHRatchet, NewDh, KdfRk, GenerateDh, KeyPair, hsk, hpk, hrk, h1, h2, h3]

/-- C8 at a concrete input: a receiver that was never given a level (`ScryptN = 0`)
runs `DHRatchet` on Alice's first header; the first `KdfRk` fails. -/
theorem DHRatchet_failure_state_witness :
    unconfiguredBob.sendpair.Prikey = some ⟨2, List.replicate 32 9⟩ ∧
    testHead0.Pubkey = some ⟨3, List.replicate 32 36⟩ ∧
    unconfiguredBob.rootkey = some ⟨0, List.replicate 32 7⟩ ∧
    toy.scrypt (List.replicate 32 7)
      (toy.scalarMult (List.replicate 32 9) (List.replicate 32 36))
      unconfiguredBob.rparam.ScryptN = none ∧
    DHRatchet toy unconfiguredBob testHead0 testWorld =
      .ok (({ unconfiguredBob with
                nummesg := unconfiguredBob.sendnum, sendnum := 0, recvnum := 0,
                rpubkey := testHead0.Pubkey, rootkey := none, recvchain := none },
            some Err.kdfFailure), { testWorld with heap := testWorld.heap + 1 }) :=
  ⟨rfl, rfl, rfl, by decide,
   (DHRatchet_failure_state toy unconfiguredBob testHead0 testWorld
      ⟨2, List.replicate 32 9⟩ ⟨3, List.replicate 32 36⟩ ⟨0, List.replicate 32 7⟩
      rfl rfl rfl).1 (by decide)⟩

/-- C8 as stated fails: the `DHRatchet` of the unconfigured receiver returns the KDF
error, and the state it leaves differs from the one before the call in `rpubkey` (now
the header's key) and in `rootkey` (now nil). -/
theorem DHRatchet_failure_not_atomic :
    (DHRatchet toy unconfiguredBob testHead0 testWorld).map
        (fun r => (r.1.2, r.1.1.rpubkey, r.1.1.rootkey)) =
      .ok (some Err.kdfFailure, testHead0.Pubkey, none) ∧
    unconfiguredBob.rpubkey = none ∧ testHead0.Pubkey ≠ none ∧
    unconfiguredBob.rootkey = testSymkey ∧ testSymkey ≠ none := by
  decide!

/-! ### TrySkippedMessageKeys and the identity of the header key -/

/-- C9 (the code at the failing input): Alice encrypts two messages and Bob receives
the second one first, which stores the key of the first under (Alice's public key
pointer, 0).  Called with the header Alice returned, `TrySkippedMessageKeys` finds the
key and decrypts.  Called with the same header rebuilt from the wire (the same 32
bytes at another address) it finds nothing: it returns (nil, nil) and leaves the state
as it is, and `RatchetDecrypt` then fails on a key of the next chain step. -/
theorem TrySkippedMessageKeys_misses_rebuilt_header :
    encryptAll toy testAlice.1 testAlice.2 skipMsgs = .ok (testSend skipMsgs) ∧
    (testReceive skipMsgs [1]).map (fun r => r.1) =
      .ok [(testBobAfter skipMsgs [1], some [4, 5], none)] ∧
    (testPackets skipMsgs [0]).map (fun pk => pk.1) = [testHead0] ∧
    ((testBobAfter skipMsgs [1]).skipped.get ⟨testHead0.Pubkey, 0⟩).isSome = true ∧
    (rebuilt testHead0 900).Pubkey.map Ptr.val = testHead0.Pubkey.map Ptr.val ∧
    (rebuilt testHead0 900).Sendnum = 0 ∧
    (testPackets skipMsgs [0]).map
        (fun pk => (TrySkippedMessageKeys toy (testBobAfter skipMsgs [1]) pk.1 pk.2).map
          (fun r => r.2)) =
      [.ok (some [1, 2, 3], none)] ∧
    (testPackets skipMsgs [0]).map
        (fun pk => TrySkippedMessageKeys toy (testBobAfter skipMsgs [1])
          (rebuilt pk.1 900) pk.2) =
      [.ok (testBobAfter skipMsgs [1], none, none)] ∧
    (testPackets skipMsgs [0]).map
        (fun pk => (RatchetDecrypt toy (testBobAfter skipMsgs [1])
          (rebuilt pk.1 900) pk.2 (testSend skipMsgs).2).map (fun r => r.1.2)) =
      [.ok (none, some Err.openSecretbox)] := by
  decide!

/-! ### SkipMessageKeys and the skip bound -/

theorem wrapU64_of_lt {x : Nat} (h : x < 2 ^ 64) : wrapU64 x = x := by
  unfold wrapU64
  exact Nat.mod_eq_of_lt h

theorem skipFrame_refl (s : Signalstate) : skipFrame s s := rfl

theorem skipFrame_trans {a b c : Signalstate} (h1 : skipFrame a b) (h2 : skipFrame b c) :
    skipFrame a c := by
  unfold skipFrame at *
  rw [h2, h1]

/-- The loop of `SkipMessageKeys` returns when it starts on a non-nil chain key with
a `uint64` bound and `untilNum - recvnum` iterations allowed. -/
theorem skipLoop_returns (P : Prims) (untilNum : Nat) (hu : untilNum < 2 ^ 64) :
    ∀ (fuel : Nat) (state : Signalstate) (w : World),
      state.recvchain.isSome = true → untilNum - state.recvnum ≤ fuel →
      ∃ s1 e w1, skipLoop P untilNum fuel state w = .ok ((s1, e), w1) ∧ skipFrame state s1 := by
  intro fuel
  induction fuel with
  | zero =>
    intro state w _ hf
    have hnot : ¬ state.recvnum < untilNum := by omega
    exact ⟨state, none, w, by simp [skipLoop, hnot], skipFrame_refl _⟩
  | succ n ih =>
    intro state w hc hf
    by_cases hlt : state.recvnum < untilNum
    · obtain ⟨ck, hck⟩ := Option.isSome_iff_exists.mp hc
      cases hs : P.scrypt ck.val constant state.rparam.ScryptN with
      | none =>
        refine ⟨{ state with recvchain := none }, some Err.kdfFailure, w, ?_, rfl⟩
        simp [skipLoop, hlt, KdfCk, hck, hs]
      | some key =>
        have hw : wrapU64 (state.recvnum + 1) = state.recvnum + 1 :=
          wrapU64_of_lt (by omega)
        obtain ⟨s1, e, w1, hrun, hfr⟩ :=
          ih { state with
                recvchain := some ⟨w.heap, key.take KeySize⟩,
                skipped := state.skipped.set ⟨state.rpubkey, state.recvnum⟩
                  (some ⟨w.heap + 1, (key.drop KeySize).take KeySize⟩),
                recvnum := wrapU64 (state.recvnum + 1) }
             { w with heap := w.heap + 2 } rfl (by simp only [hw]; omega)
        refine ⟨s1, e, w1, ?_, ?_⟩
        · rw [← hrun]
          simp [skipLoop, hlt, KdfCk, hck, hs]
        · refine skipFrame_trans ?_ hfr
          rfl
    · exact ⟨state, none, w, by simp [skipLoop, hlt], skipFrame_refl _⟩

theorem SkipMessageKeys_overflow (P : Prims) (state : Signalstate) (untilNum : Nat) (w : World)
    (h : wrapU64 (state.recvnum + MaxSkip) < untilNum) :
    SkipMessageKeys P state untilNum w = .error Panic.tooManySkipped := by
  simp [SkipMessageKeys, h]

/-- `SkipMessageKeys` either raises its panic or returns, for a `uint64` bound. -/
theorem SkipMessageKeys_cases (P : Prims) (state : Signalstate) (untilNum : Nat) (w : World)
    (hu : untilNum < 2 ^ 64) :
    SkipMessageKeys P state untilNum w = .error Panic.tooManySkipped ∨
    ∃ s1 e w1, SkipMessageKeys P state untilNum w = .ok ((s1, e), w1) ∧ skipFrame state s1 := by
  by_cases h1 : wrapU64 (state.recvnum + MaxSkip) < untilNum
  · exact Or.inl (SkipMessageKeys_overflow P state untilNum w h1)
  · right
    by_cases h2 : state.recvchain.isSome = true
    · obtain ⟨s1, e, w1, hrun, hfr⟩ :=
        skipLoop_returns P untilNum hu (untilNum - state.recvnum) state w h2 le_rfl
      exact ⟨s1, e, w1, by simp [SkipMessageKeys, h1, h2, hrun], hfr⟩
    · exact ⟨state, none, w, by simp [SkipMessageKeys, h1, h2], skipFrame_refl _⟩

/-- `DHRatchet` either dereferences a nil pointer (the header key, the own private key
or the root key) or returns with `recvnum = 0`. -/
theorem DHRatchet_cases (P : Prims) (state : Signalstate) (head : Mesghead) (w : World) :
    (DHRatchet P state head w = .error Panic.nilDeref ∧
      (head.Pubkey = none ∨ state.sendpair.Prikey = none ∨ state.rootkey = none)) ∨
    ∃ s1 e w1, DHRatchet P state head w = .ok ((s1, e), w1) ∧ s1.recvnum = 0 := by
  cases hpk : head.Pubkey with
  | none =>
    left
    refine ⟨?_, Or.inl rfl⟩
    cases hsk : state.sendpair.Prikey <;> simp [DHRatchet, NewDh, hpk, hsk]
  | some pk =>
    cases hsk : state.sendpair.Prikey with
    | none => left; exact ⟨by simp [DHRatchet, NewDh, hpk, hsk], Or.inr (Or.inl rfl)⟩
    | some sk =>
      cases hrk : state.rootkey with
      | none =>
        left
        exact ⟨by simp [DHRatchet, NewDh, KdfRk, hpk, hsk, hrk], Or.inr (Or.inr rfl)⟩
      | some rk =>
        right
        cases h1 : P.scrypt rk.val (P.scalarMult sk.val pk.val) state.rparam.ScryptN with
        | none => simp [DHRatchet, NewDh, KdfRk, hpk, hsk, hrk, h1]
        | some out =>
          cases h2 : P.generateKey (w.draws) with
          | none => simp [DHRatchet, NewDh, KdfRk, GenerateDh, KeyPair, hpk, hsk, hrk, h1, h2]
          | some kp =>
            obtain ⟨pub, pri⟩ := kp
            cases h3 : P.scrypt (out.take KeySize) (P.scalarMult pri pk.val)
                state.rparam.ScryptN with
            | none =>
              simp [DHRatchet, NewDh, KdfRk, GenerateDh, KeyPair, hpk, hsk, hrk, h1, h2, h3]
            | some out2 =>
              simp [DHRatchet, NewDh, KdfRk, GenerateDh, KeyPair, hpk, hsk, hrk, h1, h2, h3]

theorem ratchetStep_cases (P : Prims) (state : Signalstate) (head : Mesghead) (w : World)
    (hN : head.Nummesg < 2 ^ 64) :
    ratchetStep P state head w = .error Panic.tooManySkipped ∨
    (ratchetStep P state head w = .error Panic.nilDeref ∧
      (head.Pubkey = none ∨ state.sendpair.Prikey = none ∨ state.rootkey = none)) ∨
    ∃ s2 w2, ratchetStep P state head w = .ok (s2, w2) ∧ s2.recvnum = 0 := by
  rcases SkipMessageKeys_cases P state head.Nummesg w hN with h | ⟨s1, e, w1, h, hfr⟩
  · left; simp [ratchetStep, h]
  · right
    have hroot : s1.rootkey = state.rootkey := by rw [hfr]
    have hpair : s1.sendpair = state.sendpair := by rw [hfr]
    rcases DHRatchet_cases P s1 head w1 with ⟨hd, hnil⟩ | ⟨s2, e2, w2, hd, hz⟩
    · left
      rw [hroot, hpair] at hnil
      exact ⟨by simp [ratchetStep, h, hd], hnil⟩
    · right
      exact ⟨s2, w2, by simp [ratchetStep, h, hd], hz⟩

theorem newChain_cases (P : Prims) (state : Signalstate) (head : Mesghead) (w : World) :
    newChain P state head w = .ok (state, w) ∨
    newChain P state head w = ratchetStep P state head w ∨
    (newChain P state head w = .error Panic.nilDeref ∧ head.Pubkey = none) := by
  unfold newChain
  by_cases hp : ptrEq head.Pubkey state.rpubkey = true
  · left; simp [hp]
  · simp only [hp]
    cases hr : state.rpubkey with
    | none => right; left; simp
    | some r =>
      cases hh : head.Pubkey with
      | none => right; right; simp
      | some h =>
        by_cases hv : h.val = r.val
        · left; simp [hv]
        · right; left; simp [hv]

/-- C3, as the code behaves: for every state whose skipped store holds no key under
(header public key, header `Sendnum`) and every header with
`Sendnum > recvnum + MaxSkip`, `RatchetDecrypt` returns neither a plaintext nor an
error value: it stops in the panic of `SkipMessageKeys`, unless the DH ratchet that
comes first dereferences a nil header key, private key or root key. -/
theorem RatchetDecrypt_skip_bound (P : Prims) (state : Signalstate) (head : Mesghead)
    (ciphertext : Bytes) (w : World)
    (hnone : state.skipped.get ⟨head.Pubkey, head.Sendnum⟩ = none)
    (hS : head.Sendnum < 2 ^ 64) (hN : head.Nummesg < 2 ^ 64)
    (hgt : state.recvnum + MaxSkip < head.Sendnum) :
    RatchetDecrypt P state head ciphertext w = .error Panic.tooManySkipped ∨
    (RatchetDecrypt P state head ciphertext w = .error Panic.nilDeref ∧
      (head.Pubkey = none ∨ state.sendpair.Prikey = none ∨ state.rootkey = none)) := by
  have htry : TrySkippedMessageKeys P state head ciphertext = .ok (state, none, none) := by
    simp [TrySkippedMessageKeys, hnone]
  have hsame : SkipMessageKeys P state head.Sendnum w = .error Panic.tooManySkipped :=
    SkipMessageKeys_overflow P state head.Sendnum w
      (by rw [wrapU64_of_lt (by omega)]; exact hgt)
  have hzero : ∀ (s2 : Signalstate) (w2 : World), s2.recvnum = 0 →
      SkipMessageKeys P s2 head.Sendnum w2 = .error Panic.tooManySkipped := by
    intro s2 w2 hz
    apply SkipMessageKeys_overflow
    rw [hz]
    simp only [MaxSkip, wrapU64] at *
    omega
  unfold RatchetDecrypt
  rw [htry]
  rcases newChain_cases P state head w with h | h | ⟨h, hnil⟩
  · left; simp [h, hsame]
  · rcases ratchetStep_cases P state head w hN with h2 | ⟨h2, hnil⟩ | ⟨s2, w2, h2, hz⟩
    · left; simp [h, h2]
    · right; exact ⟨by simp [h, h2], hnil⟩
    · left; simp [h, h2, hzero s2 w2 hz]
  · right; exact ⟨by simp [h], Or.inl hnil⟩

/-- C3 at a concrete input: a freshly initialised receiver is given only the 102nd
message of the chain (`Sendnum = 101`); `RatchetDecrypt` stops in the panic
"too many skipped messages". -/
theorem RatchetDecrypt_skip_bound_witness :
    testBob.skipped.get ⟨testHead101.Pubkey, testHead101.Sendnum⟩ = none ∧
    testHead101.Sendnum < 2 ^ 64 ∧ testHead101.Nummesg < 2 ^ 64 ∧
    testBob.recvnum + MaxSkip < testHead101.Sendnum ∧
    RatchetDecrypt toy testBob testHead101 (List.replicate 45 0) testWorld =
      .error Panic.tooManySkipped :=
  ⟨by decide, by decide, by decide, by decide,
   (RatchetDecrypt_skip_bound toy testBob testHead101 (List.replicate 45 0) testWorld
      (by decide) (by decide) (by decide) (by decide)).resolve_right
      (fun h => absurd h.2 (by decide))⟩

/-- C3 as stated fails: in the state `lateOldMessage` reaches, `recvnum` is 1 and the
late header has `Sendnum = 102 > 1 + MaxSkip`, and `RatchetDecrypt` returns the
plaintext `[102]` with no error, from the key stored as skipped. -/
theorem RatchetDecrypt_skipped_key_beyond_bound :
    RatchetInitSender toy testConfigured testSymkey testBobPair.Pubkey testWorld =
      .ok ((testAlice.1, none), testAlice.2) ∧
    lateOldMessage.bind
        (fun r => (RatchetDecrypt toy r.1 r.2.1.1 r.2.1.2 r.2.2).map
          (fun x => (r.1.recvnum, r.2.1.1.Sendnum, x.1.2))) =
      .ok (1, 102, some [102], none) ∧
    1 + MaxSkip < 102 := by
  decide!

/-! ### The key ring -/

theorem wrapInt_of_small {x : Int} (h0 : 0 ≤ x) (h1 : x ≤ 16) : wrapInt x = x := by
  unfold wrapInt
  norm_num
  omega

theorem ringNext_of_small {x : Int} (h0 : -1 ≤ x) (h1 : x < 16) :
    Int.tmod (wrapInt (x + 1)) 16 = (x + 1) % 16 := by
  rw [wrapInt_of_small (by omega) (by omega)]
  exact Int.tmod_eq_emod (by omega) (by decide)

/-- The slot `AddKeyRing` writes to when the ring holds `L`. -/
theorem RingHolds_next (s : Signalstate) (L : List (Nat × KeyPtr)) (h : RingHolds s L) :
    Int.tmod (wrapInt (s.ringend + 1)) 16 = ((L.length % 16 : Nat) : Int) := by
  by_cases hL : L = []
  · have he := (h.1 hL).2
    subst hL
    rw [he]
    decide
  · have he := (h.2.1 hL).1
    have hpos : 0 < L.length := List.length_pos.mpr hL
    rw [ringNext_of_small (by omega) (by omega), he]
    omega

/-- One `AddKeyRing` on a ring that holds `L`: it returns, touches the ring fields
only, and the ring holds `L` followed by the new pair. -/
theorem AddKeyRing_RingHolds (s : Signalstate) (L : List (Nat × KeyPtr)) (key : KeyPtr)
    (num : Nat) (h : RingHolds s L) :
    ∃ s1, AddKeyRing s key num = .ok s1 ∧ ringFrame s s1 ∧ RingHolds s1 (L ++ [(num, key)]) := by
  have hi := RingHolds_next s L h
  have hlt : L.length % 16 < 16 := Nat.mod_lt _ (by decide)
  have hrange : 0 ≤ Int.tmod (wrapInt (s.ringend + 1)) 16 ∧
      Int.tmod (wrapInt (s.ringend + 1)) 16 < 16 := by
    rw [hi]; omega
  have hidx : (⟨(Int.tmod (wrapInt (s.ringend + 1)) 16).toNat, by omega⟩ : Fin 16) =
      ⟨L.length % 16, hlt⟩ := by
    apply Fin.ext
    simp only [hi, Int.toNat_ofNat]
  -- the new value of `ringstart`
  have hstart : ∃ st : Int,
      st = (((L.length + 1 - min (L.length + 1) 16) % 16 : Nat) : Int) ∧
      AddKeyRing s key num =
        .ok { s with
                ringnum := Function.update s.ringnum ⟨L.length % 16, hlt⟩ num,
                ringkey := Function.update s.ringkey ⟨L.length % 16, hlt⟩ key,
                ringend := ((L.length % 16 : Nat) : Int),
                ringstart := st } := by
    by_cases hL : L = []
    · have hs := (h.1 hL).1
      subst hL
      refine ⟨0, by simp, ?_⟩
      unfold AddKeyRing
      simp only [dif_pos hrange, hidx]
      simp [hi, hs]
    · have hs := (h.2.1 hL).2
      have hpos : 0 < L.length := List.length_pos.mpr hL
      by_cases h16 : L.length < 16
      · refine ⟨0, ?_, ?_⟩
        · have : min (L.length + 1) 16 = L.length + 1 := by omega
          simp [this]
        · have hs0 : s.ringstart = 0 := by
            rw [hs]
            have : min L.length 16 = L.length := by omega
            simp [this]
          have hne : ¬ ((0 : Int) = ((L.length % 16 : Nat) : Int)) := by omega
          unfold AddKeyRing
          simp only [dif_pos hrange, hidx]
          simp [hi, hs0]
          intro hc
          omega
      · refine ⟨(((L.length + 1) % 16 : Nat) : Int), ?_, ?_⟩
        · have : min (L.length + 1) 16 = 16 := by omega
          rw [this]
          congr 1
          omega
        · have hs1 : s.ringstart = ((L.length % 16 : Nat) : Int) := by
            rw [hs]
            have : min L.length 16 = 16 := by omega
            rw [this]
            congr 1
            omega
          have hnext : Int.tmod (wrapInt (((L.length % 16 : Nat) : Int) + 1)) 16 =
              (((L.length + 1) % 16 : Nat) : Int) := by
            rw [ringNext_of_small (by omega) (by omega)]
            omega
          unfold AddKeyRing
          simp only [dif_pos hrange, hidx]
          simp [hi, hs1]
          simpa using hnext
  obtain ⟨st, hst, hrun⟩ := hstart
  refine ⟨_, hrun, rfl, ?_, ?_, ?_⟩
  · intro hnil
    simp at hnil
  · intro _
    simp only [List.length_append, List.length_singleton]
    refine ⟨?_, hst⟩
    simp
  · intro j hj hwin
    simp only [List.length_append, List.length_singleton] at hj hwin
    by_cases hjn : j = L.length
    · subst hjn
      simp [Function.update_same]
    · have hjL : j < L.length := by omega
      have hne : (⟨j % 16, Nat.mod_lt _ (by decide)⟩ : Fin 16) ≠ ⟨L.length % 16, hlt⟩ := by
        intro heq
        have := congrArg Fin.val heq
        simp only at this
        omega
      rw [List.getElem_append_left hjL]
      simp only [Function.update_noteq hne]
      exact h.2.2 j hjL (by omega)

/-- The walk over a ring that holds `L`, started at the slot of pair `j` of the last
16, reads the pairs from `j` on. -/
theorem ringWalk_RingHolds (s : Signalstate) (L : List (Nat × KeyPtr)) (h : RingHolds s L) :
    ∀ (fuel j : Nat), j < L.length → L.length ≤ j + 16 → L.length - j ≤ fuel →
      ringWalk s fuel ((j % 16 : Nat) : Int) = L.drop j := by
  intro fuel
  induction fuel with
  | zero => intro j hj _ hf; omega
  | succ n ih =>
    intro j hj hwin hf
    have hL : L ≠ [] := by
      intro hnil
      rw [hnil] at hj
      simp at hj
    have hend := (h.2.1 hL).1
    have hrange : 0 ≤ ((j % 16 : Nat) : Int) ∧ ((j % 16 : Nat) : Int) < 16 := by omega
    have hidx : (⟨(((j % 16 : Nat) : Int)).toNat, by omega⟩ : Fin 16) =
        ⟨j % 16, Nat.mod_lt _ (by decide)⟩ := by
      apply Fin.ext
      simp only [Int.toNat_ofNat]
    have hentry := h.2.2 j hj hwin
    rw [List.drop_eq_getElem_cons hj, ← hentry]
    unfold ringWalk
    simp only [dif_pos hrange, hidx]
    by_cases hlast : j + 1 = L.length
    · have hi : ((j % 16 : Nat) : Int) = s.ringend := by
        rw [hend]
        congr 2
        omega
      rw [if_pos hi, List.drop_eq_nil_of_le (by omega)]
    · have hi : ¬ ((j % 16 : Nat) : Int) = s.ringend := by
        rw [hend]
        omega
      have hnext : Int.tmod (((j % 16 : Nat) : Int) + 1) 16 = (((j + 1) % 16 : Nat) : Int) := by
        rw [Int.tmod_eq_emod (by omega) (by decide)]
        omega
      rw [if_neg hi, hnext, ih (j + 1) (by omega) (by omega) (by omega)]

/-- The entries of a ring that holds `L` are the last 16 pairs of `L` (all of them
when there are fewer), in the order of insertion. -/
theorem ringEntries_RingHolds (s : Signalstate) (L : List (Nat × KeyPtr)) (h : RingHolds s L) :
    ringEntries s = L.drop (L.length - 16) := by
  unfold ringEntries
  by_cases hL : L = []
  · have hs := (h.1 hL).1
    subst hL
    simp [hs]
  · have hs := (h.2.1 hL).2
    have hpos : 0 < L.length := List.length_pos.mpr hL
    have hj : L.length - min L.length 16 = L.length - 16 := by omega
    rw [hj] at hs
    rw [if_pos (by omega), hs]
    exact ringWalk_RingHolds s L h 16 (L.length - 16) (by omega) (by omega) (by omega)

theorem RingHolds_init (s : Signalstate) (hs : s.ringstart = -1) (he : s.ringend = -1) :
    RingHolds s [] := by
  refine ⟨fun _ => ⟨hs, he⟩, fun h => absurd rfl h, ?_⟩
  intro j hj
  simp at hj

theorem addAll_RingHolds :
    ∀ (adds : List (KeyPtr × Nat)) (s : Signalstate) (L : List (Nat × KeyPtr)),
      RingHolds s L →
      ∃ s1, addAll s adds = .ok s1 ∧ RingHolds s1 (L ++ adds.map (fun a => (a.2, a.1))) := by
  intro adds
  induction adds with
  | nil => intro s L h; exact ⟨s, rfl, by simpa using h⟩
  | cons a rest ih =>
    intro s L h
    obtain ⟨key, num⟩ := a
    obtain ⟨s1, hrun, _, hh⟩ := AddKeyRing_RingHolds s L key num h
    obtain ⟨s2, hrun2, hh2⟩ := ih s1 (L ++ [(num, key)]) hh
    refine ⟨s2, ?_, ?_⟩
    · simp [addAll, hrun, hrun2]
    · simpa using hh2

/-- C6: from a ring with `ringstart = ringend = -1`, any sequence of `n >= 1` calls of
`AddKeyRing` returns, and the entries read from `ringstart` through `ringend` are
exactly the last `min n 16` inserted (number, key) pairs in insertion order; one more
insertion appends its pair and, when the ring held 16 entries, drops the oldest. -/
theorem AddKeyRing_keeps_last_16 (state : Signalstate) (adds : List (KeyPtr × Nat))
    (hs : state.ringstart = -1) (he : state.ringend = -1) (hn : 1 ≤ adds.length) :
    ∃ s1, addAll state adds = .ok s1 ∧
      ringEntries s1 = (adds.map (fun a => (a.2, a.1))).drop (adds.length - 16) ∧
      (ringEntries s1).length = min adds.length 16 ∧
      ∀ (key : KeyPtr) (num : Nat), ∃ s2, AddKeyRing s1 key num = .ok s2 ∧
        ringEntries s2 =
          (if (ringEntries s1).length = 16 then (ringEntries s1).tail else ringEntries s1)
            ++ [(num, key)] := by
  obtain ⟨s1, hrun, hh⟩ := addAll_RingHolds adds state [] (RingHolds_init state hs he)
  simp only [List.nil_append] at hh
  have hent := ringEntries_RingHolds s1 _ hh
  simp only [List.length_map] at hent
  have hlen : (ringEntries s1).length = min adds.length 16 := by
    rw [hent]
    simp only [List.length_drop, List.length_map]
    omega
  refine ⟨s1, hrun, hent, hlen, ?_⟩
  intro key num
  obtain ⟨s2, hrun2, _, hh2⟩ := AddKeyRing_RingHolds s1 _ key num hh
  refine ⟨s2, hrun2, ?_⟩
  rw [ringEntries_RingHolds s2 _ hh2, hlen, hent]
  simp only [List.length_append, List.length_map, List.length_singleton]
  by_cases h16 : 16 ≤ adds.length
  · have h1 : min adds.length 16 = 16 := by omega
    rw [if_pos h1, List.tail_drop,
      List.drop_append_of_le_length (by simp only [List.length_map]; omega)]
    congr 2
    omega
  · have h1 : ¬ min adds.length 16 = 16 := by omega
    have h2 : adds.length + 1 - 16 = 0 := by omega
    have h3 : adds.length - 16 = 0 := by omega
    rw [if_neg h1, h2, h3]
    simp

/-- C6 at a concrete input: eighteen insertions into Bob's fresh ring. -/
theorem AddKeyRing_keeps_last_16_witness :
    testBob.ringstart = -1 ∧ testBob.ringend = -1 ∧ 1 ≤ ringAdds.length ∧
    ∃ s1, addAll testBob ringAdds = .ok s1 ∧
      ringEntries s1 = (ringAdds.map (fun a => (a.2, a.1))).drop (ringAdds.length - 16) ∧
      (ringEntries s1).length = min ringAdds.length 16 ∧
      ∀ (key : KeyPtr) (num : Nat), ∃ s2, AddKeyRing s1 key num = .ok s2 ∧
        ringEntries s2 =
          (if (ringEntries s1).length = 16 then (ringEntries s1).tail else ringEntries s1)
            ++ [(num, key)] :=
  ⟨rfl, rfl, by decide, AddKeyRing_keeps_last_16 testBob ringAdds rfl rfl (by decide)⟩

/-- `AddKeyRing` returns on every ring whose `ringend` is -1 or a slot index. -/
theorem AddKeyRing_returns (s : Signalstate) (key : KeyPtr) (num : Nat)
    (h0 : -1 ≤ s.ringend) (h1 : s.ringend < 16) :
    ∃ s1, AddKeyRing s key num = .ok s1 ∧ ringFrame s s1 := by
  have hi := ringNext_of_small h0 h1
  have hrange : 0 ≤ Int.tmod (wrapInt (s.ringend + 1)) 16 ∧
      Int.tmod (wrapInt (s.ringend + 1)) 16 < 16 := by
    rw [hi]; omega
  unfold AddKeyRing
  simp only [dif_pos hrange]
  split_ifs
  · exact ⟨_, rfl, rfl⟩
  · exact ⟨_, rfl, rfl⟩
  · exact ⟨_, rfl, rfl⟩

/-! ### RatchetDecrypt called again on a consumed message -/

/-- `Decrypt` with a non-nil key returns; it returns an error when the input is too
short or the box does not open. -/
theorem Decrypt_returns (P : Prims) (c : Bytes) (k : Ptr) :
    ∃ r, Decrypt P c (some k) = .ok r ∧
      (P.boxOpen (c.drop NonceSize) (c.take NonceSize) k.val = none →
        r.1 = none ∧ r.2 ≠ none) := by
  unfold Decrypt
  split_ifs with hlen
  · exact ⟨_, rfl, fun _ => ⟨rfl, by simp⟩⟩
  · cases ho : P.boxOpen (c.drop NonceSize) (c.take NonceSize) k.val with
    | none => exact ⟨(none, some Err.openSecretbox), by simp only [ho], fun _ => ⟨rfl, by simp⟩⟩
    | some m => exact ⟨(toSlice m, none), by simp only [ho], fun h => by simp at h⟩

/-- `SkipMessageKeys` with nothing to skip and no overflow leaves the state as it is. -/
theorem SkipMessageKeys_nothing (P : Prims) (state : Signalstate) (untilNum : Nat) (w : World)
    (hle : untilNum ≤ state.recvnum) (hrange : state.recvnum + MaxSkip < 2 ^ 64) :
    SkipMessageKeys P state untilNum w = .ok ((state, none), w) := by
  have h1 : ¬ wrapU64 (state.recvnum + MaxSkip) < untilNum := by
    rw [wrapU64_of_lt hrange]
    omega
  have h2 : ¬ state.recvnum < untilNum := by omega
  unfold SkipMessageKeys
  rw [if_neg h1]
  split_ifs
  · unfold skipLoop
    simp [h2]
  · rfl

/-- C4 as stated fails: Alice encrypts the two messages of `skipMsgs`, Bob decrypts the
second and then the first, the first from its skipped key, which is consumed.  The
first packet passed once more returns the secretbox open error, and the call has
moved `recvnum` from 2 to 3 and replaced `recvchain`. -/
theorem RatchetDecrypt_replay_mutates :
    encryptAll toy testAlice.1 testAlice.2 skipMsgs = .ok (testSend skipMsgs) ∧
    (testReceive skipMsgs [1, 0]).map (fun r => r.1.map (fun x => x.2)) =
      .ok [(some [4, 5], none), (some [1, 2, 3], none)] ∧
    (testReceive skipMsgs [1, 0]).map (fun r => r.1.getLast?.map (fun x => x.1)) =
      .ok (some replayState) ∧
    ((testBobAfter skipMsgs [1]).skipped.get
        ⟨replayPacket.1.Pubkey, replayPacket.1.Sendnum⟩).isSome = true ∧
    replayState.skipped.get ⟨replayPacket.1.Pubkey, replayPacket.1.Sendnum⟩ = none ∧
    replayState.recvnum = 2 ∧
    (RatchetDecrypt toy replayState replayPacket.1 replayPacket.2 (testSend skipMsgs).2).map
        (fun r => (r.1.2, r.1.1.recvnum, decide (r.1.1.recvchain = replayState.recvchain))) =
      .ok ((none, some Err.openSecretbox), 3, false) := by
  decide!

/-! ### In-order delivery -/

/-- `RatchetEncrypt` on a non-nil chain key, when the key derivation and the random
reader succeed. -/
theorem RatchetEncrypt_returns (P : Prims) (a : Signalstate) (m : Bytes) (w : World)
    (sc : Ptr) (out n : Bytes)
    (hchain : a.sendchain = some sc)
    (hkdf : P.scrypt sc.val constant a.rparam.ScryptN = some out)
    (hnonce : P.readNonce w.draws = some n) :
    RatchetEncrypt P a m w =
      .ok (({ a with
                sendchain := some ⟨w.heap, chainKeyOf out⟩,
                sendnum := wrapU64 (a.sendnum + 1),
                Mesgkey := some ⟨w.heap + 1, mesgKeyOf out⟩ },
            Header a.sendpair a.nummesg a.sendnum,
            some (n ++ P.boxSeal m n (mesgKeyOf out)), none),
           { heap := w.heap + 3, draws := w.draws + 1 }) := by
  simp [RatchetEncrypt, KdfCk, Encrypt, Nonce, hchain, hkdf, hnonce, chainKeyOf, mesgKeyOf]

/-- `Decrypt` gives back what `Encrypt` was given, under a key with the same bytes. -/
theorem Decrypt_sealed (P : Prims) (m n key : Bytes) (k : Ptr)
    (hopen : P.boxOpen (P.boxSeal m n key) n key = some m)
    (hover : Overhead ≤ (P.boxSeal m n key).length)
    (hn : n.length = NonceSize) (hk : k.val = key) :
    Decrypt P (n ++ P.boxSeal m n key) (some k) = .ok (toSlice m, none) := by
  have hlen : ¬ (n ++ P.boxSeal m n key).length < NonceSize + Overhead := by
    simp only [List.length_append, hn]
    omega
  have htake : (n ++ P.boxSeal m n key).take NonceSize = n := by
    rw [← hn]
    exact List.take_left' rfl
  have hdrop : (n ++ P.boxSeal m n key).drop NonceSize = P.boxSeal m n key := by
    rw [← hn]
    exact List.drop_left' rfl
  unfold Decrypt
  rw [if_neg hlen]
  simp only [htake, hdrop, hk, hopen]

/-- The receiving half of `DHRatchet`: with non-nil private key, header key and root
key and a first `KdfRk` that succeeds, `DHRatchet` returns (whatever the key generation
and the second `KdfRk` do) with the new receive chain key in place. -/
theorem DHRatchet_recv (P : Prims) (state : Signalstate) (head : Mesghead) (w : World)
    (sk pk rk : Ptr) (out : Bytes)
    (hsk : state.sendpair.Prikey = some sk) (hpk : head.Pubkey = some pk)
    (hrk : state.rootkey = some rk)
    (h1 : P.scrypt rk.val (P.scalarMult sk.val pk.val) state.rparam.ScryptN = some out) :
    ∃ s1 e w1, DHRatchet P state head w = .ok ((s1, e), w1) ∧
      s1.recvchain = some ⟨w.heap + 2, mesgKeyOf out⟩ ∧
      s1.rpubkey = head.Pubkey ∧ s1.recvnum = 0 ∧
      s1.skipped = state.skipped ∧ s1.rparam = state.rparam ∧
      s1.Mesgkey = state.Mesgkey ∧
      s1.ringkey = state.ringkey ∧ s1.ringnum = state.ringnum ∧
      s1.ringstart = state.ringstart ∧ s1.ringend = state.ringend := by
  cases h2 : P.generateKey (w.draws) with
  | none =>
    simp [DHRatchet, NewDh, KdfRk, GenerateDh, KeyPair, hpk, hsk, hrk, h1, h2, mesgKeyOf]
  | some kp =>
    obtain ⟨pub, pri⟩ := kp
    cases h3 : P.scrypt (out.take KeySize) (P.scalarMult pri pk.val) state.rparam.ScryptN with
    | none =>
      simp [DHRatchet, NewDh, KdfRk, GenerateDh, KeyPair, hpk, hsk, hrk, h1, h2, h3,
        mesgKeyOf]
    | some out2 =>
      simp [DHRatchet, NewDh, KdfRk, GenerateDh, KeyPair, hpk, hsk, hrk, h1, h2, h3,
        mesgKeyOf]

/-- `RatchetDecrypt` when no skipped key is stored for the header and, after the
new-chain test, there is nothing to skip: one chain step, one ring insertion, and the
result of `Decrypt` under the new message key. -/
theorem RatchetDecrypt_next (P : Prims) (state : Signalstate) (head : Mesghead) (c : Bytes)
    (w : World) (s : Signalstate) (w1 : World) (ck : Ptr) (out : Bytes)
    (hnone : state.skipped.get ⟨head.Pubkey, head.Sendnum⟩ = none)
    (hnew : newChain P state head w = .ok (s, w1))
    (hle : head.Sendnum ≤ s.recvnum) (hrange : s.recvnum + MaxSkip < 2 ^ 64)
    (hchain : s.recvchain = some ck)
    (hkdf : P.scrypt ck.val constant s.rparam.ScryptN = some out)
    (s4 : Signalstate) (r : Slice × Option Err)
    (hadd : AddKeyRing
        { s with
            recvchain := some ⟨w1.heap, chainKeyOf out⟩,
            recvnum := s.recvnum + 1,
            Mesgkey := some ⟨w1.heap + 1, mesgKeyOf out⟩ }
        (some ⟨w1.heap + 1, mesgKeyOf out⟩) head.Sendnum = .ok s4)
    (hdec : Decrypt P c (some ⟨w1.heap + 1, mesgKeyOf out⟩) = .ok r) :
    RatchetDecrypt P state head c w = .ok ((s4, r), { w1 with heap := w1.heap + 2 }) := by
  have htry : TrySkippedMessageKeys P state head c = .ok (state, none, none) := by
    simp [TrySkippedMessageKeys, hnone]
  have hskip := SkipMessageKeys_nothing P s head.Sendnum w1 hle hrange
  have hck : KdfCk P s.recvchain s.rparam w1 =
      .ok ((some ⟨w1.heap, chainKeyOf out⟩, some ⟨w1.heap + 1, mesgKeyOf out⟩, none),
           { w1 with heap := w1.heap + 2 }) := by
    simp [KdfCk, hchain, hkdf, chainKeyOf, mesgKeyOf]
  have hw : wrapU64 (s.recvnum + 1) = s.recvnum + 1 :=
    wrapU64_of_lt (by simp only [MaxSkip] at hrange; omega)
  unfold RatchetDecrypt
  simp only [htry, hnew, hskip, hck, hw, hadd, hdec]

theorem RingHolds_congr (s t : Signalstate) (L : List (Nat × KeyPtr))
    (h1 : t.ringkey = s.ringkey) (h2 : t.ringnum = s.ringnum)
    (h3 : t.ringstart = s.ringstart) (h4 : t.ringend = s.ringend) (h : RingHolds s L) :
    RingHolds t L := by
  unfold RingHolds at *
  rw [h1, h2, h3, h4]
  exact h

/-- The new-chain test of `RatchetDecrypt` on Alice's next header: nothing happens when
the chains are in step, and the first header makes Bob's DH ratchet, which leaves his
receive chain key equal to Alice's send chain key. -/
theorem newChain_sync (P : Prims) (a b : Signalstate) (wb : World)
    (hs : InSync a b ∨ FreshSync P a b) :
    ∃ s w1 sc rc pk, newChain P b (Header a.sendpair a.nummesg a.sendnum) wb = .ok (s, w1) ∧
      a.sendchain = some sc ∧ s.recvchain = some rc ∧ rc.val = sc.val ∧
      a.sendpair.Pubkey = some pk ∧ s.rpubkey = some pk ∧
      s.recvnum = a.sendnum ∧ s.skipped = [] ∧ s.rparam.ScryptN = a.rparam.ScryptN ∧
      b.skipped = [] ∧
      s.ringkey = b.ringkey ∧ s.ringnum = b.ringnum ∧
      s.ringstart = b.ringstart ∧ s.ringend = b.ringend := by
  rcases hs with ⟨sc, rc, pk, h1, h2, h3, h4, h5, h6, h7, h8⟩ |
    ⟨sc, pk, sk, rk, out, h1, h2, h3, h4, h5, h6, h7, h8, h9, h10, h11, h12, h13⟩
  · refine ⟨b, wb, sc, rc, pk, ?_, h1, h2, h3, h4, h5, h6, h7, h8, h7, rfl, rfl, rfl, rfl⟩
    simp [newChain, Header, h4, h5, ptrEq]
  · have hskip : SkipMessageKeys P b (Header a.sendpair a.nummesg a.sendnum).Nummesg wb =
        .ok ((b, none), wb) :=
      SkipMessageKeys_nothing P b _ wb (by simp [Header, h4]) (by rw [h7]; decide)
    obtain ⟨s1, e, w1, hd, hrc, hrp, hrn, hsk, hpar, _, hk1, hk2, hk3, hk4⟩ :=
      DHRatchet_recv P b (Header a.sendpair a.nummesg a.sendnum) wb sk pk rk out h9
        (by simp [Header, h2]) h10 h11
    refine ⟨s1, w1, sc, ⟨wb.heap + 2, mesgKeyOf out⟩, pk, ?_, h1, hrc, h12, h2, ?_, ?_, ?_, ?_,
      h8, hk1, hk2, hk3, hk4⟩
    · simp only [newChain, Header, h2, h5, ptrEq]
      simp only [ratchetStep]
      simp only [Header, h2] at hskip hd
      simp [hskip, hd]
    · rw [hrp]; simp [Header, h2]
    · rw [hrn, h3]
    · rw [hsk, h8]
    · rw [hpar, h13]

theorem finalState_nil {β : Type} (s : Signalstate) :
    finalState s ([] : List (Signalstate × β)) = s := rfl

theorem finalState_cons {β : Type} (s : Signalstate) (x : Signalstate × β)
    (l : List (Signalstate × β)) : finalState s (x :: l) = finalState x.1 l := by
  cases l with
  | nil => simp [finalState]
  | cons y t =>
    cases h : (y :: t).getLast? with
    | none => simp at h
    | some z => simp [finalState, List.getLast?_cons_cons, h]

theorem ringFrame_fields {s s1 : Signalstate} (h : ringFrame s s1) :
    s1.rpubkey = s.rpubkey ∧ s1.recvnum = s.recvnum ∧ s1.recvchain = s.recvchain ∧
    s1.skipped = s.skipped ∧ s1.rparam = s.rparam ∧ s1.Mesgkey = s.Mesgkey := by
  unfold ringFrame at h
  refine ⟨?_, ?_, ?_, ?_, ?_, ?_⟩ <;> rw [h]

/-- One message in order: Alice's `RatchetEncrypt` returns a header and a ciphertext
with no error, Bob's `RatchetDecrypt` of them returns the plaintext with no error, and
the two chains are in step afterwards. -/
theorem inorder_step (P : Prims) (a b : Signalstate) (m : Bytes) (wa wb : World)
    (L : List (Nat × KeyPtr))
    (hs : InSync a b ∨ FreshSync P a b) (hP : Behaves P a.rparam.ScryptN)
    (hring : RingHolds b L) (hrange : a.sendnum + 1 + MaxSkip < 2 ^ 64) :
    ∃ a1 head c wa1 b1 wb1,
      RatchetEncrypt P a m wa = .ok ((a1, head, some c, none), wa1) ∧
      RatchetDecrypt P b head c wb = .ok ((b1, toSlice m, none), wb1) ∧
      InSync a1 b1 ∧ RingHolds b1 (L ++ [(head.Sendnum, b1.Mesgkey)]) ∧
      a1.sendnum = a.sendnum + 1 ∧ a1.rparam = a.rparam ∧
      a1.Mesgkey.map Ptr.val = b1.Mesgkey.map Ptr.val ∧
      b1.skipped = [] ∧ a1.skipped = a.skipped ∧
      a1.ringstart = a.ringstart ∧ a1.ringend = a.ringend ∧
      wa1 = { heap := wa.heap + 3, draws := wa.draws + 1 } := by
  obtain ⟨s, w1, sc, rc, pk, hnew, h1, h2, h3, h4, h5, h6, h7, h8, hb7, hk1, hk2, hk3, hk4⟩ :=
    newChain_sync P a b wb hs
  obtain ⟨out, hout⟩ := hP.1 sc.val constant
  obtain ⟨n, hn, hnlen⟩ := hP.2.2.2 wa.draws
  have henc := RatchetEncrypt_returns P a m wa sc out n h1 hout hn
  have hkdf : P.scrypt rc.val constant s.rparam.ScryptN = some out := by
    rw [h3, h8]; exact hout
  have hw : wrapU64 (a.sendnum + 1) = a.sendnum + 1 :=
    wrapU64_of_lt (by simp only [MaxSkip] at hrange; omega)
  obtain ⟨s4, hadd, hfr, hh⟩ := AddKeyRing_RingHolds
    { s with
        recvchain := some ⟨w1.heap, chainKeyOf out⟩,
        recvnum := s.recvnum + 1,
        Mesgkey := some ⟨w1.heap + 1, mesgKeyOf out⟩ } L
    (some ⟨w1.heap + 1, mesgKeyOf out⟩) a.sendnum
    (RingHolds_congr b _ L hk1 hk2 hk3 hk4 hring)
  have hdec := Decrypt_sealed P m n (mesgKeyOf out) ⟨w1.heap + 1, mesgKeyOf out⟩
    (hP.2.1 m n (mesgKeyOf out)) (hP.2.2.1 m n (mesgKeyOf out)) hnlen rfl
  have hrd := RatchetDecrypt_next P b (Header a.sendpair a.nummesg a.sendnum)
    (n ++ P.boxSeal m n (mesgKeyOf out)) wb s w1 rc out
    (by simp [hb7, SkipMap.get]) hnew (by simp [Header, h6])
    (by rw [h6]; omega) h2 hkdf s4 _ hadd hdec
  obtain ⟨f1, f2, f3, f4, f5, f6⟩ := ringFrame_fields hfr
  simp only at f1 f2 f3 f4 f5 f6
  refine ⟨_, _, _, _, s4, _, henc, hrd, ?_, ?_, hw, rfl, ?_, ?_, rfl, rfl, rfl, rfl⟩
  · refine ⟨⟨wa.heap, chainKeyOf out⟩, ⟨w1.heap, chainKeyOf out⟩, pk, rfl, f3, rfl, h4, ?_, ?_, ?_, ?_⟩
    · rw [f1, h5]
    · rw [f2, h6]; exact hw.symm
    · rw [f4, h7]
    · rw [f5]; exact h8
  · rw [f6]; exact hh
  · rw [f6]; rfl
  · rw [f4, h7]

/-- Messages in order, from chains in step: all calls return without error, Bob
recovers every plaintext, the chains stay in step, and Bob's ring has taken the message
keys, which are the ones Alice used. -/
theorem inorder_core (P : Prims) :
    ∀ (msgs : List Bytes) (a b : Signalstate) (wa wb : World) (L : List (Nat × KeyPtr)),
      (InSync a b ∨ FreshSync P a b) → Behaves P a.rparam.ScryptN → RingHolds b L →
      a.sendnum + msgs.length + MaxSkip < 2 ^ 64 →
      ∃ sent wa1 got wb1 Lnew,
        encryptAll P a wa msgs = .ok (sent, wa1) ∧
        decryptAll P b wb (sent.map wire) = .ok (got, wb1) ∧
        sent.map (fun x => x.2.2.2) = msgs.map (fun _ => none) ∧
        got.map (fun x => x.2) = msgs.map (fun m => (toSlice m, none)) ∧
        (InSync (finalState a sent) (finalState b got) ∨
          FreshSync P (finalState a sent) (finalState b got)) ∧
        (msgs ≠ [] → (finalState a sent).Mesgkey.map Ptr.val =
          (finalState b got).Mesgkey.map Ptr.val) ∧
        (finalState b got).skipped = [] ∧
        (finalState a sent).skipped = a.skipped ∧
        (finalState a sent).ringstart = a.ringstart ∧
        (finalState a sent).ringend = a.ringend ∧
        RingHolds (finalState b got) (L ++ Lnew) ∧
        Lnew.map (fun e => (e.1, e.2.map Ptr.val)) =
          sent.map (fun x => (x.2.1.Sendnum, x.1.Mesgkey.map Ptr.val)) := by
  intro msgs
  induction msgs with
  | nil =>
    intro a b wa wb L hs _ hring _
    refine ⟨[], wa, [], wb, [], rfl, rfl, rfl, rfl, hs, fun h => absurd rfl h, ?_, rfl, rfl, rfl,
      by simpa using hring, rfl⟩
    rcases hs with ⟨_, _, _, _, _, _, _, _, _, h, _⟩ | ⟨_, _, _, _, _, _, _, _, _, _, _, _, h, _⟩
    · exact h
    · exact h
  | cons m ms ih =>
    intro a b wa wb L hs hP hring hrange
    simp only [List.length_cons] at hrange
    obtain ⟨a1, head, c, wa1, b1, wb1, henc, hdec, hsync, hring1, hnum, hpar, hkey, hbs, has,
      hrs, hre, _⟩ := inorder_step P a b m wa wb L hs hP hring (by omega)
    obtain ⟨sent, wa2, got, wb2, Lnew, e1, e2, e3, e4, e5, e6, e7, e8, e9, e10, e11, e12⟩ :=
      ih a1 b1 wa1 wb1 (L ++ [(head.Sendnum, b1.Mesgkey)]) (Or.inl hsync)
        (by rw [hpar]; exact hP) hring1 (by rw [hnum]; omega)
    refine ⟨(a1, head, some c, none) :: sent, wa2, (b1, toSlice m, none) :: got, wb2,
      (head.Sendnum, b1.Mesgkey) :: Lnew, ?_, ?_, ?_, ?_, ?_, ?_, ?_, ?_, ?_, ?_, ?_, ?_⟩
    · simp [encryptAll, henc, e1]
    · simp [decryptAll, wire, hdec, e2]
    · simp [e3]
    · simp [e4]
    · simpa only [finalState_cons] using e5
    · intro _
      simp only [finalState_cons]
      by_cases hms : ms = []
      · subst hms
        simp only [encryptAll, Except.ok.injEq, Prod.mk.injEq] at e1
        simp only [← e1.1, List.map_nil, decryptAll, Except.ok.injEq, Prod.mk.injEq] at e2
        rw [← e1.1, ← e2.1]
        exact hkey
      · exact e6 hms
    · simpa only [finalState_cons] using e7
    · simp only [finalState_cons]; rw [e8, has]
    · simp only [finalState_cons]; rw [e9, hrs]
    · simp only [finalState_cons]; rw [e10, hre]
    · simp only [finalState_cons]
      simpa using e11
    · simp [e12, hkey]

/-- Messages exchanged one by one, from chains in step: every `RatchetDecrypt` returns
the plaintext Alice has just encrypted, with no error. -/
theorem exchange_core (P : Prims) :
    ∀ (msgs : List Bytes) (a b : Signalstate) (w : World) (L : List (Nat × KeyPtr)),
      (InSync a b ∨ FreshSync P a b) → Behaves P a.rparam.ScryptN → RingHolds b L →
      a.sendnum + msgs.length + MaxSkip < 2 ^ 64 →
      ∃ x, exchangeAll P a b w msgs = .ok (msgs.map (fun m => (toSlice m, none)), x) := by
  intro msgs
  induction msgs with
  | nil =>
    intro a b w L _ _ _ _
    exact ⟨_, rfl⟩
  | cons m ms ih =>
    intro a b w L hs hP hring hrange
    simp only [List.length_cons] at hrange
    obtain ⟨a1, head, c, wa1, b1, wb1, henc, hdec, hsync, hring1, hnum, hpar, _, _, _, _, _,
      hwa⟩ := inorder_step P a b m w { heap := w.heap + 3, draws := w.draws + 1 } L hs hP hring
        (by omega)
    obtain ⟨x, hx⟩ := ih a1 b1 wb1 (L ++ [(head.Sendnum, b1.Mesgkey)]) (Or.inl hsync)
      (by rw [hpar]; exact hP) hring1 (by rw [hnum]; omega)
    rw [← hwa] at hdec
    exact ⟨x, by simp [exchangeAll, henc, hdec, hx]⟩

/-- `RatchetInitSender` when the key generation and the root step succeed. -/
theorem RatchetInitSender_returns (P : Prims) (sa : Signalstate) (symkey bobPub : Ptr)
    (wa : World) (apub apri out : Bytes)
    (hgen : P.generateKey wa.draws = some (apub, apri))
    (hkdf : P.scrypt symkey.val (P.scalarMult apri bobPub.val) sa.rparam.ScryptN = some out) :
    RatchetInitSender P sa (some symkey) (some bobPub) wa =
      .ok (({ sa with
                sendpair := { Prikey := some ⟨wa.heap + 1, apri⟩, Pubkey := some ⟨wa.heap, apub⟩ },
                rpubkey := some bobPub,
                rootkey := some ⟨wa.heap + 3, out.take KeySize⟩,
                sendchain := some ⟨wa.heap + 4, mesgKeyOf out⟩,
                recvchain := none, sendnum := 0, recvnum := 0, nummesg := 0,
                skipped := [], Mesgkey := some symkey, ringstart := -1, ringend := -1 },
            none), { heap := wa.heap + 5, draws := wa.draws + 1 }) := by
  simp [RatchetInitSender, GenerateDh, KeyPair, NewDh, KdfRk, hgen, hkdf, mesgKeyOf]

theorem toSlice_getD (m : Bytes) : (toSlice m).getD [] = m := by
  unfold toSlice
  split_ifs with h
  · simp [h]
  · rfl

/-- The session set-up of the round-trip claims: Alice after `RatchetInitSender` and
Bob after `RatchetInitReceiver`, from the same `symkey`, Bob's key pair and the same
`ScryptN`, are ready for the first message. -/
theorem session_fresh (P : Prims) (sa sb : Signalstate) (symkey bobPub bobPri : Ptr)
    (apub apri : Bytes) (wa : World)
    (hN : sb.rparam.ScryptN = sa.rparam.ScryptN)
    (hP : Behaves P sa.rparam.ScryptN)
    (hgen : P.generateKey wa.draws = some (apub, apri))
    (hdh : P.scalarMult apri bobPub.val = P.scalarMult bobPri.val apub) :
    ∃ alice w1,
      RatchetInitSender P sa (some symkey) (some bobPub) wa = .ok ((alice, none), w1) ∧
      FreshSync P alice
        (RatchetInitReceiver sb (some symkey) { Prikey := some bobPri, Pubkey := some bobPub }) ∧
      alice.rparam = sa.rparam ∧ alice.sendnum = 0 ∧ alice.skipped = [] ∧
      alice.ringstart = -1 ∧ alice.ringend = -1 := by
  obtain ⟨out, hout⟩ := hP.1 symkey.val (P.scalarMult apri bobPub.val)
  refine ⟨_, _, RatchetInitSender_returns P sa symkey bobPub wa apub apri out hgen hout, ?_,
    rfl, rfl, rfl, rfl, rfl⟩
  refine ⟨⟨wa.heap + 4, mesgKeyOf out⟩, ⟨wa.heap, apub⟩, bobPri, symkey, out,
    rfl, rfl, rfl, rfl, rfl, rfl, rfl, rfl, rfl, rfl, ?_, rfl, ?_⟩
  · simp only [RatchetInitReceiver]
    rw [← hdh, hN]
    exact hout
  · simp only [RatchetInitReceiver]
    exact hN

/-- C1: Alice is initialised with `RatchetInitSender(symkey, bob.pub)`, Bob with
`RatchetInitReceiver(symkey, bob's key pair)`, both with the same `ScryptN`; the
primitives behave and the two Diffie-Hellman results agree.  Then `RatchetInitSender`
returns no error, every `RatchetEncrypt` of the plaintexts returns no error, and Bob's
`RatchetDecrypt` calls on the resulting pairs, in the same order, return exactly the
plaintexts, each with no error; the same holds when every message is decrypted right
after it was encrypted, as in `TestSignal`.  (The message count stays in the `uint64`
range.) -/
theorem inorder_roundtrip (P : Prims) (sa sb : Signalstate) (symkey bobPub bobPri : Ptr)
    (apub apri : Bytes) (wa wb : World) (msgs : List Bytes)
    (hN : sb.rparam.ScryptN = sa.rparam.ScryptN)
    (hP : Behaves P sa.rparam.ScryptN)
    (hgen : P.generateKey wa.draws = some (apub, apri))
    (hdh : P.scalarMult apri bobPub.val = P.scalarMult bobPri.val apub)
    (hlen : msgs.length + MaxSkip < 2 ^ 64) :
    ∃ alice w1 sent w2 got w3,
      RatchetInitSender P sa (some symkey) (some bobPub) wa = .ok ((alice, none), w1) ∧
      encryptAll P alice w1 msgs = .ok (sent, w2) ∧
      sent.map (fun x => x.2.2.2) = msgs.map (fun _ => none) ∧
      decryptAll P
        (RatchetInitReceiver sb (some symkey) { Prikey := some bobPri, Pubkey := some bobPub })
        wb (sent.map wire) = .ok (got, w3) ∧
      got.map (fun x => (x.2.1.getD [], x.2.2)) = msgs.map (fun m => (m, none)) ∧
      (exchangeAll P alice
        (RatchetInitReceiver sb (some symkey) { Prikey := some bobPri, Pubkey := some bobPub })
        w1 msgs).map (fun r => r.1.map (fun x => (x.1.getD [], x.2))) =
        .ok (msgs.map (fun m => (m, none))) := by
  obtain ⟨alice, w1, hinit, hfresh, hpar, hnum, _, _, _⟩ :=
    session_fresh P sa sb symkey bobPub bobPri apub apri wa hN hP hgen hdh
  obtain ⟨x, hx⟩ := exchange_core P msgs alice
      (RatchetInitReceiver sb (some symkey) { Prikey := some bobPri, Pubkey := some bobPub })
      w1 [] (Or.inr hfresh) (by rw [hpar]; exact hP)
      (RingHolds_init _ rfl rfl) (by rw [hnum]; omega)
  obtain ⟨sent, w2, got, w3, _, e1, e2, e3, e4, _⟩ :=
    inorder_core P msgs alice
      (RatchetInitReceiver sb (some symkey) { Prikey := some bobPri, Pubkey := some bobPub })
      w1 wb [] (Or.inr hfresh) (by rw [hpar]; exact hP)
      (RingHolds_init _ rfl rfl) (by rw [hnum]; omega)
  refine ⟨alice, w1, sent, w2, got, w3, hinit, e1, e3, e2, ?_, ?_⟩
  · have : got.map (fun x => (x.2.1.getD [], x.2.2)) =
        (got.map (fun x => x.2)).map (fun r => (r.1.getD [], r.2)) := by
      simp [List.map_map]
    rw [this, e4]
    simp [List.map_map, toSlice_getD]
  · rw [hx]
    simp [Except.map, List.map_map, toSlice_getD]

/-- The concrete primitives behave, at the work parameter of `MedSec`. -/
theorem toy_behaves : Behaves toy 32768 := by
  refine ⟨?_, ?_, ?_, ?_⟩
  · intro pw salt
    have h : toyScrypt pw salt 32768 =
        some (List.replicate 32 ((2 * (5 * pw.sum + 3 * salt.sum + 1)) % 251) ++
          List.replicate 32 ((2 * (5 * pw.sum + 3 * salt.sum + 1) + 1) % 251)) := by
      unfold toyScrypt
      rw [if_neg (by decide)]
    exact ⟨_, h⟩
  · intro m nonce key
    show toyOpen (toySeal m nonce key) nonce key = some m
    have hlen : (toyTag nonce key).length = 16 := by simp [toyTag]
    unfold toyOpen toySeal
    rw [← hlen, List.take_left' rfl, List.drop_left' rfl]
    simp
  · intro m nonce key
    show Overhead ≤ (toySeal m nonce key).length
    simp [toySeal, toyTag, Overhead]
  · intro i
    exact ⟨List.replicate 24 (i % 256), rfl, by simp [NonceSize]⟩

/-- C1 at a concrete input: the session of `TestSignal` on the concrete primitives,
with two plaintexts. -/
theorem inorder_roundtrip_witness :
    testConfigured.rparam.ScryptN = testConfigured.rparam.ScryptN ∧
    Behaves toy testConfigured.rparam.ScryptN ∧
    toy.generateKey testWorld.draws = some (List.replicate 32 36, List.replicate 32 2) ∧
    toy.scalarMult (List.replicate 32 2) (List.replicate 32 (6 ^ 9 % 251)) =
      toy.scalarMult (List.replicate 32 9) (List.replicate 32 36) ∧
    skipMsgs.length + MaxSkip < 2 ^ 64 ∧
    ∃ alice w1 sent w2 got w3,
      RatchetInitSender toy testConfigured testSymkey testBobPair.Pubkey testWorld =
        .ok ((alice, none), w1) ∧
      encryptAll toy alice w1 skipMsgs = .ok (sent, w2) ∧
      sent.map (fun x => x.2.2.2) = skipMsgs.map (fun _ => none) ∧
      decryptAll toy testBob testWorld (sent.map wire) = .ok (got, w3) ∧
      got.map (fun x => (x.2.1.getD [], x.2.2)) = skipMsgs.map (fun m => (m, none)) ∧
      (exchangeAll toy alice testBob w1 skipMsgs).map
          (fun r => r.1.map (fun x => (x.1.getD [], x.2))) =
        .ok (skipMsgs.map (fun m => (m, none))) :=
  ⟨rfl, toy_behaves, by decide, by decide, by decide,
   inorder_roundtrip toy testConfigured testConfigured ⟨0, List.replicate 32 7⟩
     ⟨1, List.replicate 32 (6 ^ 9 % 251)⟩ ⟨2, List.replicate 32 9⟩
     (List.replicate 32 36) (List.replicate 32 2) testWorld testWorld skipMsgs
     rfl toy_behaves (by decide) (by decide) (by decide)⟩

/-! ### Which message keys the states keep -/

/-- C5, as the code behaves: after the messages were encrypted by Alice and decrypted
by Bob in order, with no error, `Mesgkey` holds on both sides the key of the last
message, the skipped stores of both are empty and Alice's ring is empty; Bob's ring,
read from `ringstart` through `ringend`, holds the message numbers and message keys of
the last 16 messages (of all when there are fewer), earlier ones included. -/
theorem inorder_key_retention (P : Prims) (sa sb : Signalstate) (symkey bobPub bobPri : Ptr)
    (apub apri : Bytes) (wa wb : World) (msgs : List Bytes)
    (hN : sb.rparam.ScryptN = sa.rparam.ScryptN)
    (hP : Behaves P sa.rparam.ScryptN)
    (hgen : P.generateKey wa.draws = some (apub, apri))
    (hdh : P.scalarMult apri bobPub.val = P.scalarMult bobPri.val apub)
    (hlen : msgs.length + MaxSkip < 2 ^ 64) (hne : msgs ≠ []) :
    ∃ alice w1 sent w2 got w3,
      RatchetInitSender P sa (some symkey) (some bobPub) wa = .ok ((alice, none), w1) ∧
      encryptAll P alice w1 msgs = .ok (sent, w2) ∧
      decryptAll P
        (RatchetInitReceiver sb (some symkey) { Prikey := some bobPri, Pubkey := some bobPub })
        wb (sent.map wire) = .ok (got, w3) ∧
      got.map (fun x => x.2.2) = msgs.map (fun _ => none) ∧
      (finalState alice sent).Mesgkey.map Ptr.val =
        (finalState
          (RatchetInitReceiver sb (some symkey) { Prikey := some bobPri, Pubkey := some bobPub })
          got).Mesgkey.map Ptr.val ∧
      (finalState alice sent).skipped = [] ∧
      (finalState
        (RatchetInitReceiver sb (some symkey) { Prikey := some bobPri, Pubkey := some bobPub })
        got).skipped = [] ∧
      ringEntries (finalState alice sent) = [] ∧
      (ringEntries (finalState
        (RatchetInitReceiver sb (some symkey) { Prikey := some bobPri, Pubkey := some bobPub })
        got)).map (fun e => (e.1, e.2.map Ptr.val)) =
        (sent.map (fun x => (x.2.1.Sendnum, x.1.Mesgkey.map Ptr.val))).drop
          (msgs.length - 16) := by
  obtain ⟨alice, w1, hinit, hfresh, hpar, hnum, hskip, hrs, _⟩ :=
    session_fresh P sa sb symkey bobPub bobPri apub apri wa hN hP hgen hdh
  obtain ⟨sent, w2, got, w3, Lnew, e1, e2, e3, e4, _, e6, e7, e8, e9, _, e11, e12⟩ :=
    inorder_core P msgs alice
      (RatchetInitReceiver sb (some symkey) { Prikey := some bobPri, Pubkey := some bobPub })
      w1 wb [] (Or.inr hfresh) (by rw [hpar]; exact hP)
      (RingHolds_init _ rfl rfl) (by rw [hnum]; omega)
  have hlen1 : sent.length = msgs.length := by
    simpa using congrArg List.length e3
  have hlen2 : Lnew.length = msgs.length := by
    have := congrArg List.length e12
    simp only [List.length_map] at this
    omega
  refine ⟨alice, w1, sent, w2, got, w3, hinit, e1, e2, ?_, e6 hne, ?_, e7, ?_, ?_⟩
  · have : got.map (fun x => x.2.2) = (got.map (fun x => x.2)).map (fun r => r.2) := by
      simp [List.map_map]
    rw [this, e4, List.map_map]
    rfl
  · rw [e8, hskip]
  · unfold ringEntries
    rw [e9, hrs]
    simp
  · simp only [List.nil_append] at e11
    rw [ringEntries_RingHolds _ _ e11, List.map_drop, e12, hlen2]

/-- C5 at a concrete input: the two messages of `skipMsgs` in the test session. -/
theorem inorder_key_retention_witness :
    Behaves toy testConfigured.rparam.ScryptN ∧
    toy.generateKey testWorld.draws = some (List.replicate 32 36, List.replicate 32 2) ∧
    toy.scalarMult (List.replicate 32 2) (List.replicate 32 (6 ^ 9 % 251)) =
      toy.scalarMult (List.replicate 32 9) (List.replicate 32 36) ∧
    skipMsgs.length + MaxSkip < 2 ^ 64 ∧ skipMsgs ≠ [] ∧
    ∃ alice w1 sent w2 got w3,
      RatchetInitSender toy testConfigured testSymkey testBobPair.Pubkey testWorld =
        .ok ((alice, none), w1) ∧
      encryptAll toy alice w1 skipMsgs = .ok (sent, w2) ∧
      decryptAll toy testBob testWorld (sent.map wire) = .ok (got, w3) ∧
      got.map (fun x => x.2.2) = skipMsgs.map (fun _ => none) ∧
      (finalState alice sent).Mesgkey.map Ptr.val =
        (finalState testBob got).Mesgkey.map Ptr.val ∧
      (finalState alice sent).skipped = [] ∧
      (finalState testBob got).skipped = [] ∧
      ringEntries (finalState alice sent) = [] ∧
      (ringEntries (finalState testBob got)).map (fun e => (e.1, e.2.map Ptr.val)) =
        (sent.map (fun x => (x.2.1.Sendnum, x.1.Mesgkey.map Ptr.val))).drop
          (skipMsgs.length - 16) :=
  ⟨toy_behaves, by decide, by decide, by decide, by decide,
   inorder_key_retention toy testConfigured testConfigured ⟨0, List.replicate 32 7⟩
     ⟨1, List.replicate 32 (6 ^ 9 % 251)⟩ ⟨2, List.replicate 32 9⟩
     (List.replicate 32 36) (List.replicate 32 2) testWorld testWorld skipMsgs
     rfl toy_behaves (by decide) (by decide) (by decide) (by decide)⟩

/-- C5 as stated fails: Alice encrypts the two messages of `skipMsgs` and Bob decrypts
them in order, with no error.  After the encrypt and decrypt of the second message,
Bob's ring (live range: slots 0 to 1) holds in slot 0 the message key of the first
message, the very key Alice had in `Mesgkey` after encrypting it, and that key differs
from the key of the second message. -/
theorem ring_keeps_earlier_message_key :
    encryptAll toy testAlice.1 testAlice.2 skipMsgs = .ok (testSend skipMsgs) ∧
    (testReceive skipMsgs [0, 1]).map (fun r => r.1.map (fun x => x.2)) =
      .ok [(some [1, 2, 3], none), (some [4, 5], none)] ∧
    (testReceive skipMsgs [0, 1]).map (fun r => r.1.getLast?.map (fun x => x.1)) =
      .ok (some (testBobAfter skipMsgs [0, 1])) ∧
    (testBobAfter skipMsgs [0, 1]).ringstart = 0 ∧
    (testBobAfter skipMsgs [0, 1]).ringend = 1 ∧
    ((testBobAfter skipMsgs [0, 1]).ringkey 0).map Ptr.val =
      (((testSend skipMsgs).1.map (fun x => x.1.Mesgkey)).headD none).map Ptr.val ∧
    ((testBobAfter skipMsgs [0, 1]).ringkey 0).isSome = true ∧
    (testBobAfter skipMsgs [0, 1]).ringnum 0 = 0 ∧
    ((testSend skipMsgs).1.map (fun x => x.1.Mesgkey.map Ptr.val)).Nodup := by
  decide!

/-! ### Out-of-order delivery of an empty plaintext -/

/-- C2 (the code at the failing input): Alice encrypts the four plaintexts of
`emptyFirstMsgs`, the first of them empty, each with no error, and Bob is given the
packets in the order 1, 0, 2, 3 (one message skipped, once).  The second call finds
the skipped key of message 0 and decrypts with it, but the empty plaintext is a nil
slice, so `RatchetDecrypt` goes on as if no key had been found: it derives the key of
the next chain step and returns the secretbox open error.  The chain is then one step
ahead of the message numbers, and the later messages 2 and 3 fail as well.  With a
first plaintext that is not empty the same delivery order returns all four. -/
theorem RatchetDecrypt_empty_plaintext_out_of_order :
    (encryptAll toy testAlice.1 testAlice.2 emptyFirstMsgs).map
        (fun r => r.1.map (fun x => x.2.2.2)) = .ok [none, none, none, none] ∧
    (testReceive emptyFirstMsgs [1, 0, 2, 3]).map (fun r => r.1.map (fun x => x.2)) =
      .ok [(some [120], none),
           (none, some Err.openSecretbox),
           (none, some Err.openSecretbox),
           (none, some Err.openSecretbox)] ∧
    (testReceive emptyFirstMsgs [1, 0, 2, 3]).map (fun r => r.1.map (fun x => x.1.recvnum)) =
      .ok [2, 3, 4, 5] ∧
    (testReceive [[119], [120], [121], [122]] [1, 0, 2, 3]).map
        (fun r => r.1.map (fun x => x.2)) =
      .ok [(some [120], none), (some [119], none), (some [121], none), (some [122], none)] ∧
    (testReceive [[119], [120], [121], [122]] [1, 0, 2, 3]).map
        (fun r => r.1.map (fun x => x.1.recvnum)) =
      .ok [2, 2, 3, 4] := by
  decide!

/-! ### Level -/

/-- C18: `Level` returns the codes 0 to 4 with no error for "verylow", "low", "medium",
"high", "veryhigh", and an error for every other string (the empty string and names
in another letter case among them); every code `Level` returns without error is
accepted by `SetRatchet`. -/
theorem Level_mapping :
    Level "verylow" = (0, none) ∧ Level "low" = (1, none) ∧ Level "medium" = (2, none) ∧
    Level "high" = (3, none) ∧ Level "veryhigh" = (4, none) ∧
    (∀ s : String, s ≠ "verylow" → s ≠ "low" → s ≠ "medium" → s ≠ "high" → s ≠ "veryhigh" →
      (Level s).2 = some Err.invalidLevelName) ∧
    (Level "").2 = some Err.invalidLevelName ∧
    (Level "Low").2 = some Err.invalidLevelName ∧
    (Level "VERYHIGH").2 = some Err.invalidLevelName ∧
    ∀ (s : String) (code : Int), Level s = (code, none) →
      ∀ (state : Signalstate) (count period now : Int),
        (SetRatchet state count period code now).2 = none := by
  have hother : ∀ s : String, s ≠ "verylow" → s ≠ "low" → s ≠ "medium" → s ≠ "high" →
      s ≠ "veryhigh" → (Level s).2 = some Err.invalidLevelName := by
    intro s h1 h2 h3 h4 h5
    simp [Level, h1, h2, h3, h4, h5]
  refine ⟨by decide, by decide, by decide, by decide, by decide, hother, ?_, ?_, ?_, ?_⟩
  · exact hother "" (by decide) (by decide) (by decide) (by decide) (by decide)
  · exact hother "Low" (by decide) (by decide) (by decide) (by decide) (by decide)
  · exact hother "VERYHIGH" (by decide) (by decide) (by decide) (by decide) (by decide)
  · intro s code h state count period now
    unfold Level at h
    split_ifs at h <;>
      simp only [Prod.mk.injEq, reduceCtorEq, and_false, and_true] at h <;>
      subst h <;> rfl

/-- C18 at a concrete input: "Medium" is not one of the five names, and the code of
"medium" is accepted by `SetRatchet`. -/
theorem Level_mapping_witness :
    ("Medium" ≠ "verylow" ∧ "Medium" ≠ "low" ∧ "Medium" ≠ "medium" ∧ "Medium" ≠ "high" ∧
      "Medium" ≠ "veryhigh") ∧
    (Level "Medium").2 = some Err.invalidLevelName ∧
    Level "medium" = (2, none) ∧
    (SetRatchet zeroState 1 0 2 0).2 = none :=
  ⟨⟨by decide, by decide, by decide, by decide, by decide⟩,
   Level_mapping.2.2.2.2.2.1 "Medium" (by decide) (by decide) (by decide) (by decide)
     (by decide),
   Level_mapping.2.2.1,
   Level_mapping.2.2.2.2.2.2.2.2.2 "medium" 2 Level_mapping.2.2.1 zeroState 1 0 0⟩

/-! ### The work parameter of the levels -/

/-- C20 (the code at the failing input): the `ScryptN` values of the levels 0 to 3 are
the powers of two 2^13 to 2^16, but the one `SetRatchet` installs for `VHighSec` is
104857, which is no power of two; with it the key derivation is refused and
`RatchetInitSender` returns the KDF error. -/
theorem SetRatchet_VHighSec_not_power_of_two :
    (SetRatchet zeroState 1 0 VLowSec 0).1.rparam.ScryptN = 2 ^ 13 ∧
    (SetRatchet zeroState 1 0 LowSec 0).1.rparam.ScryptN = 2 ^ 14 ∧
    (SetRatchet zeroState 1 0 MedSec 0).1.rparam.ScryptN = 2 ^ 15 ∧
    (SetRatchet zeroState 1 0 HighSec 0).1.rparam.ScryptN = 2 ^ 16 ∧
    (SetRatchet zeroState 1 0 VHighSec 0).2 = none ∧
    (SetRatchet zeroState 1 0 VHighSec 0).1.rparam.ScryptN = 104857 ∧
    (¬ ∃ k : Nat, (SetRatchet zeroState 1 0 VHighSec 0).1.rparam.ScryptN = 2 ^ k) ∧
    (RatchetInitSender toy (SetRatchet zeroState 1 0 VHighSec 0).1 testSymkey
        testBobPair.Pubkey testWorld).map (fun r => r.1.2) = .ok (some Err.kdfFailure) := by
  refine ⟨by decide, by decide, by decide, by decide, by decide, by decide, ?_, by decide!⟩
  rintro ⟨k, hk⟩
  have h : (104857 : Int) = 2 ^ k := hk
  cases k with
  | zero => norm_num at h
  | succ n =>
    have h2 : (2 : Int) ^ (n + 1) = 2 * 2 ^ n := by ring
    omega

/-! ### Encrypt and Decrypt -/

/-- C17: for every message, key and nonce the random reader returns, `Encrypt` returns
the nonce followed by the sealed box, of length `24 + len(m) + 16`, and `Decrypt` of it
under the same key returns the message with no error (the box opens to what was
sealed, and sealing adds the overhead). -/
theorem Encrypt_Decrypt_roundtrip (P : Prims) (m : Bytes) (k : Ptr) (w : World) (n : Bytes)
    (hn : P.readNonce w.draws = some n) (hnl : n.length = NonceSize)
    (hlen : (P.boxSeal m n k.val).length = m.length + Overhead)
    (hopen : P.boxOpen (P.boxSeal m n k.val) n k.val = some m) :
    ∃ c w1, Encrypt P m (some k) w = .ok ((some c, none), w1) ∧
      c = n ++ P.boxSeal m n k.val ∧ c.take 24 = n ∧ c.length = 24 + m.length + 16 ∧
      ∃ r, Decrypt P c (some k) = .ok (r, none) ∧ r.getD [] = m := by
  refine ⟨n ++ P.boxSeal m n k.val, { heap := w.heap + 1, draws := w.draws + 1 }, ?_, rfl,
    ?_, ?_, toSlice m, ?_, toSlice_getD m⟩
  · simp [Encrypt, Nonce, hn]
  · have h24 : n.length = 24 := hnl
    rw [← h24]
    exact List.take_left' rfl
  · simp only [List.length_append, hlen, hnl, NonceSize, Overhead]
    omega
  · exact Decrypt_sealed P m n k.val k hopen (by rw [hlen]; omega) hnl rfl

/-- C17 at a concrete input: a message of three bytes on the concrete primitives. -/
theorem Encrypt_Decrypt_roundtrip_witness :
    toy.readNonce testWorld.draws = some (List.replicate 24 0) ∧
    (List.replicate 24 0).length = NonceSize ∧
    (toy.boxSeal [83, 101, 99] (List.replicate 24 0) (List.replicate 32 7)).length =
      [83, 101, 99].length + Overhead ∧
    toy.boxOpen (toy.boxSeal [83, 101, 99] (List.replicate 24 0) (List.replicate 32 7))
      (List.replicate 24 0) (List.replicate 32 7) = some [83, 101, 99] ∧
    ∃ c w1, Encrypt toy [83, 101, 99] (some ⟨0, List.replicate 32 7⟩) testWorld =
        .ok ((some c, none), w1) ∧
      c = List.replicate 24 0 ++
        toy.boxSeal [83, 101, 99] (List.replicate 24 0) (List.replicate 32 7) ∧
      c.take 24 = List.replicate 24 0 ∧ c.length = 24 + [83, 101, 99].length + 16 ∧
      ∃ r, Decrypt toy c (some ⟨0, List.replicate 32 7⟩) = .ok (r, none) ∧
        r.getD [] = [83, 101, 99] :=
  ⟨by decide, by decide, by decide, by decide,
   Encrypt_Decrypt_roundtrip toy [83, 101, 99] ⟨0, List.replicate 32 7⟩ testWorld
     (List.replicate 24 0) (by decide) (by decide) (by decide) (by decide)⟩

/-! ### DHRatchet when every step succeeds -/

/-- C11: when the two Diffie-Hellman computations, the two `KdfRk` calls and the key
generation of `DHRatchet` succeed, `DHRatchet` returns no error and leaves
`nummesg` = the old `sendnum`, `sendnum = 0`, `recvnum = 0`, `rpubkey = head.Pubkey`,
`recvchain` from the first `KdfRk` (on the old root key and the old key pair),
`sendpair` = the generated pair, and `rootkey`, `sendchain` from the second `KdfRk` (on
the root key of the first and the new key pair); the skipped store, the ring, `Mesgkey`
and `rparam` are as before. -/
theorem DHRatchet_postcondition (P : Prims) (state : Signalstate) (head : Mesghead)
    (w w1 w2 w3 w4 w5 : World) (dh1 dh2 rk1 rc rk2 sc : KeyPtr) (pair : Keypair)
    (h1 : NewDh P state.sendpair head.Pubkey w = .ok (dh1, w1))
    (h2 : KdfRk P state.rootkey dh1 state.rparam w1 = .ok ((rk1, rc, none), w2))
    (h3 : GenerateDh P w2 = ((pair, none), w3))
    (h4 : NewDh P pair head.Pubkey w3 = .ok (dh2, w4))
    (h5 : KdfRk P rk1 dh2 state.rparam w4 = .ok ((rk2, sc, none), w5)) :
    DHRatchet P state head w =
      .ok (({ state with
                nummesg := state.sendnum, sendnum := 0, recvnum := 0,
                rpubkey := head.Pubkey, rootkey := rk2, recvchain := rc,
                sendpair := pair, sendchain := sc },
            none), w5) := by
  unfold DHRatchet
  simp only [h1, h2, h3, h4, h5]

/-- C11 at a concrete input: Bob's `DHRatchet` on Alice's first header in the test
session. -/
theorem DHRatchet_postcondition_witness :
    NewDh toy testBob.sendpair testHead0.Pubkey testWorld =
      .ok (some ⟨3, List.replicate 32 108⟩, { heap := 4, draws := 0 }) ∧
    KdfRk toy testBob.rootkey (some ⟨3, List.replicate 32 108⟩) testBob.rparam
        { heap := 4, draws := 0 } =
      .ok ((some ⟨4, List.replicate 32 137⟩, some ⟨5, List.replicate 32 138⟩, none),
           { heap := 6, draws := 0 }) ∧
    GenerateDh toy { heap := 6, draws := 0 } =
      (({ Prikey := some ⟨7, List.replicate 32 2⟩, Pubkey := some ⟨6, List.replicate 32 36⟩ },
        none), { heap := 8, draws := 1 }) ∧
    NewDh toy { Prikey := some ⟨7, List.replicate 32 2⟩, Pubkey := some ⟨6, List.replicate 32 36⟩ }
        testHead0.Pubkey { heap := 8, draws := 1 } =
      .ok (some ⟨8, List.replicate 32 41⟩, { heap := 9, draws := 1 }) ∧
    KdfRk toy (some ⟨4, List.replicate 32 137⟩) (some ⟨8, List.replicate 32 41⟩)
        testBob.rparam { heap := 9, draws := 1 } =
      .ok ((some ⟨9, List.replicate 32 8⟩, some ⟨10, List.replicate 32 9⟩, none),
           { heap := 11, draws := 1 }) ∧
    DHRatchet toy testBob testHead0 testWorld =
      .ok (({ testBob with
                nummesg := testBob.sendnum, sendnum := 0, recvnum := 0,
                rpubkey := testHead0.Pubkey,
                rootkey := some ⟨9, List.replicate 32 8⟩,
                recvchain := some ⟨5, List.replicate 32 138⟩,
                sendpair := { Prikey := some ⟨7, List.replicate 32 2⟩,
                              Pubkey := some ⟨6, List.replicate 32 36⟩ },
                sendchain := some ⟨10, List.replicate 32 9⟩ },
            none), { heap := 11, draws := 1 }) :=
  ⟨by decide!, by decide!, by decide!, by decide!, by decide!,
   DHRatchet_postcondition toy testBob testHead0 testWorld
     { heap := 4, draws := 0 } { heap := 6, draws := 0 } { heap := 8, draws := 1 }
     { heap := 9, draws := 1 } { heap := 11, draws := 1 }
     (some ⟨3, List.replicate 32 108⟩) (some ⟨8, List.replicate 32 41⟩)
     (some ⟨4, List.replicate 32 137⟩) (some ⟨5, List.replicate 32 138⟩)
     (some ⟨9, List.replicate 32 8⟩) (some ⟨10, List.replicate 32 9⟩)
     { Prikey := some ⟨7, List.replicate 32 2⟩, Pubkey := some ⟨6, List.replicate 32 36⟩ }
     (by decide!) (by decide!) (by decide!) (by decide!) (by decide!)⟩

/-! ### RatchetEncrypt when the chain step and the random reader succeed -/

/-- Consecutive calls of `RatchetEncrypt` on a non-nil chain number their headers
`s`, `s + 1`, ... under the same public key and `Nummesg`. -/
theorem encryptAll_headers (P : Prims) :
    ∀ (msgs : List Bytes) (a : Signalstate) (w : World),
      a.sendchain.isSome = true →
      (∀ pw salt, ∃ out, P.scrypt pw salt a.rparam.ScryptN = some out) →
      (∀ i, ∃ n, P.readNonce i = some n) →
      a.sendnum + msgs.length < 2 ^ 64 →
      ∃ sent w1, encryptAll P a w msgs = .ok (sent, w1) ∧
        sent.map (fun x => x.2.1) =
          (List.range' a.sendnum msgs.length).map
            (fun i => Header a.sendpair a.nummesg i) := by
  intro msgs
  induction msgs with
  | nil => intro a w _ _ _ _; exact ⟨[], w, rfl, rfl⟩
  | cons m ms ih =>
    intro a w hc hK hR hrange
    simp only [List.length_cons] at hrange
    obtain ⟨sc, hsc⟩ := Option.isSome_iff_exists.mp hc
    obtain ⟨out, hout⟩ := hK sc.val constant
    obtain ⟨n, hn⟩ := hR w.draws
    have henc := RatchetEncrypt_returns P a m w sc out n hsc hout hn
    have hw : wrapU64 (a.sendnum + 1) = a.sendnum + 1 := wrapU64_of_lt (by omega)
    obtain ⟨sent, w1, hrest, hheads⟩ := ih
      { a with
          sendchain := some ⟨w.heap, chainKeyOf out⟩,
          sendnum := wrapU64 (a.sendnum + 1),
          Mesgkey := some ⟨w.heap + 1, mesgKeyOf out⟩ }
      { heap := w.heap + 3, draws := w.draws + 1 } rfl hK hR
      (by simp only [hw]; omega)
    refine ⟨(({ a with
          sendchain := some ⟨w.heap, chainKeyOf out⟩,
          sendnum := wrapU64 (a.sendnum + 1),
          Mesgkey := some ⟨w.heap + 1, mesgKeyOf out⟩ } : Signalstate),
        Header a.sendpair a.nummesg a.sendnum,
        some (n ++ P.boxSeal m n (mesgKeyOf out)), none) :: sent, w1, ?_, ?_⟩
    · simp only [encryptAll, henc, hrest]
    · simp only [hw] at hheads
      simp [hheads, List.range'_succ]

/-- C12: on a state with a non-nil `sendchain`, when the chain step and the random
reader succeed, `RatchetEncrypt` returns no error, the header `(sendpair.Pubkey,
nummesg, s)` with `s` the `sendnum` before the call, and the nonce followed by the box
sealed under the new message key; it leaves `sendnum = s + 1` (in `uint64`),
`sendchain` = the first half and `Mesgkey` = the second half of `KdfCk(sendchain)`, and
every other field as it was.  Hence consecutive calls emit `Sendnum` values
`s, s + 1, ..., s + k - 1`. -/
theorem RatchetEncrypt_postcondition (P : Prims) (a : Signalstate) (sc : Ptr)
    (hchain : a.sendchain = some sc)
    (hK : ∀ pw salt, ∃ out, P.scrypt pw salt a.rparam.ScryptN = some out)
    (hR : ∀ i, ∃ n, P.readNonce i = some n) :
    (∀ (m : Bytes) (w : World), ∃ ck mk n w0 a1,
      KdfCk P a.sendchain a.rparam w = .ok ((some ck, some mk, none), w0) ∧
      P.readNonce w.draws = some n ∧
      RatchetEncrypt P a m w =
        .ok ((a1, { Pubkey := a.sendpair.Pubkey, Nummesg := a.nummesg, Sendnum := a.sendnum },
              some (n ++ P.boxSeal m n mk.val), none),
             { heap := w.heap + 3, draws := w.draws + 1 }) ∧
      a1 = { a with sendchain := some ck, sendnum := wrapU64 (a.sendnum + 1),
                    Mesgkey := some mk } ∧
      (a.sendnum + 1 < 2 ^ 64 → a1.sendnum = a.sendnum + 1)) ∧
    (∀ (msgs : List Bytes) (w : World), a.sendnum + msgs.length < 2 ^ 64 →
      ∃ sent w1, encryptAll P a w msgs = .ok (sent, w1) ∧
        sent.map (fun x => x.2.1.Sendnum) = List.range' a.sendnum msgs.length ∧
        (∀ x ∈ sent, x.2.1.Pubkey = a.sendpair.Pubkey ∧ x.2.1.Nummesg = a.nummesg)) := by
  refine ⟨?_, ?_⟩
  · intro m w
    obtain ⟨out, hout⟩ := hK sc.val constant
    obtain ⟨n, hn⟩ := hR w.draws
    refine ⟨⟨w.heap, chainKeyOf out⟩, ⟨w.heap + 1, mesgKeyOf out⟩, n,
      { w with heap := w.heap + 2 }, _, ?_, hn,
      RatchetEncrypt_returns P a m w sc out n hchain hout hn, rfl, ?_⟩
    · simp [KdfCk, hchain, hout, chainKeyOf, mesgKeyOf]
    · intro h
      exact wrapU64_of_lt h
  · intro msgs w hrange
    obtain ⟨sent, w1, hrun, hheads⟩ :=
      encryptAll_headers P msgs a w (by rw [hchain]; rfl) hK hR hrange
    refine ⟨sent, w1, hrun, ?_, ?_⟩
    · have := congrArg (List.map (fun h : Mesghead => h.Sendnum)) hheads
      simpa [List.map_map, Header, Function.comp_def] using this
    · intro x hx
      have hmem : x.2.1 ∈ sent.map (fun x => x.2.1) := List.mem_map_of_mem _ hx
      rw [hheads] at hmem
      obtain ⟨i, _, hi⟩ := List.mem_map.mp hmem
      rw [← hi]
      exact ⟨rfl, rfl⟩

/-- The concrete key derivation succeeds in Alice's test state. -/
theorem toy_kdf_testAlice :
    ∀ pw salt, ∃ out, toy.scrypt pw salt testAlice.1.rparam.ScryptN = some out := by
  have h : testAlice.1.rparam.ScryptN = 32768 := by decide!
  rw [h]
  exact toy_behaves.1

/-- C12 at a concrete input: Alice's two calls on `skipMsgs` in the test session. -/
theorem RatchetEncrypt_postcondition_witness :
    testAlice.1.sendchain = some ⟨7, List.replicate 32 138⟩ ∧
    (∀ pw salt, ∃ out, toy.scrypt pw salt testAlice.1.rparam.ScryptN = some out) ∧
    (∀ i, ∃ n, toy.readNonce i = some n) ∧
    testAlice.1.sendnum + skipMsgs.length < 2 ^ 64 ∧
    ∃ sent w1, encryptAll toy testAlice.1 testAlice.2 skipMsgs = .ok (sent, w1) ∧
      sent.map (fun x => x.2.1.Sendnum) = List.range' testAlice.1.sendnum skipMsgs.length ∧
      (∀ x ∈ sent, x.2.1.Pubkey = testAlice.1.sendpair.Pubkey ∧
        x.2.1.Nummesg = testAlice.1.nummesg) :=
  ⟨by decide!, toy_kdf_testAlice, fun i => ⟨_, rfl⟩, by decide!,
   (RatchetEncrypt_postcondition toy testAlice.1 ⟨7, List.replicate 32 138⟩ (by decide!)
      toy_kdf_testAlice (fun i => ⟨_, rfl⟩)).2 skipMsgs testAlice.2 (by decide!)⟩

/-! ### The skipped store as a map -/

theorem ptrEq_refl (p : KeyPtr) : ptrEq p p = true := by
  cases p <;> simp [ptrEq]

theorem ptrEq_symm {p q : KeyPtr} (h : ptrEq p q = true) : ptrEq q p = true := by
  cases p <;> cases q <;> simp_all [ptrEq]

theorem ptrEq_trans {p q r : KeyPtr} (h1 : ptrEq p q = true) (h2 : ptrEq q r = true) :
    ptrEq p r = true := by
  cases p <;> cases q <;> cases r <;> simp_all [ptrEq]

theorem same_refl (k : skipkey) : k.same k = true := by
  simp [skipkey.same, ptrEq_refl]

theorem same_symm {a b : skipkey} (h : a.same b = true) : b.same a = true := by
  simp only [skipkey.same, Bool.and_eq_true, beq_iff_eq] at *
  exact ⟨ptrEq_symm h.1, h.2.symm⟩

theorem same_trans {a b c : skipkey} (h1 : a.same b = true) (h2 : b.same c = true) :
    a.same c = true := by
  simp only [skipkey.same, Bool.and_eq_true, beq_iff_eq] at *
  exact ⟨ptrEq_trans h1.1 h2.1, h1.2.trans h2.2⟩

/-- After `delete(m, k)` nothing is found under `k`. -/
theorem SkipMap.get_delete_same (m : SkipMap) (k k1 : skipkey) (h : k.same k1 = true) :
    (SkipMap.delete m k).get k1 = none := by
  induction m with
  | nil => rfl
  | cons e rest ih =>
    unfold SkipMap.delete SkipMap.get at *
    by_cases hek : e.1.same k = true
    · simp only [List.filter_cons, hek, Bool.not_true, Bool.false_eq_true, if_false]
      exact ih
    · have hek1 : e.1.same k1 = false := by
        cases hc : e.1.same k1 with
        | false => rfl
        | true => exact absurd (same_trans hc (same_symm h)) hek
      simp only [Bool.not_eq_true] at hek
      simp only [List.filter_cons, hek, Bool.not_false, if_true, List.find?_cons, hek1]
      exact ih

/-- `delete(m, k)` keeps what is stored under every other key. -/
theorem SkipMap.get_delete_other (m : SkipMap) (k k1 : skipkey) (h : k.same k1 = false) :
    (SkipMap.delete m k).get k1 = m.get k1 := by
  induction m with
  | nil => rfl
  | cons e rest ih =>
    unfold SkipMap.delete SkipMap.get at *
    by_cases hek : e.1.same k = true
    · have hek1 : e.1.same k1 = false := by
        cases hc : e.1.same k1 with
        | false => rfl
        | true =>
          have := same_trans (same_symm hek) hc
          rw [h] at this
          exact absurd this (by simp)
      simp only [List.filter_cons, hek, Bool.not_true, Bool.false_eq_true, if_false,
        List.find?_cons, hek1]
      exact ih
    · simp only [Bool.not_eq_true] at hek
      simp only [List.filter_cons, hek, Bool.not_false, if_true, List.find?_cons]
      cases hc : e.1.same k1 with
      | false => exact ih
      | true => rfl

/-- What is found after `m[k] = v`. -/
theorem SkipMap.get_set (m : SkipMap) (k k1 : skipkey) (v : KeyPtr) :
    (SkipMap.set m k v).get k1 = if k.same k1 = true then some v else m.get k1 := by
  by_cases h : k.same k1 = true
  · simp [SkipMap.set, SkipMap.get, h]
  · simp only [Bool.not_eq_true] at h
    have := SkipMap.get_delete_other m k k1 h
    simp only [SkipMap.set, SkipMap.get, List.find?_cons, h] at *
    simpa using this

/-! ### TrySkippedMessageKeys -/

/-- C14: when the skipped store holds `key` under (header public key, header
`Sendnum`), `TrySkippedMessageKeys` returns what `Decrypt(ciphertext, key)` returns,
whether an error or not, and leaves the state with that entry removed, every other
entry kept, `Mesgkey = key` and all other fields as they were; when there is no such
entry it returns (nil, nil) and the state as it was. -/
theorem TrySkippedMessageKeys_take (P : Prims) (state : Signalstate) (head : Mesghead)
    (ciphertext : Bytes) :
    (∀ key, state.skipped.get ⟨head.Pubkey, head.Sendnum⟩ = some key →
      TrySkippedMessageKeys P state head ciphertext =
        (Decrypt P ciphertext key).map (fun r =>
          ({ state with
              skipped := state.skipped.delete ⟨head.Pubkey, head.Sendnum⟩,
              Mesgkey := key }, r)) ∧
      (∀ k1 : skipkey, (⟨head.Pubkey, head.Sendnum⟩ : skipkey).same k1 = true →
        (state.skipped.delete ⟨head.Pubkey, head.Sendnum⟩).get k1 = none) ∧
      (∀ k1 : skipkey, (⟨head.Pubkey, head.Sendnum⟩ : skipkey).same k1 = false →
        (state.skipped.delete ⟨head.Pubkey, head.Sendnum⟩).get k1 = state.skipped.get k1)) ∧
    (state.skipped.get ⟨head.Pubkey, head.Sendnum⟩ = none →
      TrySkippedMessageKeys P state head ciphertext = .ok (state, none, none)) := by
  refine ⟨?_, ?_⟩
  · intro key hkey
    refine ⟨?_, fun k1 h => SkipMap.get_delete_same _ _ k1 h,
      fun k1 h => SkipMap.get_delete_other _ _ k1 h⟩
    unfold TrySkippedMessageKeys
    simp only [hkey]
    cases hd : Decrypt P ciphertext key with
    | error p => rfl
    | ok r => rfl
  · intro hnone
    simp [TrySkippedMessageKeys, hnone]

/-- C14 at a concrete input: Bob has received the second message of `skipMsgs`; the
call for the first one takes its key out of the store and decrypts. -/
theorem TrySkippedMessageKeys_take_witness :
    (testBobAfter skipMsgs [1]).skipped.get ⟨replayPacket.1.Pubkey, replayPacket.1.Sendnum⟩ =
      some skippedKey0 ∧
    skippedKey0.isSome = true ∧
    TrySkippedMessageKeys toy (testBobAfter skipMsgs [1]) replayPacket.1 replayPacket.2 =
      (Decrypt toy replayPacket.2 skippedKey0).map (fun r =>
        ({ testBobAfter skipMsgs [1] with
            skipped := (testBobAfter skipMsgs [1]).skipped.delete
              ⟨replayPacket.1.Pubkey, replayPacket.1.Sendnum⟩,
            Mesgkey := skippedKey0 }, r)) ∧
    Decrypt toy replayPacket.2 skippedKey0 = .ok (some [1, 2, 3], none) :=
  ⟨by decide!, by decide!,
   ((TrySkippedMessageKeys_take toy (testBobAfter skipMsgs [1]) replayPacket.1
      replayPacket.2).1 skippedKey0 (by decide!)).1,
   by decide!⟩

/-! ### Ratchet -/

theorem wrapInt_of_range {x : Int} (h0 : 0 ≤ x) (h1 : x < 2 ^ 63) : wrapInt x = x := by
  unfold wrapInt
  norm_num at h1 ⊢
  omega

/-- One call of `Ratchet` with no period, below the count: `Last` goes up by one and
the answer is false. -/
theorem Ratchet_below_count (hours : Int → Int → Int) (state : Signalstate) (now : Int)
    (hP : state.rparam.Period = 0) (h0 : 0 ≤ state.rparam.Last)
    (hlt : state.rparam.Last < state.rparam.Count) (hmax : state.rparam.Count < 2 ^ 63) :
    Ratchet hours state now =
      ({ state with rparam := { state.rparam with Last := state.rparam.Last + 1 } }, false) := by
  have hc : 0 < state.rparam.Count := by omega
  have hn : ¬ state.rparam.Count ≤ state.rparam.Last := by omega
  have hw : wrapInt (state.rparam.Last + 1) = state.rparam.Last + 1 :=
    wrapInt_of_range (by omega) (by omega)
  simp [Ratchet, hc, hn, hP, hw]

/-- One call of `Ratchet` with no period, at the count: `Last` is reset and the answer
is true. -/
theorem Ratchet_at_count (hours : Int → Int → Int) (state : Signalstate) (now : Int)
    (hP : state.rparam.Period = 0) (hc : 0 < state.rparam.Count)
    (hge : state.rparam.Count ≤ state.rparam.Last) :
    Ratchet hours state now =
      ({ state with rparam := { state.rparam with Last := 0 } }, true) := by
  simp [Ratchet, hc, hge, hP]

/-- With no period, `k` calls below the count followed by the call at the count. -/
theorem ratchetCalls_count (hours : Int → Int → Int) :
    ∀ (k : Nat) (state : Signalstate) (nows : List Int),
      state.rparam.Period = 0 → 0 ≤ state.rparam.Last →
      state.rparam.Last + k = state.rparam.Count → 0 < state.rparam.Count →
      state.rparam.Count < 2 ^ 63 → nows.length = k + 1 →
      ratchetCalls hours state nows =
        ({ state with rparam := { state.rparam with Last := 0 } },
         List.replicate k false ++ [true]) := by
  intro k
  induction k with
  | zero =>
    intro state nows hP _ hk hc _ hlen
    match nows, hlen with
    | [now], _ =>
      simp only [ratchetCalls]
      rw [Ratchet_at_count hours state now hP hc (by omega)]
      rfl
  | succ n ih =>
    intro state nows hP h0 hk hc hmax hlen
    match nows, hlen with
    | now :: rest, hlen =>
      simp only [List.length_cons, add_left_inj] at hlen
      have h1 := Ratchet_below_count hours state now hP h0 (by omega) hmax
      have h2 := ih
        { state with rparam := { state.rparam with Last := state.rparam.Last + 1 } } rest
        hP (by simp only; omega) (by simp only; push_cast at hk ⊢; omega) hc hmax hlen
      simp only [ratchetCalls, h1, h2]
      rfl

/-- C16: with `Period = 0`, `Count = c > 0` and `Last = 0`, the next `c` calls of
`Ratchet` return false and the call after them returns true and leaves the state as
it was at the start, so the pattern repeats; with `Count = 0` and `Period = 0` the call
returns false and changes nothing; and no call changes a field other than
`rparam.Last` and `rparam.Ltime`. -/
theorem Ratchet_count_policy (hours : Int → Int → Int) :
    (∀ (state : Signalstate) (c : Nat) (nows : List Int),
      state.rparam.Period = 0 → state.rparam.Count = c → 0 < c → (c : Int) < 2 ^ 63 →
      state.rparam.Last = 0 → nows.length = c + 1 →
      ratchetCalls hours state nows = (state, List.replicate c false ++ [true])) ∧
    (∀ (state : Signalstate) (now : Int),
      state.rparam.Count = 0 → state.rparam.Period = 0 →
      Ratchet hours state now = (state, false)) ∧
    (∀ (state : Signalstate) (now : Int),
      (Ratchet hours state now).1 =
        { state with rparam :=
            { state.rparam with
                Last := (Ratchet hours state now).1.rparam.Last,
                Ltime := (Ratchet hours state now).1.rparam.Ltime } }) := by
  refine ⟨?_, ?_, ?_⟩
  · intro state c nows hP hC hc hmax hL hlen
    rw [ratchetCalls_count hours c state nows hP (by omega) (by omega) (by omega)
      (by omega) hlen]
    congr 1
    obtain ⟨_, _, _, _, _, _, _, _, _, rparam, _, _, _, _, _⟩ := state
    obtain ⟨_, _, _, last, _⟩ := rparam
    simp only at hL
    subst hL
    rfl
  · intro state now hC hP
    simp [Ratchet, hC, hP]
  · intro state now
    unfold Ratchet
    simp only
    split_ifs <;> rfl

/-- C16 at a concrete input: `Count = 3`; four calls answer false, false, false, true
and leave the state as it was. -/
theorem Ratchet_count_policy_witness :
    countThree.rparam.Period = 0 ∧ countThree.rparam.Count = ((3 : Nat) : Int) ∧
    0 < 3 ∧ (((3 : Nat) : Int) < 2 ^ 63) ∧ countThree.rparam.Last = 0 ∧
    [10, 20, 30, 40].length = 3 + 1 ∧
    ratchetCalls hoursBetween countThree [10, 20, 30, 40] =
      (countThree, List.replicate 3 false ++ [true]) :=
  ⟨rfl, rfl, by decide, by decide, rfl, rfl,
   (Ratchet_count_policy hoursBetween).1 countThree 3 [10, 20, 30, 40] rfl rfl (by decide)
     (by decide) rfl rfl⟩

/-! ### TryKeyRing -/

/-- The loop of `TryKeyRing` over a ring that holds `L` with non-nil keys, started at
the slot of pair `j` of the last 16, returns what the lookup over the pairs from `j`
on returns. -/
theorem tryLoop_RingHolds (P : Prims) (c : Bytes) (s : Signalstate) (num : Nat)
    (L : List (Nat × KeyPtr)) (h : RingHolds s L) (hkeys : ∀ e ∈ L, e.2.isSome = true) :
    ∀ (fuel j : Nat), j < L.length → L.length ≤ j + 16 → L.length - j ≤ fuel →
      tryLoop P c s num fuel ((j % 16 : Nat) : Int) = .ok (firstOpening P c num (L.drop j)) := by
  intro fuel
  induction fuel with
  | zero => intro j hj _ hf; omega
  | succ n ih =>
    intro j hj hwin hf
    have hL : L ≠ [] := by
      intro hnil
      rw [hnil] at hj
      simp at hj
    have hend := (h.2.1 hL).1
    have hrange : 0 ≤ ((j % 16 : Nat) : Int) ∧ ((j % 16 : Nat) : Int) < 16 := by omega
    have hidx : (⟨(((j % 16 : Nat) : Int)).toNat, by omega⟩ : Fin 16) =
        ⟨j % 16, Nat.mod_lt _ (by decide)⟩ := by
      apply Fin.ext
      simp only [Int.toNat_ofNat]
    have hentry := h.2.2 j hj hwin
    -- what the loop does after this entry
    have hnext : (if ((j % 16 : Nat) : Int) = s.ringend then
          (.ok (none, some Err.noKeyInRing) : Except Panic (Slice × Option Err))
        else tryLoop P c s num n (Int.tmod (wrapInt (((j % 16 : Nat) : Int) + 1)) 16)) =
        .ok (firstOpening P c num (L.drop (j + 1))) := by
      by_cases hlast : j + 1 = L.length
      · have hi : ((j % 16 : Nat) : Int) = s.ringend := by
          rw [hend]
          congr 2
          omega
        rw [if_pos hi, List.drop_eq_nil_of_le (by omega)]
        rfl
      · have hi : ¬ ((j % 16 : Nat) : Int) = s.ringend := by
          rw [hend]
          omega
        have a1 : j + 1 < L.length := by omega
        have a2 : L.length ≤ j + 1 + 16 := by omega
        have a3 : L.length - (j + 1) ≤ n := by omega
        have hstep : Int.tmod (wrapInt (((j % 16 : Nat) : Int) + 1)) 16 =
            (((j + 1) % 16 : Nat) : Int) := by
          rw [ringNext_of_small (by omega) (by omega)]
          omega
        rw [if_neg hi, hstep, ih (j + 1) a1 a2 a3]
    have hnum : s.ringnum ⟨j % 16, Nat.mod_lt _ (by decide)⟩ = L[j].1 := by rw [← hentry]
    have hkey : s.ringkey ⟨j % 16, Nat.mod_lt _ (by decide)⟩ = L[j].2 := by rw [← hentry]
    obtain ⟨k, hk⟩ := Option.isSome_iff_exists.mp (hkeys L[j] (List.getElem_mem _))
    obtain ⟨r, hdec, _⟩ := Decrypt_returns P c k
    rw [List.drop_eq_getElem_cons hj]
    generalize L[j] = e at hnum hkey hk
    obtain ⟨nj, kj⟩ := e
    simp only at hnum hkey hk
    subst hk
    unfold tryLoop
    simp only [dif_pos hrange, hidx, hnum, hkey, hnext, firstOpening, hdec]
    obtain ⟨p, e⟩ := r
    cases e with
    | none => split_ifs <;> rfl
    | some e => split_ifs <;> rfl

/-- C15: on a state reached from an empty ring (`ringstart = ringend = -1`) by
`AddKeyRing` calls with non-nil keys, `TryKeyRing` returns (its loop ends within 16
iterations and nothing panics), leaves the state as it was, and its result is the
plaintext of the first entry, in ring order from `ringstart` through `ringend`, whose
number equals `num` and whose key opens the ciphertext, or the not-found error when
there is none; on the empty ring it is the not-found error. -/
theorem TryKeyRing_lookup (P : Prims) (c : Bytes) (state : Signalstate) (num : Nat)
    (adds : List (KeyPtr × Nat))
    (hs : state.ringstart = -1) (he : state.ringend = -1)
    (hkeys : ∀ a ∈ adds, a.1.isSome = true) :
    ∃ s1, addAll state adds = .ok s1 ∧
      TryKeyRing P c s1 num = .ok (s1, firstOpening P c num (ringEntries s1)) ∧
      ringEntries s1 = (adds.map (fun a => (a.2, a.1))).drop (adds.length - 16) ∧
      TryKeyRing P c state num = .ok (state, none, some Err.noKeyInRing) := by
  obtain ⟨s1, hrun, hh⟩ := addAll_RingHolds adds state [] (RingHolds_init state hs he)
  simp only [List.nil_append] at hh
  have hent := ringEntries_RingHolds s1 _ hh
  have hkeys1 : ∀ e ∈ adds.map (fun a => (a.2, a.1)), e.2.isSome = true := by
    intro e hemem
    obtain ⟨a, ha, hae⟩ := List.mem_map.mp hemem
    rw [← hae]
    exact hkeys a ha
  refine ⟨s1, hrun, ?_, by simpa using hent, ?_⟩
  · rw [hent]
    unfold TryKeyRing
    by_cases hL : adds.map (fun a => (a.2, a.1)) = []
    · have hst := (hh.1 hL).1
      rw [hst, hL]
      rfl
    · have hst := (hh.2.1 hL).2
      have hpos : 0 < (adds.map (fun a => (a.2, a.1))).length := List.length_pos.mpr hL
      have hj : (adds.map (fun a => (a.2, a.1))).length -
          min (adds.map (fun a => (a.2, a.1))).length 16 =
          (adds.map (fun a => (a.2, a.1))).length - 16 := by omega
      rw [hj] at hst
      rw [if_pos (by omega), hst,
        tryLoop_RingHolds P c s1 num _ hh hkeys1 16 _ (by omega) (by omega) (by omega)]
  · unfold TryKeyRing
    rw [hs]
    rfl

/-- C15 at a concrete input: after the eighteen insertions of `ringAdds` the lookup of
number 105 opens `ringCipher`, and the lookup of number 100, evicted by then, finds
nothing. -/
theorem TryKeyRing_lookup_witness :
    testBob.ringstart = -1 ∧ testBob.ringend = -1 ∧
    (∀ a ∈ ringAdds, a.1.isSome = true) ∧
    (∃ s1, addAll testBob ringAdds = .ok s1 ∧
      TryKeyRing toy ringCipher s1 105 =
        .ok (s1, firstOpening toy ringCipher 105 (ringEntries s1)) ∧
      ringEntries s1 = (ringAdds.map (fun a => (a.2, a.1))).drop (ringAdds.length - 16) ∧
      TryKeyRing toy ringCipher testBob 105 = .ok (testBob, none, some Err.noKeyInRing)) ∧
    firstOpening toy ringCipher 105
        ((ringAdds.map (fun a => (a.2, a.1))).drop (ringAdds.length - 16)) =
      (some [9, 9], none) ∧
    firstOpening toy ringCipher 100
        ((ringAdds.map (fun a => (a.2, a.1))).drop (ringAdds.length - 16)) =
      (none, some Err.noKeyInRing) :=
  ⟨rfl, rfl, by decide,
   TryKeyRing_lookup toy ringCipher testBob 105 ringAdds rfl rfl (by decide),
   by decide!, by decide!⟩

/-! ### SkipMessageKeys when the key derivation succeeds -/

/-- The loop of `SkipMessageKeys` from `recvnum` up to `untilNum`: it makes
`untilNum - recvnum` chain steps and stores the message key of step `n` under
(`rpubkey`, `n`). -/
theorem skipLoop_spec (P : Prims) (untilNum : Nat) (hu : untilNum < 2 ^ 64) :
    ∀ (fuel : Nat) (state : Signalstate) (w : World),
      state.recvchain.isSome = true → state.recvnum ≤ untilNum →
      untilNum - state.recvnum ≤ fuel →
      (∀ pw salt, ∃ out, P.scrypt pw salt state.rparam.ScryptN = some out) →
      ∃ ck keys w1 s1,
        kdfCkTimes P state.rparam (untilNum - state.recvnum) state.recvchain w =
          .ok ((ck, keys, none), w1) ∧
        keys.length = untilNum - state.recvnum ∧
        skipLoop P untilNum fuel state w = .ok ((s1, none), w1) ∧
        s1.recvnum = untilNum ∧ s1.recvchain = ck ∧ ck.isSome = true ∧ skipFrame state s1 ∧
        ∀ k : skipkey, s1.skipped.get k =
          if ptrEq state.rpubkey k.key = true ∧ state.recvnum ≤ k.num ∧ k.num < untilNum
          then keys[k.num - state.recvnum]? else state.skipped.get k := by
  intro fuel
  induction fuel with
  | zero =>
    intro state w hc hle hf _
    have heq : untilNum - state.recvnum = 0 := by omega
    have hnot : ¬ state.recvnum < untilNum := by omega
    refine ⟨state.recvchain, [], w, state, by rw [heq]; rfl, by rw [heq]; rfl,
      by simp [skipLoop, hnot], by omega, rfl, hc, skipFrame_refl _, ?_⟩
    intro k
    have : ¬ (ptrEq state.rpubkey k.key = true ∧ state.recvnum ≤ k.num ∧ k.num < untilNum) := by
      omega
    rw [if_neg this]
  | succ n ih =>
    intro state w hc hle hf hK
    by_cases hlt : state.recvnum < untilNum
    · obtain ⟨ck0, hck0⟩ := Option.isSome_iff_exists.mp hc
      obtain ⟨out, hout⟩ := hK ck0.val constant
      have hw : wrapU64 (state.recvnum + 1) = state.recvnum + 1 :=
        wrapU64_of_lt (by omega)
      have hsteps : untilNum - state.recvnum = (untilNum - (state.recvnum + 1)) + 1 := by
        omega
      obtain ⟨ck, keys, w1, s1, hkdf, hlen, hrun, hnum, hchain, hsome, hfr, hget⟩ :=
        ih { state with
              recvchain := some ⟨w.heap, out.take KeySize⟩,
              skipped := state.skipped.set ⟨state.rpubkey, state.recvnum⟩
                (some ⟨w.heap + 1, (out.drop KeySize).take KeySize⟩),
              recvnum := wrapU64 (state.recvnum + 1) }
           { w with heap := w.heap + 2 } rfl (by simp only [hw]; omega)
           (by simp only [hw]; omega) hK
      simp only [hw] at hkdf hlen hget
      refine ⟨ck, some ⟨w.heap + 1, (out.drop KeySize).take KeySize⟩ :: keys, w1, s1,
        ?_, ?_, ?_, hnum, hchain, hsome, ?_, ?_⟩
      · rw [hsteps]
        simp only [kdfCkTimes, KdfCk, hck0, hout, hkdf]
      · rw [List.length_cons, hlen]
        omega
      · rw [← hrun]
        simp [skipLoop, hlt, KdfCk, hck0, hout]
      · refine skipFrame_trans ?_ hfr
        rfl
      · intro k
        rw [hget k, SkipMap.get_set]
        by_cases hp : ptrEq state.rpubkey k.key = true
        · by_cases hk0 : k.num = state.recvnum
          · have hsame : (⟨state.rpubkey, state.recvnum⟩ : skipkey).same k = true := by
              simp [skipkey.same, hp, hk0]
            have h1 : ¬ (ptrEq state.rpubkey k.key = true ∧ state.recvnum + 1 ≤ k.num ∧
                k.num < untilNum) := by omega
            have h2 : ptrEq state.rpubkey k.key = true ∧ state.recvnum ≤ k.num ∧
                k.num < untilNum := ⟨hp, by omega, by omega⟩
            rw [if_neg h1, if_pos hsame, if_pos h2, hk0]
            simp
          · have hsame : ¬ (⟨state.rpubkey, state.recvnum⟩ : skipkey).same k = true := by
              simp only [skipkey.same, Bool.and_eq_true, beq_iff_eq, not_and]
              intro _ h
              exact hk0 h.symm
            by_cases hin : state.recvnum + 1 ≤ k.num ∧ k.num < untilNum
            · have h1 : ptrEq state.rpubkey k.key = true ∧ state.recvnum + 1 ≤ k.num ∧
                  k.num < untilNum := ⟨hp, hin.1, hin.2⟩
              have h2 : ptrEq state.rpubkey k.key = true ∧ state.recvnum ≤ k.num ∧
                  k.num < untilNum := ⟨hp, by omega, hin.2⟩
              have hidx : k.num - state.recvnum = (k.num - (state.recvnum + 1)) + 1 := by
                omega
              rw [if_pos h1, if_pos h2, hidx, List.getElem?_cons_succ]
            · have h1 : ¬ (ptrEq state.rpubkey k.key = true ∧ state.recvnum + 1 ≤ k.num ∧
                  k.num < untilNum) := fun h => hin h.2
              have h2 : ¬ (ptrEq state.rpubkey k.key = true ∧ state.recvnum ≤ k.num ∧
                  k.num < untilNum) := by
                intro h
                exact hin ⟨by omega, h.2.2⟩
              rw [if_neg h1, if_neg hsame, if_neg h2]
        · have hsame : ¬ (⟨state.rpubkey, state.recvnum⟩ : skipkey).same k = true := by
            simp only [skipkey.same, Bool.and_eq_true, beq_iff_eq, not_and]
            intro h
            exact absurd h hp
          have h1 : ¬ (ptrEq state.rpubkey k.key = true ∧ state.recvnum + 1 ≤ k.num ∧
              k.num < untilNum) := fun h => hp h.1
          have h2 : ¬ (ptrEq state.rpubkey k.key = true ∧ state.recvnum ≤ k.num ∧
              k.num < untilNum) := fun h => hp h.1
          rw [if_neg h1, if_neg hsame, if_neg h2]
    · have heq : untilNum - state.recvnum = 0 := by omega
      refine ⟨state.recvchain, [], w, state, by rw [heq]; rfl, by rw [heq]; rfl,
        by simp [skipLoop, hlt], by omega, rfl, hc, skipFrame_refl _, ?_⟩
      intro k
      have : ¬ (ptrEq state.rpubkey k.key = true ∧ state.recvnum ≤ k.num ∧ k.num < untilNum) := by
        omega
      rw [if_neg this]

/-- C13: on a state with a non-nil `recvchain`, for `recvnum <= until <= recvnum +
MaxSkip`, when the key derivation succeeds, `SkipMessageKeys` returns no error and
leaves `recvnum = until`, `recvchain` = the chain key after `until - recvnum`
applications of `KdfCk`, and `skipped` = the old map with the message key of step `n`
under (`rpubkey`, `n`) for every `n` from the old `recvnum` up to `until - 1`, every
other entry kept; nothing else changes.  With a nil `recvchain` (within the skip limit)
or with `until <= recvnum` the state is left as it was.  (`recvnum + MaxSkip` is taken
within the `uint64` range.) -/
theorem SkipMessageKeys_postcondition (P : Prims) (state : Signalstate) (w : World)
    (hrange : state.recvnum + MaxSkip < 2 ^ 64)
    (hK : ∀ pw salt, ∃ out, P.scrypt pw salt state.rparam.ScryptN = some out) :
    (∀ untilNum, state.recvchain.isSome = true → state.recvnum ≤ untilNum →
      untilNum ≤ state.recvnum + MaxSkip →
      ∃ ck keys w1 s1,
        kdfCkTimes P state.rparam (untilNum - state.recvnum) state.recvchain w =
          .ok ((ck, keys, none), w1) ∧
        keys.length = untilNum - state.recvnum ∧
        SkipMessageKeys P state untilNum w = .ok ((s1, none), w1) ∧
        s1.recvnum = untilNum ∧ s1.recvchain = ck ∧ skipFrame state s1 ∧
        ∀ k : skipkey, s1.skipped.get k =
          if ptrEq state.rpubkey k.key = true ∧ state.recvnum ≤ k.num ∧ k.num < untilNum
          then keys[k.num - state.recvnum]? else state.skipped.get k) ∧
    (∀ untilNum, state.recvchain = none → untilNum ≤ state.recvnum + MaxSkip →
      SkipMessageKeys P state untilNum w = .ok ((state, none), w)) ∧
    (∀ untilNum, untilNum ≤ state.recvnum →
      SkipMessageKeys P state untilNum w = .ok ((state, none), w)) := by
  have hwrap : wrapU64 (state.recvnum + MaxSkip) = state.recvnum + MaxSkip :=
    wrapU64_of_lt hrange
  refine ⟨?_, ?_, ?_⟩
  · intro untilNum hc hle hmax
    obtain ⟨ck, keys, w1, s1, hkdf, hlen, hrun, hnum, hchain, _, hfr, hget⟩ :=
      skipLoop_spec P untilNum (by omega) (untilNum - state.recvnum) state w hc hle le_rfl hK
    refine ⟨ck, keys, w1, s1, hkdf, hlen, ?_, hnum, hchain, hfr, hget⟩
    have h1 : ¬ wrapU64 (state.recvnum + MaxSkip) < untilNum := by
      rw [hwrap]; omega
    simp [SkipMessageKeys, h1, hc, hrun]
  · intro untilNum hc hmax
    have h1 : ¬ wrapU64 (state.recvnum + MaxSkip) < untilNum := by
      rw [hwrap]; omega
    simp [SkipMessageKeys, h1, hc]
  · intro untilNum hle
    exact SkipMessageKeys_nothing P state untilNum w hle hrange

/-- C13 at a concrete input: Bob has received message 0 and skips to 3, which stores
the keys of the messages 1 and 2. -/
theorem SkipMessageKeys_postcondition_witness :
    bobAfterFirst.recvnum + MaxSkip < 2 ^ 64 ∧
    (∀ pw salt, ∃ out, toy.scrypt pw salt bobAfterFirst.rparam.ScryptN = some out) ∧
    bobAfterFirst.recvchain.isSome = true ∧ bobAfterFirst.recvnum ≤ 3 ∧
    3 ≤ bobAfterFirst.recvnum + MaxSkip ∧
    ∃ ck keys w1 s1,
      kdfCkTimes toy bobAfterFirst.rparam (3 - bobAfterFirst.recvnum) bobAfterFirst.recvchain
          testWorld = .ok ((ck, keys, none), w1) ∧
      keys.length = 3 - bobAfterFirst.recvnum ∧
      SkipMessageKeys toy bobAfterFirst 3 testWorld = .ok ((s1, none), w1) ∧
      s1.recvnum = 3 ∧ s1.recvchain = ck ∧ skipFrame bobAfterFirst s1 ∧
      ∀ k : skipkey, s1.skipped.get k =
        if ptrEq bobAfterFirst.rpubkey k.key = true ∧ bobAfterFirst.recvnum ≤ k.num ∧ k.num < 3
        then keys[k.num - bobAfterFirst.recvnum]? else bobAfterFirst.skipped.get k :=
  have hK : ∀ pw salt, ∃ out, toy.scrypt pw salt bobAfterFirst.rparam.ScryptN = some out := by
    have h : bobAfterFirst.rparam.ScryptN = 32768 := by decide!
    rw [h]
    exact toy_behaves.1
  ⟨by decide!, hK, by decide!, by decide!, by decide!,
   (SkipMessageKeys_postcondition toy bobAfterFirst testWorld (by decide!) hK).1 3
     (by decide!) (by decide!) (by decide!)⟩

/-! ### The reply direction -/

/-- `DHRatchet` when every step succeeds, in terms of the primitives. -/
theorem DHRatchet_full (P : Prims) (state : Signalstate) (head : Mesghead) (w : World)
    (sk pk rk : Ptr) (out1 pub pri out2 : Bytes)
    (hsk : state.sendpair.Prikey = some sk) (hpk : head.Pubkey = some pk)
    (hrk : state.rootkey = some rk)
    (h1 : P.scrypt rk.val (P.scalarMult sk.val pk.val) state.rparam.ScryptN = some out1)
    (h2 : P.generateKey w.draws = some (pub, pri))
    (h3 : P.scrypt (out1.take KeySize) (P.scalarMult pri pk.val) state.rparam.ScryptN =
      some out2) :
    DHRatchet P state head w =
      .ok (({ state with
                nummesg := state.sendnum, sendnum := 0, recvnum := 0,
                rpubkey := head.Pubkey,
                rootkey := some ⟨w.heap + 6, out2.take KeySize⟩,
                recvchain := some ⟨w.heap + 2, mesgKeyOf out1⟩,
                sendpair := { Prikey := some ⟨w.heap + 4, pri⟩,
                              Pubkey := some ⟨w.heap + 3, pub⟩ },
                sendchain := some ⟨w.heap + 7, mesgKeyOf out2⟩ },
            none), { heap := w.heap + 8, draws := w.draws + 1 }) := by
  simp [DHRatchet, NewDh, KdfRk, GenerateDh, KeyPair, hpk, hsk, hrk, h1, h2, h3, mesgKeyOf]

theorem ringFrame_send_fields {s s1 : Signalstate} (h : ringFrame s s1) :
    s1.sendchain = s.sendchain ∧ s1.sendpair = s.sendpair ∧ s1.sendnum = s.sendnum ∧
    s1.nummesg = s.nummesg ∧ s1.rootkey = s.rootkey := by
  unfold ringFrame at h
  refine ⟨?_, ?_, ?_, ?_, ?_⟩ <;> rw [h]

/-- The first message of a session at the receiver, with the send side of his DH
ratchet: the call returns the plaintext, and leaves the new key pair, the root key and
send chain key of the second `KdfRk`, and the receive chain key one step on. -/
theorem first_decrypt (P : Prims) (a b : Signalstate) (m : Bytes) (wb : World)
    (sc pk sk rk : Ptr) (out outc n pub pri out2 : Bytes)
    (h2 : a.sendpair.Pubkey = some pk)
    (h3 : a.sendnum = 0) (h4 : a.nummesg = 0)
    (h5 : b.rpubkey = none) (h7 : b.recvnum = 0)
    (h8 : b.skipped = []) (h9 : b.sendpair.Prikey = some sk) (h10 : b.rootkey = some rk)
    (h11 : P.scrypt rk.val (P.scalarMult sk.val pk.val) b.rparam.ScryptN = some out)
    (h12 : mesgKeyOf out = sc.val) (h13 : b.rparam.ScryptN = a.rparam.ScryptN)
    (hring : b.ringend = -1)
    (hgen : P.generateKey wb.draws = some (pub, pri))
    (hout2 : P.scrypt (out.take KeySize) (P.scalarMult pri pk.val) b.rparam.ScryptN =
      some out2)
    (houtc : P.scrypt sc.val constant a.rparam.ScryptN = some outc)
    (hnl : n.length = NonceSize)
    (hopen : P.boxOpen (P.boxSeal m n (mesgKeyOf outc)) n (mesgKeyOf outc) = some m)
    (hover : Overhead ≤ (P.boxSeal m n (mesgKeyOf outc)).length) :
    ∃ b1 w3, RatchetDecrypt P b (Header a.sendpair a.nummesg a.sendnum)
        (n ++ P.boxSeal m n (mesgKeyOf outc)) wb = .ok ((b1, toSlice m, none), w3) ∧
      b1.sendchain = some ⟨wb.heap + 7, mesgKeyOf out2⟩ ∧
      b1.sendpair = { Prikey := some ⟨wb.heap + 4, pri⟩, Pubkey := some ⟨wb.heap + 3, pub⟩ } ∧
      b1.sendnum = 0 ∧ b1.nummesg = b.sendnum ∧
      b1.rootkey = some ⟨wb.heap + 6, out2.take KeySize⟩ ∧
      b1.recvchain = some ⟨wb.heap + 8, chainKeyOf outc⟩ ∧
      b1.rparam = b.rparam ∧ b1.rpubkey = some pk ∧ b1.recvnum = 1 ∧ b1.skipped = [] := by
  have hskip : SkipMessageKeys P b (Header a.sendpair a.nummesg a.sendnum).Nummesg wb =
      .ok ((b, none), wb) :=
    SkipMessageKeys_nothing P b _ wb (by simp [Header, h4]) (by rw [h7]; decide)
  have hd := DHRatchet_full P b (Header a.sendpair a.nummesg a.sendnum) wb sk pk rk out pub pri
    out2 h9 (by simp [Header, h2]) h10 h11 hgen hout2
  have hnew : newChain P b (Header a.sendpair a.nummesg a.sendnum) wb =
      .ok ({ b with
                nummesg := b.sendnum, sendnum := 0, recvnum := 0,
                rpubkey := (Header a.sendpair a.nummesg a.sendnum).Pubkey,
                rootkey := some ⟨wb.heap + 6, out2.take KeySize⟩,
                recvchain := some ⟨wb.heap + 2, mesgKeyOf out⟩,
                sendpair := { Prikey := some ⟨wb.heap + 4, pri⟩,
                              Pubkey := some ⟨wb.heap + 3, pub⟩ },
                sendchain := some ⟨wb.heap + 7, mesgKeyOf out2⟩ },
           { heap := wb.heap + 8, draws := wb.draws + 1 }) := by
    simp only [Header] at hskip hd ⊢
    simp only [newChain, h2, h5, ptrEq, ratchetStep]
    simp only [h2] at hd
    simp [hskip, hd]
  obtain ⟨s4, hadd, hfr⟩ := AddKeyRing_returns
    { b with
        nummesg := b.sendnum, sendnum := 0,
        rpubkey := (Header a.sendpair a.nummesg a.sendnum).Pubkey,
        rootkey := some ⟨wb.heap + 6, out2.take KeySize⟩,
        sendpair := { Prikey := some ⟨wb.heap + 4, pri⟩, Pubkey := some ⟨wb.heap + 3, pub⟩ },
        sendchain := some ⟨wb.heap + 7, mesgKeyOf out2⟩,
        recvchain := some ⟨wb.heap + 8, chainKeyOf outc⟩,
        recvnum := 0 + 1,
        Mesgkey := some ⟨wb.heap + 8 + 1, mesgKeyOf outc⟩ }
    (some ⟨wb.heap + 8 + 1, mesgKeyOf outc⟩) (Header a.sendpair a.nummesg a.sendnum).Sendnum
    (by simp only [hring]; decide) (by simp only [hring]; decide)
  have hdec := Decrypt_sealed P m n (mesgKeyOf outc) ⟨wb.heap + 8 + 1, mesgKeyOf outc⟩
    hopen hover hnl rfl
  have hkdf : P.scrypt (mesgKeyOf out) constant b.rparam.ScryptN = some outc := by
    rw [h12, h13]; exact houtc
  have hrd := RatchetDecrypt_next P b (Header a.sendpair a.nummesg a.sendnum)
    (n ++ P.boxSeal m n (mesgKeyOf outc)) wb _ _ ⟨wb.heap + 2, mesgKeyOf out⟩ outc
    (by simp [h8, SkipMap.get]) hnew (by simp [Header, h3])
    (by show 0 + MaxSkip < 2 ^ 64; decide) rfl hkdf s4 _
    hadd hdec
  obtain ⟨f1, f2, f3, f4, f5, _⟩ := ringFrame_fields hfr
  obtain ⟨g1, g2, g3, g4, g5⟩ := ringFrame_send_fields hfr
  refine ⟨s4, _, hrd, g1, g2, g3, g4, g5, f3, f5, ?_, f2, ?_⟩
  · rw [f1]; simp [Header, h2]
  · rw [f4]; exact h8

/-- The new-chain test of `RatchetDecrypt` on the first header of a reply: the header
key is another array with other bytes than the stored remote key, so the DH ratchet
runs, and leaves the receive chain key equal to the sender's send chain key. -/
theorem newChain_reply (P : Prims) (a b : Signalstate) (wb : World)
    (hs : ReplySync P a b) :
    ∃ s w1 sc rc pk, newChain P b (Header a.sendpair a.nummesg a.sendnum) wb = .ok (s, w1) ∧
      a.sendchain = some sc ∧ s.recvchain = some rc ∧ rc.val = sc.val ∧
      a.sendpair.Pubkey = some pk ∧ s.rpubkey = some pk ∧
      s.recvnum = a.sendnum ∧ s.skipped = [] ∧ s.rparam.ScryptN = a.rparam.ScryptN ∧
      b.skipped = [] ∧
      s.ringkey = b.ringkey ∧ s.ringnum = b.ringnum ∧
      s.ringstart = b.ringstart ∧ s.ringend = b.ringend := by
  obtain ⟨sc, pk, sk, rk, r, out, h1, h2, h3, h4, h5, haddr, hval, h7, h8, h9, h10, h11, h12,
    h13⟩ := hs
  have hskip : SkipMessageKeys P b (Header a.sendpair a.nummesg a.sendnum).Nummesg wb =
      .ok ((b, none), wb) :=
    SkipMessageKeys_nothing P b _ wb (by simp [Header, h4]) (by rw [h7]; decide)
  obtain ⟨s1, e, w1, hd, hrc, hrp, hrn, hsk, hpar, _, hk1, hk2, hk3, hk4⟩ :=
    DHRatchet_recv P b (Header a.sendpair a.nummesg a.sendnum) wb sk pk rk out h9
      (by simp [Header, h2]) h10 h11
  have hne : (pk.addr == r.addr) = false := by
    simp only [beq_eq_false_iff_ne]
    exact fun h => haddr h.symm
  have hv : pk.val ≠ r.val := fun h => hval h.symm
  refine ⟨s1, w1, sc, ⟨wb.heap + 2, mesgKeyOf out⟩, pk, ?_, h1, hrc, h12, h2, ?_, ?_, ?_, ?_,
    h8, hk1, hk2, hk3, hk4⟩
  · simp only [newChain, Header, h2, h5, ptrEq, hne]
    simp only [ratchetStep]
    simp only [Header, h2] at hskip hd
    simp [hskip, hd, hv]
  · rw [hrp]; simp [Header, h2]
  · rw [hrn, h3]
  · rw [hsk, h8]
  · rw [hpar, h13]

/-- One message, given what the new-chain test of `RatchetDecrypt` leaves: the
encryption returns a header and a ciphertext, the decryption returns the plaintext, and
the two chains are in step afterwards. -/
theorem step_of_newChain (P : Prims) (a b : Signalstate) (m : Bytes) (wa wb : World)
    (L : List (Nat × KeyPtr)) (s : Signalstate) (w1 : World) (sc rc pk : Ptr)
    (hnew : newChain P b (Header a.sendpair a.nummesg a.sendnum) wb = .ok (s, w1))
    (h1 : a.sendchain = some sc) (h2 : s.recvchain = some rc) (h3 : rc.val = sc.val)
    (h4 : a.sendpair.Pubkey = some pk) (h5 : s.rpubkey = some pk)
    (h6 : s.recvnum = a.sendnum) (h7 : s.skipped = [])
    (h8 : s.rparam.ScryptN = a.rparam.ScryptN) (hb7 : b.skipped = [])
    (hk1 : s.ringkey = b.ringkey) (hk2 : s.ringnum = b.ringnum)
    (hk3 : s.ringstart = b.ringstart) (hk4 : s.ringend = b.ringend)
    (hP : Behaves P a.rparam.ScryptN)
    (hring : RingHolds b L) (hrange : a.sendnum + 1 + MaxSkip < 2 ^ 64) :
    ∃ a1 head c wa1 b1 wb1,
      RatchetEncrypt P a m wa = .ok ((a1, head, some c, none), wa1) ∧
      RatchetDecrypt P b head c wb = .ok ((b1, toSlice m, none), wb1) ∧
      InSync a1 b1 ∧ RingHolds b1 (L ++ [(head.Sendnum, b1.Mesgkey)]) ∧
      a1.sendnum = a.sendnum + 1 ∧ a1.rparam = a.rparam ∧
      a1.Mesgkey.map Ptr.val = b1.Mesgkey.map Ptr.val ∧
      b1.skipped = [] ∧ a1.skipped = a.skipped ∧
      a1.ringstart = a.ringstart ∧ a1.ringend = a.ringend ∧
      wa1 = { heap := wa.heap + 3, draws := wa.draws + 1 } := by
  obtain ⟨out, hout⟩ := hP.1 sc.val constant
  obtain ⟨n, hn, hnlen⟩ := hP.2.2.2 wa.draws
  have henc := RatchetEncrypt_returns P a m wa sc out n h1 hout hn
  have hkdf : P.scrypt rc.val constant s.rparam.ScryptN = some out := by
    rw [h3, h8]; exact hout
  have hw : wrapU64 (a.sendnum + 1) = a.sendnum + 1 :=
    wrapU64_of_lt (by simp only [MaxSkip] at hrange; omega)
  obtain ⟨s4, hadd, hfr, hh⟩ := AddKeyRing_RingHolds
    { s with
        recvchain := some ⟨w1.heap, chainKeyOf out⟩,
        recvnum := s.recvnum + 1,
        Mesgkey := some ⟨w1.heap + 1, mesgKeyOf out⟩ } L
    (some ⟨w1.heap + 1, mesgKeyOf out⟩) a.sendnum
    (RingHolds_congr b _ L hk1 hk2 hk3 hk4 hring)
  have hdec := Decrypt_sealed P m n (mesgKeyOf out) ⟨w1.heap + 1, mesgKeyOf out⟩
    (hP.2.1 m n (mesgKeyOf out)) (hP.2.2.1 m n (mesgKeyOf out)) hnlen rfl
  have hrd := RatchetDecrypt_next P b (Header a.sendpair a.nummesg a.sendnum)
    (n ++ P.boxSeal m n (mesgKeyOf out)) wb s w1 rc out
    (by simp [hb7, SkipMap.get]) hnew (by simp [Header, h6])
    (by rw [h6]; omega) h2 hkdf s4 _ hadd hdec
  obtain ⟨f1, f2, f3, f4, f5, f6⟩ := ringFrame_fields hfr
  simp only at f1 f2 f3 f4 f5 f6
  refine ⟨_, _, _, _, s4, _, henc, hrd, ?_, ?_, hw, rfl, ?_, ?_, rfl, rfl, rfl, rfl⟩
  · refine ⟨⟨wa.heap, chainKeyOf out⟩, ⟨w1.heap, chainKeyOf out⟩, pk, rfl, f3, rfl, h4, ?_, ?_, ?_, ?_⟩
    · rw [f1, h5]
    · rw [f2, h6]; exact hw.symm
    · rw [f4, h7]
    · rw [f5]; exact h8
  · rw [f6]; exact hh
  · rw [f6]; rfl
  · rw [f4, h7]

/-- The first message of a reply: it is decrypted to the plaintext, and the two chains
are in step afterwards. -/
theorem reply_step (P : Prims) (a b : Signalstate) (m : Bytes) (wa wb : World)
    (L : List (Nat × KeyPtr))
    (hs : ReplySync P a b) (hP : Behaves P a.rparam.ScryptN)
    (hring : RingHolds b L) (hrange : a.sendnum + 1 + MaxSkip < 2 ^ 64) :
    ∃ a1 head c wa1 b1 wb1,
      RatchetEncrypt P a m wa = .ok ((a1, head, some c, none), wa1) ∧
      RatchetDecrypt P b head c wb = .ok ((b1, toSlice m, none), wb1) ∧
      InSync a1 b1 ∧ RingHolds b1 (L ++ [(head.Sendnum, b1.Mesgkey)]) ∧
      a1.sendnum = a.sendnum + 1 ∧ a1.rparam = a.rparam ∧
      a1.Mesgkey.map Ptr.val = b1.Mesgkey.map Ptr.val ∧
      b1.skipped = [] ∧ a1.skipped = a.skipped ∧
      a1.ringstart = a.ringstart ∧ a1.ringend = a.ringend ∧
      wa1 = { heap := wa.heap + 3, draws := wa.draws + 1 } := by
  obtain ⟨s, w1, sc, rc, pk, hnew, h1, h2, h3, h4, h5, h6, h7, h8, hb7, hk1, hk2, hk3, hk4⟩ :=
    newChain_reply P a b wb hs
  exact step_of_newChain P a b m wa wb L s w1 sc rc pk hnew h1 h2 h3 h4 h5 h6 h7 h8 hb7
    hk1 hk2 hk3 hk4 hP hring hrange

/-- Messages of a reply, encrypted and then decrypted in order: all calls return without
error and the receiver recovers every plaintext. -/
theorem reply_core (P : Prims) (msgs : List Bytes) (a b : Signalstate) (wa wb : World)
    (L : List (Nat × KeyPtr))
    (hs : ReplySync P a b) (hP : Behaves P a.rparam.ScryptN) (hring : RingHolds b L)
    (hrange : a.sendnum + msgs.length + MaxSkip < 2 ^ 64) :
    ∃ sent wa1 got wb1,
      encryptAll P a wa msgs = .ok (sent, wa1) ∧
      decryptAll P b wb (sent.map wire) = .ok (got, wb1) ∧
      sent.map (fun x => x.2.2.2) = msgs.map (fun _ => none) ∧
      got.map (fun x => x.2) = msgs.map (fun m => (toSlice m, none)) := by
  cases msgs with
  | nil => exact ⟨[], wa, [], wb, rfl, rfl, rfl, rfl⟩
  | cons m ms =>
    simp only [List.length_cons] at hrange
    obtain ⟨a1, head, c, wa1, b1, wb1, henc, hdec, hsync, hring1, hnum, hpar, _⟩ :=
      reply_step P a b m wa wb L hs hP hring (by omega)
    obtain ⟨sent, wa2, got, wb2, _, e1, e2, e3, e4, _⟩ :=
      inorder_core P ms a1 b1 wa1 wb1 (L ++ [(head.Sendnum, b1.Mesgkey)]) (Or.inl hsync)
        (by rw [hpar]; exact hP) hring1 (by rw [hnum]; omega)
    refine ⟨(a1, head, some c, none) :: sent, wa2, (b1, toSlice m, none) :: got, wb2,
      ?_, ?_, ?_, ?_⟩
    · simp [encryptAll, henc, e1]
    · simp [decryptAll, wire, hdec, e2]
    · simp [e3]
    · simp [e4]

/-- Messages of a reply, each decrypted right after it was encrypted: every
`RatchetDecrypt` returns the plaintext, with no error. -/
theorem reply_exchange (P : Prims) (msgs : List Bytes) (a b : Signalstate) (w : World)
    (L : List (Nat × KeyPtr))
    (hs : ReplySync P a b) (hP : Behaves P a.rparam.ScryptN) (hring : RingHolds b L)
    (hrange : a.sendnum + msgs.length + MaxSkip < 2 ^ 64) :
    ∃ x, exchangeAll P a b w msgs = .ok (msgs.map (fun m => (toSlice m, none)), x) := by
  cases msgs with
  | nil => exact ⟨_, rfl⟩
  | cons m ms =>
    simp only [List.length_cons] at hrange
    obtain ⟨a1, head, c, wa1, b1, wb1, henc, hdec, hsync, hring1, hnum, hpar, _, _, _, _, _,
      hwa⟩ := reply_step P a b m w { heap := w.heap + 3, draws := w.draws + 1 } L hs hP hring
        (by omega)
    obtain ⟨x, hx⟩ := exchange_core P ms a1 b1 wb1 (L ++ [(head.Sendnum, b1.Mesgkey)])
      (Or.inl hsync) (by rw [hpar]; exact hP) hring1 (by rw [hnum]; omega)
    rw [← hwa] at hdec
    exact ⟨x, by simp [exchangeAll, henc, hdec, hx]⟩

/-- Alice after `RatchetInitSender`, field by field. -/
theorem session_start (P : Prims) (sa : Signalstate) (symkey bobPub : Ptr)
    (wa : World) (apub apri out : Bytes)
    (hgen : P.generateKey wa.draws = some (apub, apri))
    (hkdf : P.scrypt symkey.val (P.scalarMult apri bobPub.val) sa.rparam.ScryptN = some out) :
    ∃ alice, RatchetInitSender P sa (some symkey) (some bobPub) wa =
        .ok ((alice, none), { heap := wa.heap + 5, draws := wa.draws + 1 }) ∧
      alice.sendpair = { Prikey := some ⟨wa.heap + 1, apri⟩, Pubkey := some ⟨wa.heap, apub⟩ } ∧
      alice.rpubkey = some bobPub ∧
      alice.rootkey = some ⟨wa.heap + 3, out.take KeySize⟩ ∧
      alice.sendchain = some ⟨wa.heap + 4, mesgKeyOf out⟩ ∧
      alice.sendnum = 0 ∧ alice.recvnum = 0 ∧ alice.nummesg = 0 ∧ alice.skipped = [] ∧
      alice.ringstart = -1 ∧ alice.ringend = -1 ∧ alice.rparam = sa.rparam :=
  ⟨_, RatchetInitSender_returns P sa symkey bobPub wa apub apri out hgen hkdf,
    rfl, rfl, rfl, rfl, rfl, rfl, rfl, rfl, rfl, rfl, rfl⟩

/-- C19, as the code behaves.  Alice is initialised with `RatchetInitSender(symkey,
bob.pub)` and Bob with `RatchetInitReceiver(symkey, bob's key pair)`, with the same
`ScryptN`; the primitives behave, the Diffie-Hellman results agree for Alice's pair with
Bob's first pair and with the pair Bob generates in his DH ratchet, and that pair has
other bytes than, and lies in another array as, his first public key.  Then Bob's
`RatchetDecrypt` of Alice's first message returns the plaintext, and in it the first
`KdfRk` of his `DHRatchet` returns the root key and the initial send chain key Alice
derived in `RatchetInitSender`; when the call is over his `rootkey` and `sendchain` are
the two halves of the second `KdfRk`, on that root key and the DH result of the new pair,
and his `recvchain` equals Alice's `sendchain` after her `RatchetEncrypt`.  Alice's
`DHRatchet` on the header of Bob's reply yields a `recvchain` equal to Bob's `sendchain`,
and every message Bob then produces with `RatchetEncrypt` is decrypted by Alice's
`RatchetDecrypt` to the same plaintext, with no error, whether the replies are decrypted
after all were encrypted or one by one.  (The number of replies stays in the `uint64`
range.) -/
theorem reply_chain_agreement (P : Prims) (sa sb : Signalstate) (symkey bobPub bobPri : Ptr)
    (apub apri bpub bpri : Bytes) (wa wb wr wd : World) (m0 : Bytes) (replies : List Bytes)
    (hN : sb.rparam.ScryptN = sa.rparam.ScryptN)
    (hP : Behaves P sa.rparam.ScryptN)
    (hgenA : P.generateKey wa.draws = some (apub, apri))
    (hdh : P.scalarMult apri bobPub.val = P.scalarMult bobPri.val apub)
    (hgenB : P.generateKey wb.draws = some (bpub, bpri))
    (hdh2 : P.scalarMult apri bpub = P.scalarMult bpri apub)
    (hdiff : bpub ≠ bobPub.val)
    (hfresh : bobPub.addr < wb.heap)
    (hlen : replies.length + MaxSkip < 2 ^ 64) :
    ∃ alice w1 a1 head c w2 b1 w3,
      RatchetInitSender P sa (some symkey) (some bobPub) wa = .ok ((alice, none), w1) ∧
      RatchetEncrypt P alice m0 w1 = .ok ((a1, head, some c, none), w2) ∧
      RatchetDecrypt P
        (RatchetInitReceiver sb (some symkey) { Prikey := some bobPri, Pubkey := some bobPub })
        head c wb = .ok ((b1, toSlice m0, none), w3) ∧
      (∃ dh wx rk1 ck1 wy out2,
        NewDh P { Prikey := some bobPri, Pubkey := some bobPub } head.Pubkey wb =
          .ok (dh, wx) ∧
        KdfRk P (some symkey) dh sb.rparam wx = .ok ((some rk1, some ck1, none), wy) ∧
        alice.rootkey.map Ptr.val = some rk1.val ∧
        alice.sendchain.map Ptr.val = some ck1.val ∧
        P.scrypt rk1.val (P.scalarMult bpri apub) sb.rparam.ScryptN = some out2 ∧
        b1.rootkey.map Ptr.val = some (out2.take KeySize) ∧
        b1.sendchain.map Ptr.val = some (mesgKeyOf out2)) ∧
      b1.recvchain.map Ptr.val = a1.sendchain.map Ptr.val ∧
      (∃ a2 e w4,
        DHRatchet P a1 (Header b1.sendpair b1.nummesg b1.sendnum) wd = .ok ((a2, e), w4) ∧
        a2.recvchain.map Ptr.val = b1.sendchain.map Ptr.val) ∧
      (∃ sent w5 got w6,
        encryptAll P b1 wr replies = .ok (sent, w5) ∧
        sent.map (fun x => x.2.2.2) = replies.map (fun _ => none) ∧
        decryptAll P a1 wd (sent.map wire) = .ok (got, w6) ∧
        got.map (fun x => (x.2.1.getD [], x.2.2)) = replies.map (fun m => (m, none))) ∧
      (exchangeAll P b1 a1 wr replies).map
          (fun r => r.1.map (fun x => (x.1.getD [], x.2))) =
        .ok (replies.map (fun m => (m, none))) := by
  obtain ⟨out0, hout0⟩ := hP.1 symkey.val (P.scalarMult apri bobPub.val)
  obtain ⟨alice, hinit, i1, i2, i3, i4, i5, i6, i7, i8, i9, i10, i11⟩ :=
    session_start P sa symkey bobPub wa apub apri out0 hgenA hout0
  obtain ⟨outc, houtc⟩ := hP.1 (mesgKeyOf out0) constant
  obtain ⟨n, hn, hnl⟩ := hP.2.2.2 (wa.draws + 1)
  obtain ⟨out2, hout2⟩ := hP.1 (out0.take KeySize) (P.scalarMult bpri apub)
  have houtcA : P.scrypt (mesgKeyOf out0) constant alice.rparam.ScryptN = some outc := by
    rw [i11]; exact houtc
  have henc := RatchetEncrypt_returns P alice m0 { heap := wa.heap + 5, draws := wa.draws + 1 }
    ⟨wa.heap + 4, mesgKeyOf out0⟩ outc n i4 houtcA hn
  have hsc : P.scrypt symkey.val (P.scalarMult bobPri.val apub) sb.rparam.ScryptN =
      some out0 := by
    rw [← hdh, hN]; exact hout0
  have hout2B : P.scrypt (out0.take KeySize) (P.scalarMult bpri apub) sb.rparam.ScryptN =
      some out2 := by
    rw [hN]; exact hout2
  obtain ⟨b1, w3, hdec, g1, g2, g3, g4, g5, g6, g7, g8, g9, g10⟩ :=
    first_decrypt P alice
      (RatchetInitReceiver sb (some symkey) { Prikey := some bobPri, Pubkey := some bobPub })
      m0 wb ⟨wa.heap + 4, mesgKeyOf out0⟩ ⟨wa.heap, apub⟩ bobPri symkey out0 outc n bpub bpri
      out2 (by rw [i1]) i5 i7 rfl rfl rfl rfl rfl hsc rfl (by rw [i11]; exact hN) rfl hgenB
      hout2B houtcA hnl (hP.2.1 m0 n (mesgKeyOf outc)) (hP.2.2.1 m0 n (mesgKeyOf outc))
  have hpar : b1.rparam.ScryptN = sa.rparam.ScryptN := by
    rw [g7]; exact hN
  have hkA : P.scrypt (out0.take KeySize) (P.scalarMult apri bpub) alice.rparam.ScryptN =
      some out2 := by
    rw [i11, hdh2]; exact hout2
  have hskA : alice.sendpair.Prikey = some ⟨wa.heap + 1, apri⟩ := by rw [i1]
  have hreply : ReplySync P b1
      { alice with
          sendchain := some ⟨wa.heap + 5, chainKeyOf outc⟩,
          sendnum := wrapU64 (alice.sendnum + 1),
          Mesgkey := some ⟨wa.heap + 5 + 1, mesgKeyOf outc⟩ } :=
    ⟨⟨wb.heap + 7, mesgKeyOf out2⟩, ⟨wb.heap + 3, bpub⟩, ⟨wa.heap + 1, apri⟩,
      ⟨wa.heap + 3, out0.take KeySize⟩, bobPub, out2, g1, by rw [g2], g3, g4, i2,
      by show bobPub.addr ≠ wb.heap + 3; omega, fun h => hdiff h.symm, i6, i8, hskA, i3, hkA,
      rfl, by show alice.rparam.ScryptN = _; rw [i11, hpar]⟩
  have hPb : Behaves P b1.rparam.ScryptN := by rw [hpar]; exact hP
  have hringA : RingHolds
      { alice with
          sendchain := some ⟨wa.heap + 5, chainKeyOf outc⟩,
          sendnum := wrapU64 (alice.sendnum + 1),
          Mesgkey := some ⟨wa.heap + 5 + 1, mesgKeyOf outc⟩ } [] :=
    RingHolds_init _ i9 i10
  obtain ⟨sent, w5, got, w6, e1, e2, e3, e4⟩ :=
    reply_core P replies b1 _ wr wd [] hreply hPb hringA (by rw [g3]; omega)
  obtain ⟨x, hx⟩ :=
    reply_exchange P replies b1 _ wr [] hreply hPb hringA (by rw [g3]; omega)
  obtain ⟨a2, e, w4, hd, hrc, _⟩ := DHRatchet_recv P
    { alice with
        sendchain := some ⟨wa.heap + 5, chainKeyOf outc⟩,
        sendnum := wrapU64 (alice.sendnum + 1),
        Mesgkey := some ⟨wa.heap + 5 + 1, mesgKeyOf outc⟩ }
    (Header b1.sendpair b1.nummesg b1.sendnum) wd ⟨wa.heap + 1, apri⟩ ⟨wb.heap + 3, bpub⟩
    ⟨wa.heap + 3, out0.take KeySize⟩ out2 hskA (by simp [Header, g2]) i3 hkA
  refine ⟨alice, _, _, _, _, _, b1, w3, hinit, henc, hdec, ?_, ?_, ⟨a2, e, w4, hd, ?_⟩,
    ⟨sent, w5, got, w6, e1, e3, e2, ?_⟩, ?_⟩
  · refine ⟨some ⟨wb.heap, P.scalarMult bobPri.val apub⟩, { wb with heap := wb.heap + 1 },
      ⟨wb.heap + 1, out0.take KeySize⟩, ⟨wb.heap + 1 + 1, mesgKeyOf out0⟩,
      { heap := wb.heap + 1 + 2, draws := wb.draws }, out2, ?_, ?_, ?_,
      ?_, hout2B, ?_, ?_⟩
    · simp [NewDh, Header, i1]
    · simp [KdfRk, hsc, mesgKeyOf]
    · rw [i3]; rfl
    · rw [i4]; rfl
    · rw [g5]; rfl
    · rw [g1]; rfl
  · rw [g6]; rfl
  · rw [hrc, g1]; rfl
  · have : got.map (fun x => (x.2.1.getD [], x.2.2)) =
        (got.map (fun x => x.2)).map (fun r => (r.1.getD [], r.2)) := by
      simp [List.map_map]
    rw [this, e4]
    simp [List.map_map, toSlice_getD]
  · rw [hx]
    simp [Except.map, List.map_map, toSlice_getD]

/-- C19 at a concrete input: the session of `TestSignal` on the concrete primitives,
one message from Alice and two replies from Bob. -/
theorem reply_chain_agreement_witness :
    testConfigured.rparam.ScryptN = testConfigured.rparam.ScryptN ∧
    Behaves toy testConfigured.rparam.ScryptN ∧
    toy.generateKey testWorld.draws = some (List.replicate 32 36, List.replicate 32 2) ∧
    toy.scalarMult (List.replicate 32 2) (List.replicate 32 (6 ^ 9 % 251)) =
      toy.scalarMult (List.replicate 32 9) (List.replicate 32 36) ∧
    toy.generateKey replyWorld.draws = some (List.replicate 32 41, List.replicate 32 4) ∧
    toy.scalarMult (List.replicate 32 2) (List.replicate 32 41) =
      toy.scalarMult (List.replicate 32 4) (List.replicate 32 36) ∧
    List.replicate 32 41 ≠ List.replicate 32 (6 ^ 9 % 251) ∧
    1 < replyWorld.heap ∧
    replyMsgs.length + MaxSkip < 2 ^ 64 ∧
    ∃ alice w1 a1 head c w2 b1 w3,
      RatchetInitSender toy testConfigured testSymkey testBobPair.Pubkey testWorld =
        .ok ((alice, none), w1) ∧
      RatchetEncrypt toy alice [1] w1 = .ok ((a1, head, some c, none), w2) ∧
      RatchetDecrypt toy testBob head c replyWorld = .ok ((b1, toSlice [1], none), w3) ∧
      (∃ dh wx rk1 ck1 wy out2,
        NewDh toy testBobPair head.Pubkey replyWorld = .ok (dh, wx) ∧
        KdfRk toy testSymkey dh testConfigured.rparam wx =
          .ok ((some rk1, some ck1, none), wy) ∧
        alice.rootkey.map Ptr.val = some rk1.val ∧
        alice.sendchain.map Ptr.val = some ck1.val ∧
        toy.scrypt rk1.val (toy.scalarMult (List.replicate 32 4) (List.replicate 32 36))
          testConfigured.rparam.ScryptN = some out2 ∧
        b1.rootkey.map Ptr.val = some (out2.take KeySize) ∧
        b1.sendchain.map Ptr.val = some (mesgKeyOf out2)) ∧
      b1.recvchain.map Ptr.val = a1.sendchain.map Ptr.val ∧
      (∃ a2 e w4,
        DHRatchet toy a1 (Header b1.sendpair b1.nummesg b1.sendnum) testWorld =
          .ok ((a2, e), w4) ∧
        a2.recvchain.map Ptr.val = b1.sendchain.map Ptr.val) ∧
      (∃ sent w5 got w6,
        encryptAll toy b1 replyWorld replyMsgs = .ok (sent, w5) ∧
        sent.map (fun x => x.2.2.2) = replyMsgs.map (fun _ => none) ∧
        decryptAll toy a1 testWorld (sent.map wire) = .ok (got, w6) ∧
        got.map (fun x => (x.2.1.getD [], x.2.2)) = replyMsgs.map (fun m => (m, none))) ∧
      (exchangeAll toy b1 a1 replyWorld replyMsgs).map
          (fun r => r.1.map (fun x => (x.1.getD [], x.2))) =
        .ok (replyMsgs.map (fun m => (m, none))) :=
  ⟨rfl, toy_behaves, by decide, by decide, by decide, by decide, by decide, by decide,
   by decide,
   reply_chain_agreement toy testConfigured testConfigured ⟨0, List.replicate 32 7⟩
     ⟨1, List.replicate 32 (6 ^ 9 % 251)⟩ ⟨2, List.replicate 32 9⟩
     (List.replicate 32 36) (List.replicate 32 2) (List.replicate 32 41) (List.replicate 32 4)
     testWorld replyWorld replyWorld testWorld [1] replyMsgs
     rfl toy_behaves (by decide) (by decide) (by decide) (by decide) (by decide) (by decide)
     (by decide)⟩

/-- C19, the claim as it stands fails: in the session of `TestSignal` on the concrete
primitives (the Diffie-Hellman results agree, the key derivation succeeds, the pair Bob
generates differs from his first one), Bob's `RatchetDecrypt` of Alice's first message
returns the plaintext, and afterwards his `rootkey` is not the root key Alice derived in
`RatchetInitSender` and his `recvchain` is not her initial `sendchain`. -/
theorem first_decrypt_keys_not_of_RatchetInitSender :
    testAlice.1.sendpair.Prikey.map Ptr.val = some (List.replicate 32 2) ∧
    testAlice.1.sendpair.Pubkey.map Ptr.val = some (List.replicate 32 36) ∧
    toy.scalarMult (List.replicate 32 2) (List.replicate 32 (6 ^ 9 % 251)) =
      toy.scalarMult (List.replicate 32 9) (List.replicate 32 36) ∧
    (testReceive skipMsgs [0]).map (fun r => r.1.map (fun x => x.2)) =
      .ok [(some [1, 2, 3], none)] ∧
    bobAfterFirst.sendpair.Pubkey.map Ptr.val ≠ testBobPair.Pubkey.map Ptr.val ∧
    testAlice.1.rootkey.map Ptr.val = some (List.replicate 32 137) ∧
    bobAfterFirst.rootkey.map Ptr.val = some (List.replicate 32 199) ∧
    testAlice.1.sendchain.map Ptr.val = some (List.replicate 32 138) ∧
    bobAfterFirst.recvchain.map Ptr.val = some (List.replicate 32 186) ∧
    bobAfterFirst.rootkey.map Ptr.val ≠ testAlice.1.rootkey.map Ptr.val ∧
    bobAfterFirst.recvchain.map Ptr.val ≠ testAlice.1.sendchain.map Ptr.val := by
  decide!

/-! ### RatchetDecrypt called again, on any chain -/

/-- One more `KdfCk` step after `n` of them. -/
theorem kdfCkTimes_snoc (P : Prims) (rp : Ratchetparam) :
    ∀ (n : Nat) (ck : KeyPtr) (w : World) (ck1 : Ptr) (keys : List KeyPtr) (w1 : World)
      (out : Bytes),
      kdfCkTimes P rp n ck w = .ok ((some ck1, keys, none), w1) →
      P.scrypt ck1.val constant rp.ScryptN = some out →
      kdfCkTimes P rp (n + 1) ck w =
        .ok ((some ⟨w1.heap, out.take KeySize⟩,
              keys ++ [some ⟨w1.heap + 1, (out.drop KeySize).take KeySize⟩], none),
             { w1 with heap := w1.heap + 2 }) := by
  intro n
  induction n with
  | zero =>
    intro ck w ck1 keys w1 out h hs
    simp only [kdfCkTimes, Except.ok.injEq, Prod.mk.injEq, and_true] at h
    obtain ⟨⟨h1, h2⟩, h3⟩ := h
    subst h1 h2 h3
    simp [kdfCkTimes, KdfCk, hs]
  | succ n ih =>
    intro ck w ck1 keys w1 out h hs
    cases ck with
    | none => simp [kdfCkTimes, KdfCk] at h
    | some c0 =>
      cases hs0 : P.scrypt c0.val constant rp.ScryptN with
      | none => simp [kdfCkTimes, KdfCk, hs0] at h
      | some o0 =>
        cases hrec : kdfCkTimes P rp n (some ⟨w.heap, o0.take KeySize⟩)
            { w with heap := w.heap + 2 } with
        | error p => simp [kdfCkTimes, KdfCk, hs0, hrec] at h
        | ok r =>
          obtain ⟨⟨ck2, mks, e⟩, w2⟩ := r
          simp only [kdfCkTimes, KdfCk, hs0, hrec, Except.ok.injEq, Prod.mk.injEq] at h
          obtain ⟨⟨h1, h2, h3⟩, h4⟩ := h
          subst h1 h2 h3 h4
          have hnext := ih _ _ ck1 mks w2 out hrec hs
          rw [kdfCkTimes]
          simp only [KdfCk, hs0, hnext]
          rfl

/-- `SkipMessageKeys` returns when the bound is within the skip limit. -/
theorem SkipMessageKeys_returns (P : Prims) (state : Signalstate) (untilNum : Nat) (w : World)
    (hu : untilNum < 2 ^ 64) (hrange : state.recvnum + MaxSkip < 2 ^ 64)
    (hle : untilNum ≤ state.recvnum + MaxSkip) :
    ∃ s1 e w1, SkipMessageKeys P state untilNum w = .ok ((s1, e), w1) ∧ skipFrame state s1 := by
  have h1 : ¬ wrapU64 (state.recvnum + MaxSkip) < untilNum := by
    rw [wrapU64_of_lt hrange]; omega
  by_cases h2 : state.recvchain.isSome = true
  · obtain ⟨s1, e, w1, hrun, hfr⟩ :=
      skipLoop_returns P untilNum hu (untilNum - state.recvnum) state w h2 le_rfl
    exact ⟨s1, e, w1, by simp [SkipMessageKeys, h1, h2, hrun], hfr⟩
  · exact ⟨state, none, w, by simp [SkipMessageKeys, h1, h2], skipFrame_refl _⟩

/-- `DHRatchet` dereferences a nil header key, private key or root key. -/
theorem DHRatchet_nil (P : Prims) (state : Signalstate) (head : Mesghead) (w : World)
    (h : head.Pubkey = none ∨ state.sendpair.Prikey = none ∨ state.rootkey = none) :
    DHRatchet P state head w = .error Panic.nilDeref := by
  cases hpk : head.Pubkey with
  | none => cases hsk : state.sendpair.Prikey <;> simp [DHRatchet, NewDh, hpk, hsk]
  | some pk =>
    cases hsk : state.sendpair.Prikey with
    | none => simp [DHRatchet, NewDh, hpk, hsk]
    | some sk =>
      cases hrk : state.rootkey with
      | none => simp [DHRatchet, NewDh, KdfRk, hpk, hsk, hrk]
      | some rk => simp [hpk, hsk, hrk] at h

/-- `RatchetDecrypt` from the new-chain test on, when no skipped key is stored for the
header and the chain key is not nil: the call stops in the panic of `SkipMessageKeys`
when the header number lies beyond the skip limit; otherwise it skips up to the header
number, makes one more chain step and returns what `Decrypt` returns under the message
key of that step. -/
theorem RatchetDecrypt_from_chain (P : Prims) (state : Signalstate) (head : Mesghead)
    (c : Bytes) (w : World) (s : Signalstate) (w1 : World) (ck : Ptr)
    (hnone : state.skipped.get ⟨head.Pubkey, head.Sendnum⟩ = none)
    (hnew : newChain P state head w = .ok (s, w1))
    (hchain : s.recvchain = some ck)
    (hK : ∀ pw salt, ∃ out, P.scrypt pw salt s.rparam.ScryptN = some out)
    (hrange : s.recvnum + MaxSkip < 2 ^ 64) (hS : head.Sendnum + 1 < 2 ^ 64)
    (hring : -1 ≤ s.ringend ∧ s.ringend < 16) :
    (s.recvnum + MaxSkip < head.Sendnum →
      RatchetDecrypt P state head c w = .error Panic.tooManySkipped) ∧
    (head.Sendnum ≤ s.recvnum + MaxSkip →
      ∃ s4 r w4 ck4 keys mk,
        RatchetDecrypt P state head c w = .ok ((s4, r), w4) ∧
        kdfCkTimes P s.rparam (head.Sendnum - s.recvnum + 1) s.recvchain w1 =
          .ok ((some ck4, keys, none), w4) ∧
        keys.length = head.Sendnum - s.recvnum + 1 ∧
        keys.getLast? = some (some mk) ∧
        Decrypt P c (some mk) = .ok r ∧
        (P.boxOpen (c.drop NonceSize) (c.take NonceSize) mk.val = none →
          r.1 = none ∧ r.2 ≠ none) ∧
        s4.recvchain = some ck4 ∧ s4.recvnum = max s.recvnum head.Sendnum + 1 ∧
        s4.Mesgkey = some mk ∧
        s4.rpubkey = s.rpubkey ∧ s4.rootkey = s.rootkey ∧ s4.sendpair = s.sendpair ∧
        s4.sendchain = s.sendchain ∧ s4.sendnum = s.sendnum ∧ s4.nummesg = s.nummesg ∧
        s4.rparam = s.rparam ∧
        ∀ k : skipkey, s4.skipped.get k =
          if ptrEq s.rpubkey k.key = true ∧ s.recvnum ≤ k.num ∧ k.num < head.Sendnum
          then keys[k.num - s.recvnum]? else s.skipped.get k) := by
  have htry : TrySkippedMessageKeys P state head c = .ok (state, none, none) := by
    simp [TrySkippedMessageKeys, hnone]
  refine ⟨?_, ?_⟩
  · intro hgt
    have hover := SkipMessageKeys_overflow P s head.Sendnum w1
      (by rw [wrapU64_of_lt hrange]; exact hgt)
    unfold RatchetDecrypt
    simp only [htry, hnew, hover]
  · intro hmax
    have hwrap : wrapU64 (s.recvnum + MaxSkip) = s.recvnum + MaxSkip := wrapU64_of_lt hrange
    have hc : s.recvchain.isSome = true := by rw [hchain]; rfl
    obtain ⟨s3, w3, ck3, keys0, hskip, hkdf0, hlen0, hnum3, hchain3, hfr, hget⟩ :
        ∃ s3 w3 ck3 keys0,
          SkipMessageKeys P s head.Sendnum w1 = .ok ((s3, none), w3) ∧
          kdfCkTimes P s.rparam (head.Sendnum - s.recvnum) s.recvchain w1 =
            .ok ((some ck3, keys0, none), w3) ∧
          keys0.length = head.Sendnum - s.recvnum ∧
          s3.recvnum = max s.recvnum head.Sendnum ∧ s3.recvchain = some ck3 ∧
          skipFrame s s3 ∧
          ∀ k : skipkey, s3.skipped.get k =
            if ptrEq s.rpubkey k.key = true ∧ s.recvnum ≤ k.num ∧ k.num < head.Sendnum
            then keys0[k.num - s.recvnum]? else s.skipped.get k := by
      by_cases hle : head.Sendnum ≤ s.recvnum
      · have h0 : head.Sendnum - s.recvnum = 0 := by omega
        refine ⟨s, w1, ck, [], SkipMessageKeys_nothing P s head.Sendnum w1 hle hrange, ?_, ?_,
          ?_, hchain, skipFrame_refl _, ?_⟩
        · rw [h0, hchain]; rfl
        · rw [h0]; rfl
        · omega
        · intro k
          have : ¬ (ptrEq s.rpubkey k.key = true ∧ s.recvnum ≤ k.num ∧ k.num < head.Sendnum) := by
            omega
          rw [if_neg this]
      · obtain ⟨cko, keys0, w3, s3, hkdf, hlen, hrun, hnum, hch, hsome, hfr, hget⟩ :=
          skipLoop_spec P head.Sendnum (by omega) (head.Sendnum - s.recvnum) s w1 hc (by omega)
            le_rfl hK
        obtain ⟨ck3, hck3⟩ := Option.isSome_iff_exists.mp hsome
        have h1 : ¬ wrapU64 (s.recvnum + MaxSkip) < head.Sendnum := by
          rw [hwrap]; omega
        refine ⟨s3, w3, ck3, keys0, ?_, ?_, hlen, ?_, ?_, hfr, hget⟩
        · simp [SkipMessageKeys, h1, hc, hrun]
        · rw [hkdf, hck3]
        · rw [hnum]; omega
        · rw [hch, hck3]
    have hsucc : s3.recvnum + 1 < 2 ^ 64 := by
      rw [hnum3]; simp only [MaxSkip] at hrange; omega
    have hpar : s3.rparam = s.rparam := by rw [hfr]
    have hre : s3.ringend = s.ringend := by rw [hfr]
    obtain ⟨out, hout⟩ := hK ck3.val constant
    have hsn := kdfCkTimes_snoc P s.rparam _ _ _ ck3 keys0 w3 out hkdf0 hout
    have hw : wrapU64 (s3.recvnum + 1) = s3.recvnum + 1 := wrapU64_of_lt hsucc
    have hck : KdfCk P s3.recvchain s3.rparam w3 =
        .ok ((some ⟨w3.heap, out.take KeySize⟩,
              some ⟨w3.heap + 1, (out.drop KeySize).take KeySize⟩, none),
             { w3 with heap := w3.heap + 2 }) := by
      simp [KdfCk, hchain3, hpar, hout]
    obtain ⟨s4, hadd, hfr4⟩ := AddKeyRing_returns
      { s3 with
          recvchain := some ⟨w3.heap, out.take KeySize⟩,
          recvnum := wrapU64 (s3.recvnum + 1),
          Mesgkey := some ⟨w3.heap + 1, (out.drop KeySize).take KeySize⟩ }
      (some ⟨w3.heap + 1, (out.drop KeySize).take KeySize⟩) head.Sendnum
      (by show -1 ≤ s3.ringend; rw [hre]; exact hring.1)
      (by show s3.ringend < 16; rw [hre]; exact hring.2)
    obtain ⟨r, hdec, herr⟩ :=
      Decrypt_returns P c ⟨w3.heap + 1, (out.drop KeySize).take KeySize⟩
    refine ⟨s4, r, _, _, _, ⟨w3.heap + 1, (out.drop KeySize).take KeySize⟩, ?_, hsn, ?_, ?_,
      hdec, herr, ?_, ?_, ?_, ?_, ?_, ?_, ?_, ?_, ?_, ?_, ?_⟩
    · unfold RatchetDecrypt
      simp only [htry, hnew, hskip, hck, hadd, hdec]
    · simp [hlen0]
    · simp
    · rw [hfr4]
    · rw [hfr4]; show wrapU64 (s3.recvnum + 1) = _; rw [hw, hnum3]
    · rw [hfr4]
    · rw [hfr4]; show s3.rpubkey = _; rw [hfr]
    · rw [hfr4]; show s3.rootkey = _; rw [hfr]
    · rw [hfr4]; show s3.sendpair = _; rw [hfr]
    · rw [hfr4]; show s3.sendchain = _; rw [hfr]
    · rw [hfr4]; show s3.sendnum = _; rw [hfr]
    · rw [hfr4]; show s3.nummesg = _; rw [hfr]
    · rw [hfr4]; exact hpar
    · intro k
      have hsk : s4.skipped = s3.skipped := by rw [hfr4]
      rw [hsk, hget k]
      by_cases hcond : ptrEq s.rpubkey k.key = true ∧ s.recvnum ≤ k.num ∧ k.num < head.Sendnum
      · rw [if_pos hcond, if_pos hcond]
        have hidx : k.num - s.recvnum < keys0.length := by rw [hlen0]; omega
        rw [List.getElem?_append_left hidx]
      · rw [if_neg hcond, if_neg hcond]

theorem newChain_current (P : Prims) (state : Signalstate) (head : Mesghead) (w : World)
    (h : onCurrentChain state head = true) : newChain P state head w = .ok (state, w) := by
  unfold onCurrentChain at h
  unfold newChain
  cases hr : state.rpubkey with
  | none =>
    cases hh : head.Pubkey with
    | none => simp [ptrEq]
    | some hk => simp [ptrEq, hr, hh] at h
  | some r =>
    cases hh : head.Pubkey with
    | none => simp [ptrEq, hr, hh] at h
    | some hk =>
      simp only [ptrEq, hr, hh, Bool.or_eq_true, beq_iff_eq, decide_eq_true_eq] at h
      by_cases ha : hk.addr = r.addr
      · simp [ptrEq, ha]
      · have hv : hk.val = r.val := h.resolve_left ha
        simp [ptrEq, ha, hv]

theorem newChain_other (P : Prims) (state : Signalstate) (head : Mesghead) (w : World)
    (hp : Ptr) (h : onCurrentChain state head = false) (hh : head.Pubkey = some hp) :
    newChain P state head w = ratchetStep P state head w := by
  unfold onCurrentChain at h
  unfold newChain
  cases hr : state.rpubkey with
  | none => simp [ptrEq, hh]
  | some r =>
    simp only [ptrEq, hr, hh, Bool.or_eq_false_iff, beq_eq_false_iff_ne, ne_eq,
      decide_eq_false_iff_not] at h
    simp [ptrEq, hh, h.1, h.2]

theorem newChain_other_nil (P : Prims) (state : Signalstate) (head : Mesghead) (w : World)
    (h : onCurrentChain state head = false) (hh : head.Pubkey = none) :
    newChain P state head w = .error Panic.nilDeref := by
  unfold onCurrentChain at h
  unfold newChain
  cases hr : state.rpubkey with
  | none => simp [ptrEq, hr, hh] at h
  | some r => simp [ptrEq, hh]

/-- The send counters after `DHRatchet`, whenever it returns. -/
theorem DHRatchet_counters (P : Prims) (state : Signalstate) (head : Mesghead) (w : World)
    (sd : Signalstate) (e : Option Err) (wd : World)
    (h : DHRatchet P state head w = .ok ((sd, e), wd)) :
    sd.sendnum = 0 ∧ sd.nummesg = state.sendnum := by
  cases hpk : head.Pubkey with
  | none => cases hsk : state.sendpair.Prikey <;> simp [DHRatchet, NewDh, hpk, hsk] at h
  | some pk =>
    cases hsk : state.sendpair.Prikey with
    | none => simp [DHRatchet, NewDh, hpk, hsk] at h
    | some sk =>
      cases hrk : state.rootkey with
      | none => simp [DHRatchet, NewDh, KdfRk, hpk, hsk, hrk] at h
      | some rk =>
        cases h1 : P.scrypt rk.val (P.scalarMult sk.val pk.val) state.rparam.ScryptN with
        | none =>
          simp only [DHRatchet, NewDh, KdfRk, hpk, hsk, hrk, h1, Except.ok.injEq,
            Prod.mk.injEq] at h
          obtain ⟨⟨rfl, _⟩, _⟩ := h
          exact ⟨rfl, rfl⟩
        | some out =>
          cases h2 : P.generateKey (w.draws) with
          | none =>
            simp only [DHRatchet, NewDh, KdfRk, GenerateDh, KeyPair, hpk, hsk, hrk, h1, h2,
              Except.ok.injEq, Prod.mk.injEq] at h
            obtain ⟨⟨rfl, _⟩, _⟩ := h
            exact ⟨rfl, rfl⟩
          | some kp =>
            obtain ⟨pub, pri⟩ := kp
            cases h3 : P.scrypt (out.take KeySize) (P.scalarMult pri pk.val)
                state.rparam.ScryptN with
            | none =>
              simp only [DHRatchet, NewDh, KdfRk, GenerateDh, KeyPair, hpk, hsk, hrk, h1, h2,
                h3, Except.ok.injEq, Prod.mk.injEq] at h
              obtain ⟨⟨rfl, _⟩, _⟩ := h
              exact ⟨rfl, rfl⟩
            | some out2 =>
              simp only [DHRatchet, NewDh, KdfRk, GenerateDh, KeyPair, hpk, hsk, hrk, h1, h2,
                h3, Except.ok.injEq, Prod.mk.injEq] at h
              obtain ⟨⟨rfl, _⟩, _⟩ := h
              exact ⟨rfl, rfl⟩

/-- C4, as the code behaves.  The skipped store holds no key under (header public key,
header `Sendnum`), as after the message was decrypted from its skipped key; the key
derivation succeeds and the counters stay in the `uint64` range.  `RatchetDecrypt` then
runs its ordinary path.

With a header of the current chain (`head.Pubkey` is `rpubkey`, by pointer or by bytes)
and a non-nil `recvchain`: the call stops in the panic of `SkipMessageKeys` when
`Sendnum > recvnum + MaxSkip`; otherwise it makes `max (Sendnum - recvnum) 0 + 1` steps
of `KdfCk` on `recvchain`, stores the message keys of all but the last step as
skipped, leaves `recvnum = max recvnum Sendnum + 1`, and returns what `Decrypt` returns
under the message key of the last step: an error when the box does not open under it.
`rpubkey`, `rootkey`, `sendpair`, `sendchain`, `sendnum`, `nummesg` and `rparam` stay.

With a header of another chain and non-nil header key, private key and root key: the
call stops in that panic when `Nummesg > recvnum + MaxSkip`; otherwise
`SkipMessageKeys(state, Nummesg)` and `DHRatchet(state, head)` run, which makes
`rpubkey = head.Pubkey`, `recvnum = 0` and `recvchain` the chain key of the root step on
`rootkey` and the DH result of the own private key with the header key.  Then the call
stops in the panic when `Sendnum > MaxSkip`, and otherwise makes `Sendnum + 1` steps of
`KdfCk` on that chain key, stores the message keys of all but the last step as skipped
under the header key, leaves `recvnum = Sendnum + 1`, and returns what `Decrypt` returns
under the message key of the last step; `rootkey`, `sendpair` and `sendchain` are as
`DHRatchet` left them.

In the remaining states (current chain with a nil `recvchain`, another chain with a nil
header key, private key or root key) the call stops in a panic. -/
theorem RatchetDecrypt_replay (P : Prims) (state : Signalstate) (head : Mesghead)
    (ciphertext : Bytes) (w : World)
    (hnone : state.skipped.get ⟨head.Pubkey, head.Sendnum⟩ = none)
    (hK : ∀ pw salt, ∃ out, P.scrypt pw salt state.rparam.ScryptN = some out)
    (hrange : state.recvnum + MaxSkip < 2 ^ 64)
    (hS : head.Sendnum + 1 < 2 ^ 64) (hN : head.Nummesg < 2 ^ 64)
    (hring : -1 ≤ state.ringend ∧ state.ringend < 16) :
    (onCurrentChain state head = true → ∀ ck, state.recvchain = some ck →
      (state.recvnum + MaxSkip < head.Sendnum →
        RatchetDecrypt P state head ciphertext w = .error Panic.tooManySkipped) ∧
      (head.Sendnum ≤ state.recvnum + MaxSkip →
        ∃ s4 r w4 ck4 keys mk,
          RatchetDecrypt P state head ciphertext w = .ok ((s4, r), w4) ∧
          kdfCkTimes P state.rparam (head.Sendnum - state.recvnum + 1) state.recvchain w =
            .ok ((some ck4, keys, none), w4) ∧
          keys.length = head.Sendnum - state.recvnum + 1 ∧
          keys.getLast? = some (some mk) ∧
          Decrypt P ciphertext (some mk) = .ok r ∧
          (P.boxOpen (ciphertext.drop NonceSize) (ciphertext.take NonceSize) mk.val = none →
            r.1 = none ∧ r.2 ≠ none) ∧
          s4.recvchain = some ck4 ∧ s4.recvnum = max state.recvnum head.Sendnum + 1 ∧
          s4.Mesgkey = some mk ∧
          s4.rpubkey = state.rpubkey ∧ s4.rootkey = state.rootkey ∧
          s4.sendpair = state.sendpair ∧ s4.sendchain = state.sendchain ∧
          s4.sendnum = state.sendnum ∧ s4.nummesg = state.nummesg ∧
          s4.rparam = state.rparam ∧
          ∀ k : skipkey, s4.skipped.get k =
            if ptrEq state.rpubkey k.key = true ∧ state.recvnum ≤ k.num ∧
              k.num < head.Sendnum
            then keys[k.num - state.recvnum]? else state.skipped.get k)) ∧
    (onCurrentChain state head = false → ∀ hp sk rk, head.Pubkey = some hp →
      state.sendpair.Prikey = some sk → state.rootkey = some rk →
      (state.recvnum + MaxSkip < head.Nummesg →
        RatchetDecrypt P state head ciphertext w = .error Panic.tooManySkipped) ∧
      (head.Nummesg ≤ state.recvnum + MaxSkip →
        ∃ s1 e1 w1 sd e2 wd out,
          SkipMessageKeys P state head.Nummesg w = .ok ((s1, e1), w1) ∧
          skipFrame state s1 ∧
          DHRatchet P s1 head w1 = .ok ((sd, e2), wd) ∧
          P.scrypt rk.val (P.scalarMult sk.val hp.val) state.rparam.ScryptN = some out ∧
          sd.recvchain = some ⟨w1.heap + 2, mesgKeyOf out⟩ ∧
          sd.rpubkey = head.Pubkey ∧ sd.recvnum = 0 ∧ sd.skipped = s1.skipped ∧
          (MaxSkip < head.Sendnum →
            RatchetDecrypt P state head ciphertext w = .error Panic.tooManySkipped) ∧
          (head.Sendnum ≤ MaxSkip →
            ∃ s4 r w4 ck4 keys mk,
              RatchetDecrypt P state head ciphertext w = .ok ((s4, r), w4) ∧
              kdfCkTimes P state.rparam (head.Sendnum + 1) sd.recvchain wd =
                .ok ((some ck4, keys, none), w4) ∧
              keys.length = head.Sendnum + 1 ∧
              keys.getLast? = some (some mk) ∧
              Decrypt P ciphertext (some mk) = .ok r ∧
              (P.boxOpen (ciphertext.drop NonceSize) (ciphertext.take NonceSize) mk.val =
                  none → r.1 = none ∧ r.2 ≠ none) ∧
              s4.recvchain = some ck4 ∧ s4.recvnum = head.Sendnum + 1 ∧
              s4.Mesgkey = some mk ∧
              s4.rpubkey = head.Pubkey ∧ s4.rootkey = sd.rootkey ∧
              s4.sendpair = sd.sendpair ∧ s4.sendchain = sd.sendchain ∧
              s4.sendnum = 0 ∧ s4.nummesg = state.sendnum ∧
              s4.rparam = state.rparam ∧
              ∀ k : skipkey, s4.skipped.get k =
                if ptrEq head.Pubkey k.key = true ∧ k.num < head.Sendnum
                then keys[k.num]? else s1.skipped.get k))) ∧
    ((onCurrentChain state head = true ∧ state.recvchain = none) ∨
        (onCurrentChain state head = false ∧
          (head.Pubkey = none ∨ state.sendpair.Prikey = none ∨ state.rootkey = none)) →
      RatchetDecrypt P state head ciphertext w = .error Panic.tooManySkipped ∨
      RatchetDecrypt P state head ciphertext w = .error Panic.nilDeref) := by
  have htry : TrySkippedMessageKeys P state head ciphertext = .ok (state, none, none) := by
    simp [TrySkippedMessageKeys, hnone]
  have hwrap : wrapU64 (state.recvnum + MaxSkip) = state.recvnum + MaxSkip :=
    wrapU64_of_lt hrange
  refine ⟨?_, ?_, ?_⟩
  · intro hcur ck hchain
    exact RatchetDecrypt_from_chain P state head ciphertext w state w ck hnone
      (newChain_current P state head w hcur) hchain hK hrange hS hring
  · intro hoth hp sk rk hhp hsk hrk
    have hnc := newChain_other P state head w hp hoth hhp
    refine ⟨?_, ?_⟩
    · intro hgt
      have hover := SkipMessageKeys_overflow P state head.Nummesg w (by rw [hwrap]; exact hgt)
      unfold RatchetDecrypt
      simp only [htry, hnc, ratchetStep, hover]
    · intro hle
      obtain ⟨s1, e1, w1, hskip, hfr⟩ :=
        SkipMessageKeys_returns P state head.Nummesg w hN hrange hle
      have hpar1 : s1.rparam = state.rparam := by rw [hfr]
      have hsk1 : s1.sendpair.Prikey = some sk := by rw [hfr]; exact hsk
      have hrk1 : s1.rootkey = some rk := by rw [hfr]; exact hrk
      have hre1 : s1.ringend = state.ringend := by rw [hfr]
      have hsn1 : s1.sendnum = state.sendnum := by rw [hfr]
      obtain ⟨out, hout⟩ := hK rk.val (P.scalarMult sk.val hp.val)
      obtain ⟨sd, e2, wd, hd, hrc, hrp, hrn, hsd, hpard, _, _, _, _, hred⟩ :=
        DHRatchet_recv P s1 head w1 sk hp rk out hsk1 hhp hrk1 (by rw [hpar1]; exact hout)
      have hnew : newChain P state head w = .ok (sd, wd) := by
        rw [hnc]
        simp only [ratchetStep, hskip, hd]
      have hpar : sd.rparam = state.rparam := by rw [hpard, hpar1]
      have hKd : ∀ pw salt, ∃ o, P.scrypt pw salt sd.rparam.ScryptN = some o := by
        rw [hpar]; exact hK
      have hrange0 : sd.recvnum + MaxSkip < 2 ^ 64 := by rw [hrn]; decide
      have hringd : -1 ≤ sd.ringend ∧ sd.ringend < 16 := by
        rw [hred, hre1]; exact hring
      have htail := RatchetDecrypt_from_chain P state head ciphertext w sd wd
        ⟨w1.heap + 2, mesgKeyOf out⟩ hnone hnew hrc hKd hrange0 hS hringd
      refine ⟨s1, e1, w1, sd, e2, wd, out, hskip, hfr, hd, hout, hrc, hrp, hrn, hsd, ?_, ?_⟩
      · intro hgt
        exact htail.1 (by rw [hrn]; omega)
      · intro hmax
        obtain ⟨s4, r, w4, ck4, keys, mk, t1, t2, t3, t4, t5, t6, t7, t8, t9, t10, t11, t12,
          t13, t14, t15, t16, t17⟩ := htail.2 (by rw [hrn]; omega)
        have hsdn := DHRatchet_counters P s1 head w1 sd e2 wd hd
        refine ⟨s4, r, w4, ck4, keys, mk, t1, ?_, ?_, t4, t5, t6, t7, ?_, t9, ?_, t11, t12,
          t13, ?_, ?_, ?_, ?_⟩
        · rw [hrn, hpar] at t2; exact t2
        · rw [hrn] at t3; exact t3
        · rw [hrn] at t8; rw [t8]; simp
        · rw [t10, hrp]
        · rw [t14]; exact hsdn.1
        · rw [t15, hsdn.2, hsn1]
        · rw [t16, hpar]
        · intro k
          rw [t17 k, hrn, hrp, hsd]
          simp
  · rintro (⟨hcur, hnil⟩ | ⟨hoth, hnil⟩)
    · have hnew := newChain_current P state head w hcur
      by_cases hov : state.recvnum + MaxSkip < head.Sendnum
      · left
        have hover := SkipMessageKeys_overflow P state head.Sendnum w (by rw [hwrap]; exact hov)
        unfold RatchetDecrypt
        simp only [htry, hnew, hover]
      · right
        have h1 : ¬ wrapU64 (state.recvnum + MaxSkip) < head.Sendnum := by rw [hwrap]; exact hov
        have hskip : SkipMessageKeys P state head.Sendnum w = .ok ((state, none), w) := by
          simp [SkipMessageKeys, h1, hnil]
        unfold RatchetDecrypt
        simp only [htry, hnew, hskip, hnil, KdfCk]
    · cases hhp : head.Pubkey with
      | none =>
        right
        have hnew := newChain_other_nil P state head w hoth hhp
        unfold RatchetDecrypt
        simp only [htry, hnew]
      | some hp =>
        have hnc := newChain_other P state head w hp hoth hhp
        by_cases hov : state.recvnum + MaxSkip < head.Nummesg
        · left
          have hover := SkipMessageKeys_overflow P state head.Nummesg w
            (by rw [hwrap]; exact hov)
          unfold RatchetDecrypt
          simp only [htry, hnc, ratchetStep, hover]
        · right
          obtain ⟨s1, e1, w1, hskip, hfr⟩ :=
            SkipMessageKeys_returns P state head.Nummesg w hN hrange (by omega)
          have hnil1 : head.Pubkey = none ∨ s1.sendpair.Prikey = none ∨ s1.rootkey = none := by
            rcases hnil with h | h | h
            · exact Or.inl h
            · exact Or.inr (Or.inl (by rw [hfr]; exact h))
            · exact Or.inr (Or.inr (by rw [hfr]; exact h))
          have hd := DHRatchet_nil P s1 head w1 hnil1
          unfold RatchetDecrypt
          simp only [htry, hnc, ratchetStep, hskip, hd]

/-- A key stored again under the header of a consumed message (by a later run of
`SkipMessageKeys`) and under which `Decrypt` gives no plaintext: `TrySkippedMessageKeys`
deletes it, and `RatchetDecrypt` goes on as from the state without it, where no key is
stored under the header. -/
theorem RatchetDecrypt_stale_key (P : Prims) (state : Signalstate) (head : Mesghead)
    (ciphertext : Bytes) (w : World) (key : KeyPtr) (err : Option Err)
    (hget : state.skipped.get ⟨head.Pubkey, head.Sendnum⟩ = some key)
    (hdec : Decrypt P ciphertext key = .ok (none, err)) :
    RatchetDecrypt P state head ciphertext w =
      RatchetDecrypt P
        { state with
            skipped := state.skipped.delete ⟨head.Pubkey, head.Sendnum⟩, Mesgkey := key }
        head ciphertext w ∧
    (state.skipped.delete ⟨head.Pubkey, head.Sendnum⟩).get ⟨head.Pubkey, head.Sendnum⟩ =
      none := by
  have hgone := SkipMap.get_delete_same state.skipped ⟨head.Pubkey, head.Sendnum⟩
    ⟨head.Pubkey, head.Sendnum⟩ (same_refl _)
  refine ⟨?_, hgone⟩
  unfold RatchetDecrypt
  simp only [TrySkippedMessageKeys, hget, hdec, hgone]

/-- C4 at two concrete inputs, in the session of `TestSignal` on the concrete
primitives.  The first message of `skipMsgs`, which Bob decrypted from its skipped key,
is passed to `RatchetDecrypt` once more: in `replayState`, where its chain is the
current one, and in `nextChainState`, where Bob has moved on to Alice's next chain. -/
theorem RatchetDecrypt_replay_witness :
    (replayState.skipped.get ⟨replayPacket.1.Pubkey, replayPacket.1.Sendnum⟩ = none ∧
      (∀ pw salt, ∃ out, toy.scrypt pw salt replayState.rparam.ScryptN = some out) ∧
      replayState.recvnum + MaxSkip < 2 ^ 64 ∧
      replayPacket.1.Sendnum + 1 < 2 ^ 64 ∧ replayPacket.1.Nummesg < 2 ^ 64 ∧
      (-1 ≤ replayState.ringend ∧ replayState.ringend < 16) ∧
      onCurrentChain replayState replayPacket.1 = true ∧
      replayState.recvchain = some ⟨24, List.replicate 32 235⟩ ∧
      replayPacket.1.Sendnum ≤ replayState.recvnum + MaxSkip ∧
      ∃ s4 r w4 ck4 keys mk,
        RatchetDecrypt toy replayState replayPacket.1 replayPacket.2 (testSend skipMsgs).2 =
          .ok ((s4, r), w4) ∧
        kdfCkTimes toy replayState.rparam (replayPacket.1.Sendnum - replayState.recvnum + 1)
          replayState.recvchain (testSend skipMsgs).2 = .ok ((some ck4, keys, none), w4) ∧
        keys.length = replayPacket.1.Sendnum - replayState.recvnum + 1 ∧
        keys.getLast? = some (some mk) ∧
        Decrypt toy replayPacket.2 (some mk) = .ok r ∧
        (toy.boxOpen (replayPacket.2.drop NonceSize) (replayPacket.2.take NonceSize) mk.val =
          none → r.1 = none ∧ r.2 ≠ none) ∧
        s4.recvchain = some ck4 ∧
        s4.recvnum = max replayState.recvnum replayPacket.1.Sendnum + 1 ∧
        s4.Mesgkey = some mk ∧
        s4.rpubkey = replayState.rpubkey ∧ s4.rootkey = replayState.rootkey ∧
        s4.sendpair = replayState.sendpair ∧ s4.sendchain = replayState.sendchain ∧
        s4.sendnum = replayState.sendnum ∧ s4.nummesg = replayState.nummesg ∧
        s4.rparam = replayState.rparam ∧
        ∀ k : skipkey, s4.skipped.get k =
          if ptrEq replayState.rpubkey k.key = true ∧ replayState.recvnum ≤ k.num ∧
            k.num < replayPacket.1.Sendnum
          then keys[k.num - replayState.recvnum]? else replayState.skipped.get k) ∧
    (nextChainState.skipped.get ⟨replayPacket.1.Pubkey, replayPacket.1.Sendnum⟩ = none ∧
      (∀ pw salt, ∃ out, toy.scrypt pw salt nextChainState.rparam.ScryptN = some out) ∧
      nextChainState.recvnum + MaxSkip < 2 ^ 64 ∧
      (-1 ≤ nextChainState.ringend ∧ nextChainState.ringend < 16) ∧
      onCurrentChain nextChainState replayPacket.1 = false ∧
      replayPacket.1.Pubkey = some ⟨3, List.replicate 32 36⟩ ∧
      nextChainState.sendpair.Prikey = some ⟨46, List.replicate 32 9⟩ ∧
      nextChainState.rootkey = some ⟨48, List.replicate 32 142⟩ ∧
      replayPacket.1.Nummesg ≤ nextChainState.recvnum + MaxSkip ∧
      ∃ s1 e1 w1 sd e2 wd out,
        SkipMessageKeys toy nextChainState replayPacket.1.Nummesg nextChainWorld =
          .ok ((s1, e1), w1) ∧
        skipFrame nextChainState s1 ∧
        DHRatchet toy s1 replayPacket.1 w1 = .ok ((sd, e2), wd) ∧
        toy.scrypt (List.replicate 32 142)
          (toy.scalarMult (List.replicate 32 9) (List.replicate 32 36))
          nextChainState.rparam.ScryptN = some out ∧
        sd.recvchain = some ⟨w1.heap + 2, mesgKeyOf out⟩ ∧
        sd.rpubkey = replayPacket.1.Pubkey ∧ sd.recvnum = 0 ∧ sd.skipped = s1.skipped ∧
        (MaxSkip < replayPacket.1.Sendnum →
          RatchetDecrypt toy nextChainState replayPacket.1 replayPacket.2 nextChainWorld =
            .error Panic.tooManySkipped) ∧
        (replayPacket.1.Sendnum ≤ MaxSkip →
          ∃ s4 r w4 ck4 keys mk,
            RatchetDecrypt toy nextChainState replayPacket.1 replayPacket.2 nextChainWorld =
              .ok ((s4, r), w4) ∧
            kdfCkTimes toy nextChainState.rparam (replayPacket.1.Sendnum + 1) sd.recvchain wd =
              .ok ((some ck4, keys, none), w4) ∧
            keys.length = replayPacket.1.Sendnum + 1 ∧
            keys.getLast? = some (some mk) ∧
            Decrypt toy replayPacket.2 (some mk) = .ok r ∧
            (toy.boxOpen (replayPacket.2.drop NonceSize) (replayPacket.2.take NonceSize)
                mk.val = none → r.1 = none ∧ r.2 ≠ none) ∧
            s4.recvchain = some ck4 ∧ s4.recvnum = replayPacket.1.Sendnum + 1 ∧
            s4.Mesgkey = some mk ∧
            s4.rpubkey = replayPacket.1.Pubkey ∧ s4.rootkey = sd.rootkey ∧
            s4.sendpair = sd.sendpair ∧ s4.sendchain = sd.sendchain ∧
            s4.sendnum = 0 ∧ s4.nummesg = nextChainState.sendnum ∧
            s4.rparam = nextChainState.rparam ∧
            ∀ k : skipkey, s4.skipped.get k =
              if ptrEq replayPacket.1.Pubkey k.key = true ∧ k.num < replayPacket.1.Sendnum
              then keys[k.num]? else s1.skipped.get k)) :=
  have hK1 : ∀ pw salt, ∃ out, toy.scrypt pw salt replayState.rparam.ScryptN = some out := by
    have h : replayState.rparam.ScryptN = 32768 := by decide!
    rw [h]
    exact toy_behaves.1
  have hK2 : ∀ pw salt, ∃ out, toy.scrypt pw salt nextChainState.rparam.ScryptN = some out := by
    have h : nextChainState.rparam.ScryptN = 32768 := by decide!
    rw [h]
    exact toy_behaves.1
  ⟨⟨by decide!, hK1, by decide!, by decide!, by decide!, by decide!, by decide!, by decide!,
      by decide!,
      ((RatchetDecrypt_replay toy replayState replayPacket.1 replayPacket.2
          (testSend skipMsgs).2 (by decide!) hK1 (by decide!) (by decide!) (by decide!)
          (by decide!)).1 (by decide!) ⟨24, List.replicate 32 235⟩ (by decide!)).2
        (by decide!)⟩,
   ⟨by decide!, hK2, by decide!, by decide!, by decide!, by decide!, by decide!, by decide!,
      by decide!,
      ((RatchetDecrypt_replay toy nextChainState replayPacket.1 replayPacket.2
          nextChainWorld (by decide!) hK2 (by decide!) (by decide!) (by decide!)
          (by decide!)).2.1 (by decide!) ⟨3, List.replicate 32 36⟩ ⟨46, List.replicate 32 9⟩
          ⟨48, List.replicate 32 142⟩ (by decide!) (by decide!) (by decide!)).2
        (by decide!)⟩⟩

/-- The replay of a consumed message of the previous chain, run: in `nextChainState`
Bob's remote key is the key of Alice's second chain and `recvnum` is 1.  The first
message of `skipMsgs`, of her first chain, passed once more returns the secretbox open
error, and the call has made a DH ratchet on the old header key: `rpubkey` is that key
again, and `rootkey`, `recvchain` and the key pair are replaced. -/
theorem RatchetDecrypt_replay_previous_chain :
    afterNextChain.map (fun r => r.1.recvnum) = .ok 1 ∧
    nextChainState.rpubkey.map Ptr.val = some (List.replicate 32 71) ∧
    nextChainState.rootkey.map Ptr.val = some (List.replicate 32 142) ∧
    nextChainState.recvchain.map Ptr.val = some (List.replicate 32 78) ∧
    replayPacket.1.Pubkey.map Ptr.val = some (List.replicate 32 36) ∧
    nextChainState.skipped.get ⟨replayPacket.1.Pubkey, replayPacket.1.Sendnum⟩ = none ∧
    (RatchetDecrypt toy nextChainState replayPacket.1 replayPacket.2 nextChainWorld).map
        (fun r => r.1.2) = .ok (none, some Err.openSecretbox) ∧
    (RatchetDecrypt toy nextChainState replayPacket.1 replayPacket.2 nextChainWorld).map
        (fun r => r.1.1.recvnum) = .ok 1 ∧
    (RatchetDecrypt toy nextChainState replayPacket.1 replayPacket.2 nextChainWorld).map
        (fun r => r.1.1.rpubkey.map Ptr.val) = .ok (some (List.replicate 32 36)) ∧
    (RatchetDecrypt toy nextChainState replayPacket.1 replayPacket.2 nextChainWorld).map
        (fun r => r.1.1.rootkey.map Ptr.val) = .ok (some (List.replicate 32 114)) ∧
    (RatchetDecrypt toy nextChainState replayPacket.1 replayPacket.2 nextChainWorld).map
        (fun r => r.1.1.recvchain.map Ptr.val) = .ok (some (List.replicate 32 110)) ∧
    (RatchetDecrypt toy nextChainState replayPacket.1 replayPacket.2 nextChainWorld).map
        (fun r => decide (r.1.1.sendpair = nextChainState.sendpair)) = .ok false := by
  decide!

end Signalplus
